import Mathlib

/-!
Shallow embedding of `pkg/loadbalancer/experimental/bpf_reconciler.go`
(the BPF load-balancer reconciler) and verification of its specification.

Modelling conventions:
* Go machine integers are modelled as `Nat`; where the Go code truncates
  (e.g. `uint16(feID)` when building reverse-NAT keys) we take `% 65536`.
* Go maps are modelled as association lists with a `lookup`/`update`/`erase`
  interface; Go `sets.Set` values are modelled as lists with membership
  semantics.
* The kernel table driver (`lbmaps`) is modelled as four in-state tables
  plus a failure oracle (`failures : List Bool`): each datapath write pops
  the head of the oracle (an empty oracle means success) and appends the
  attempted operation to a trace, so that theorems can speak both about
  datapath contents and about which writes were issued.
* Types that live outside the given source files (`loadbalancer.L3n4Addr`,
  `Frontend`, `BackendState`, the `lbmap` key/value types) are modelled from
  the spec's data-model section (§3): an address is an (L3 address with
  family and cluster, protocol, port, scope) tuple whose canonical string
  key is modelled by the address value itself, and backend states order
  `Active` first.
-/

set_option maxHeartbeats 1000000

deriving instance DecidableEq for Except

namespace LBRec

/-! ## Association-list maps (model of Go maps) -/

/-- Lookup in an association-list map (model of Go map read). -/
def mlookup {κ ν : Type} [DecidableEq κ] : List (κ × ν) → κ → Option ν
  | [], _ => none
  | (k', v) :: rest, k => if k' = k then some v else mlookup rest k

/-- Update/insert in an association-list map (model of Go map write). -/
def mupdate {κ ν : Type} [DecidableEq κ] : List (κ × ν) → κ → ν → List (κ × ν)
  | [], k, v => [(k, v)]
  | (k', v') :: rest, k, v =>
      if k' = k then (k, v) :: rest else (k', v') :: mupdate rest k v

/-- Deletion from an association-list map (model of Go `delete`). -/
def merase {κ ν : Type} [DecidableEq κ] : List (κ × ν) → κ → List (κ × ν)
  | [], _ => []
  | (k', v') :: rest, k =>
      if k' = k then merase rest k else (k', v') :: merase rest k

@[simp] theorem mlookup_nil {κ ν : Type} [DecidableEq κ] (k : κ) :
    mlookup ([] : List (κ × ν)) k = none := rfl

@[simp] theorem mlookup_cons {κ ν : Type} [DecidableEq κ] (k' k : κ) (v : ν) (rest) :
    mlookup ((k', v) :: rest) k = if k' = k then some v else mlookup rest k := rfl

theorem mlookup_mem {κ ν : Type} [DecidableEq κ] {m : List (κ × ν)} {k : κ} {v : ν}
    (h : mlookup m k = some v) : (k, v) ∈ m := by
  induction m with
  | nil => simp [mlookup] at h
  | cons hd tl ih =>
    obtain ⟨k₀, v₀⟩ := hd
    by_cases h0 : k₀ = k
    · subst h0
      simp [mlookup] at h
      simp [h]
    · simp [mlookup, h0] at h
      simp [ih h]

theorem mem_mupdate {κ ν : Type} [DecidableEq κ] {m : List (κ × ν)} {k : κ} {v : ν}
    {e : κ × ν} (h : e ∈ mupdate m k v) : e = (k, v) ∨ e ∈ m := by
  induction m with
  | nil => simpa [mupdate] using h
  | cons hd tl ih =>
    obtain ⟨k₀, v₀⟩ := hd
    by_cases h0 : k₀ = k
    · subst h0
      simp [mupdate] at h
      rcases h with h | h
      · exact Or.inl h
      · exact Or.inr (List.mem_cons_of_mem _ h)
    · simp [mupdate, h0] at h
      rcases h with h | h
      · exact Or.inr (by simp [h])
      · rcases ih h with h | h
        · exact Or.inl h
        · exact Or.inr (List.mem_cons_of_mem _ h)

theorem mem_merase {κ ν : Type} [DecidableEq κ] {m : List (κ × ν)} {k : κ} {e : κ × ν}
    (h : e ∈ merase m k) : e ∈ m ∧ e.1 ≠ k := by
  induction m with
  | nil => simp [merase] at h
  | cons hd tl ih =>
    obtain ⟨k₀, v₀⟩ := hd
    by_cases h0 : k₀ = k
    · subst h0
      simp [merase] at h
      rcases ih h with ⟨h1, h2⟩
      exact ⟨List.mem_cons_of_mem _ h1, h2⟩
    · simp [merase, h0] at h
      rcases h with h | h
      · refine ⟨by simp [h], ?_⟩
        rw [h]
        exact h0
      · rcases ih h with ⟨h1, h2⟩
        exact ⟨List.mem_cons_of_mem _ h1, h2⟩

theorem mupdate_append {κ ν : Type} [DecidableEq κ] {m : List (κ × ν)} {k : κ} (v : ν)
    (h : mlookup m k = none) : mupdate m k v = m ++ [(k, v)] := by
  induction m with
  | nil => simp [mupdate]
  | cons hd tl ih =>
    obtain ⟨k₀, v₀⟩ := hd
    by_cases h0 : k₀ = k
    · subst h0
      simp [mlookup] at h
    · simp [mlookup, h0] at h
      simp [mupdate, h0, ih h]

theorem mlookup_mupdate_self {κ ν : Type} [DecidableEq κ] (m : List (κ × ν)) (k : κ) (v : ν) :
    mlookup (mupdate m k v) k = some v := by
  induction m with
  | nil => simp [mupdate, mlookup]
  | cons hd tl ih =>
    obtain ⟨k', v'⟩ := hd
    by_cases h : k' = k <;> simp [mupdate, mlookup, h, ih]

theorem mlookup_mupdate_ne {κ ν : Type} [DecidableEq κ] (m : List (κ × ν)) (k k' : κ) (v : ν)
    (h : k ≠ k') : mlookup (mupdate m k v) k' = mlookup m k' := by
  induction m with
  | nil => simp [mupdate, mlookup, h]
  | cons hd tl ih =>
    obtain ⟨k₀, v₀⟩ := hd
    by_cases h0 : k₀ = k
    · subst h0
      simp [mupdate, mlookup, h]
    · simp only [mupdate, if_neg h0, mlookup_cons]
      by_cases h1 : k₀ = k' <;> simp [h1, ih]

/-- Writing back the value that is already stored leaves the map unchanged. -/
theorem mupdate_noop {κ ν : Type} [DecidableEq κ] (m : List (κ × ν)) (k : κ) (v : ν)
    (h : mlookup m k = some v) : mupdate m k v = m := by
  induction m with
  | nil => simp [mlookup] at h
  | cons hd tl ih =>
    obtain ⟨k₀, v₀⟩ := hd
    by_cases h0 : k₀ = k
    · subst h0
      simp [mlookup] at h
      simp [mupdate, h]
    · simp [mlookup, h0] at h
      simp [mupdate, h0, ih h]

theorem mlookup_merase_self {κ ν : Type} [DecidableEq κ] (m : List (κ × ν)) (k : κ) :
    mlookup (merase m k) k = none := by
  induction m with
  | nil => simp [merase]
  | cons hd tl ih =>
    obtain ⟨k₀, v₀⟩ := hd
    by_cases h0 : k₀ = k <;> simp [merase, mlookup, h0, ih]

theorem mlookup_merase_ne {κ ν : Type} [DecidableEq κ] (m : List (κ × ν)) (k k' : κ)
    (h : k ≠ k') : mlookup (merase m k) k' = mlookup m k' := by
  induction m with
  | nil => simp [merase]
  | cons hd tl ih =>
    obtain ⟨k₀, v₀⟩ := hd
    by_cases h0 : k₀ = k
    · subst h0
      simp [merase, mlookup, h, ih]
    · simp only [merase, if_neg h0, mlookup_cons]
      by_cases h1 : k₀ = k' <;> simp [h1, ih]

/-- Erasing an absent key leaves the map unchanged. -/
theorem merase_noop {κ ν : Type} [DecidableEq κ] (m : List (κ × ν)) (k : κ)
    (h : mlookup m k = none) : merase m k = m := by
  induction m with
  | nil => simp [merase]
  | cons hd tl ih =>
    obtain ⟨k₀, v₀⟩ := hd
    by_cases h0 : k₀ = k
    · subst h0
      simp [mlookup] at h
    · simp [mlookup, h0] at h
      simp [merase, h0, ih h]

/-! ## Data model (spec §3; types not present in the given source files are
modelled from the spec as noted in the header) -/

/-- Model of `cmtypes.AddrCluster`: an L3 address (abstracted to a `Nat`
bit-pattern) with its IP family and cluster scope. -/
structure AddrCluster where
  isV6 : Bool
  addr : Nat
  cluster : Nat
  deriving DecidableEq

/-- Model of `netip.Addr` (a node address): family plus abstract bits. -/
structure IPAddr where
  isV6 : Bool
  val : Nat
  deriving DecidableEq

/-- Model of `cmtypes.AddrClusterFrom(addr, 0)`. -/
def addrClusterFrom (a : IPAddr) : AddrCluster := ⟨a.isV6, a.val, 0⟩

/-- Model of `AddrCluster.IsUnspecified` (the all-zero address). -/
def AddrCluster.isUnspecified (a : AddrCluster) : Bool := a.addr == 0

/-- Modelled from the spec: the transport protocol of an address
(`loadbalancer.L4Type` is a string in the source; `empty` is its Go
zero value). -/
inductive Protocol
  | tcp
  | udp
  | sctp
  | empty
  deriving DecidableEq

/-- Modelled from the spec (§3 Address): `loadbalancer.L3n4Addr`, a tuple of
L3 address, transport protocol, port and scope. Its canonical string key
(`StringID()`) is modelled by the value itself. -/
structure L3n4Addr where
  addrCluster : AddrCluster
  port : Nat
  protocol : Protocol
  scope : Nat
  deriving DecidableEq

/-- Model of `L3n4Addr.IsIPv6`. -/
def L3n4Addr.isIPv6 (a : L3n4Addr) : Bool := a.addrCluster.isV6

/-- The Go zero value of `L3n4Addr`. -/
def L3n4Addr.zero : L3n4Addr := ⟨⟨false, 0, 0⟩, 0, .empty, 0⟩

/-- Modelled from the spec: `loadbalancer.BackendState`, ordered with
`Active` first (`Active` is the smallest value, as required by the
"Active state before non-Active" sort order of §4.3 step 3). -/
inductive BackendState
  | active
  | terminating
  | quarantined
  | maintenance
  deriving DecidableEq

/-- Numeric value of a backend state (Go compares states as integers). -/
def BackendState.toNat : BackendState → Nat
  | .active => 0
  | .terminating => 1
  | .quarantined => 2
  | .maintenance => 3

/-- Modelled from the spec (§3 Backend): one backend together with the
statedb revision it was last changed at (`BackendWithRevision`). -/
structure BackendWithRevision where
  l3n4Addr : L3n4Addr
  state : BackendState
  zoneID : Nat
  revision : Nat
  deriving DecidableEq

/-- Modelled from the spec: `loadbalancer.SVCType`. -/
inductive SVCType
  | clusterIP
  | nodePort
  | hostPort
  | loadBalancer
  | externalIPs
  | localRedirect
  deriving DecidableEq

/-- Modelled from the spec (§3 Frontend): one virtual service endpoint with
its service-level flags, backend list and node-address expansion set. -/
structure Frontend where
  address : L3n4Addr
  svcType : SVCType
  backends : List BackendWithRevision
  nodePortAddrs : List IPAddr
  extTrafficPolicyLocal : Bool
  intTrafficPolicyLocal : Bool
  natPolicy : Nat
  sessionAffinity : Bool
  sessionAffinityTimeoutSec : Nat
  l7ProxyPort : Nat
  loopbackHostPort : Bool
  deriving DecidableEq

/-! ## Identifier allocator (source `idAllocator`) -/

/-- Model of `loadbalancer.L3n4AddrID`: an address together with its ID. -/
structure L3n4AddrID where
  l3n4Addr : L3n4Addr
  id : Nat
  deriving DecidableEq

/-- Model of `idAllocator`: bidirectional maps plus the round-robin
cursor and bounds. The `entities` map is keyed by `L3n4Addr.StringID()`,
modelled by the address itself. -/
structure IdAlloc where
  entitiesID : List (Nat × L3n4AddrID)
  entities : List (L3n4Addr × Nat)
  nextID : Nat
  maxID : Nat
  initNextID : Nat
  initMaxID : Nat
  deriving DecidableEq

/-- Model of `newIDAllocator`. -/
def newIDAllocator (nextID maxID : Nat) : IdAlloc :=
  { entitiesID := [], entities := [], nextID := nextID, maxID := maxID,
    initNextID := nextID, initMaxID := maxID }

/-- The errors `acquireLocalID` can produce. `fuelExhausted` is an artifact
of bounding the Go `for` loop by fuel; it is distinct from the source's
"no service ID available" error and no theorem identifies the two. -/
inductive AllocErr
  | alreadyRegistered (id : Nat) (owner : Nat)
  | noIDAvailable
  | fuelExhausted
  deriving DecidableEq

/-- Model of `idAllocator.addID`. -/
def IdAlloc.addID (alloc : IdAlloc) (svc : L3n4Addr) (id : Nat) : IdAlloc :=
  { alloc with
    entitiesID := mupdate alloc.entitiesID id ⟨svc, id⟩,
    entities := mupdate alloc.entities svc id }

/-- The scan loop of `acquireLocalID` (the `for` loop scanning forward from
`nextID`, wrapping once to `initNextID`). The Go loop mutates
`alloc.nextID` as it scans; fuel bounds the recursion and is always chosen
large enough that the loop's real exits are reached (see `scanFuel`). -/
def scanLoop (svc : L3n4Addr) (startingID : Nat) :
    Bool → IdAlloc → Nat → Except AllocErr Nat × IdAlloc
  | _, alloc, 0 => (.error .fuelExhausted, alloc)
  | rollover, alloc, fuel + 1 =>
    if alloc.nextID = startingID ∧ rollover then
      (.error .noIDAvailable, alloc)
    else
      let ar : IdAlloc × Bool :=
        if alloc.nextID = alloc.maxID then
          ({ alloc with nextID := alloc.initNextID }, true)
        else (alloc, rollover)
      match mlookup ar.1.entitiesID ar.1.nextID with
      | none =>
        let claimed := ar.1.nextID
        (.ok claimed, { ar.1.addID svc claimed with nextID := claimed + 1 })
      | some _ =>
        scanLoop svc startingID ar.2 { ar.1 with nextID := ar.1.nextID + 1 } fuel

/-- Fuel bound for `scanLoop`: the loop visits each ID at most twice before
one of its exits fires, so this bound is never reached on the states the
theorems below consider. -/
def scanFuel (alloc : IdAlloc) : Nat :=
  2 * alloc.maxID + alloc.nextID + alloc.entitiesID.length + 4

/-- Model of `idAllocator.acquireLocalID`. -/
def IdAlloc.acquireLocalID (alloc : IdAlloc) (svc : L3n4Addr) (desiredID : Nat) :
    Except AllocErr Nat × IdAlloc :=
  match (mlookup alloc.entities svc).bind
      (fun svcID => (mlookup alloc.entitiesID svcID).map (fun r => r.id)) with
  | some id => (.ok id, alloc)
  | none =>
    if desiredID ≠ 0 then
      match mlookup alloc.entitiesID desiredID with
      | none =>
        let alloc :=
          if desiredID ≥ alloc.nextID then { alloc with nextID := desiredID } else alloc
        (.ok desiredID, alloc.addID svc desiredID)
      | some foundSVC => (.error (.alreadyRegistered desiredID foundSVC.id), alloc)
    else
      scanLoop svc alloc.nextID false alloc (scanFuel alloc)

/-- Model of `idAllocator.deleteLocalID`. -/
def IdAlloc.deleteLocalID (alloc : IdAlloc) (id : Nat) : IdAlloc :=
  match mlookup alloc.entitiesID id with
  | some svc =>
    { alloc with
      entitiesID := merase alloc.entitiesID id,
      entities := merase alloc.entities svc.l3n4Addr }
  | none => alloc

/-- Model of `idAllocator.lookupLocalID` (`none` models the "ID not found"
error). -/
def IdAlloc.lookupLocalID (alloc : IdAlloc) (svc : L3n4Addr) : Option Nat :=
  mlookup alloc.entities svc

/-- Source constant `firstFreeServiceID`. -/
def firstFreeServiceID : Nat := 1

/-- Source constant `maxSetOfServiceID`. -/
def maxSetOfServiceID : Nat := 0xFFFF

/-- Source constant `firstFreeBackendID`. -/
def firstFreeBackendID : Nat := 1

/-- Source constant `maxSetOfBackendID`. -/
def maxSetOfBackendID : Nat := 0xFFFFFFFF

/-! ## Datapath table keys and values (models of the `lbmap` types; family
dispatch between the IPv4/IPv6 variants is modelled by an `isV6` tag in the
keys, so that one table stands for the pair of per-family BPF maps) -/

/-- Model of `lbmap.Service4Key`/`Service6Key` (protocol is the constant
`u8proto.ANY` in the source, so it is omitted). `addr` holds only the raw IP:
`AsNetIP()` drops the cluster scope when building keys. -/
structure SvcKey where
  isV6 : Bool
  addr : Nat
  port : Nat
  scope : Nat
  slot : Nat
  deriving DecidableEq

/-- Model of the packed service flag word (`loadbalancer.SvcFlagParam`); kept
as the unpacked tuple since no claim inspects the bit packing. -/
structure SvcFlags where
  svcType : SVCType
  svcExtLocal : Bool
  svcIntLocal : Bool
  svcNatPolicy : Nat
  sessionAffinity : Bool
  isRoutable : Bool
  l7LoadBalancer : Bool
  loopbackHostport : Bool
  deriving DecidableEq

/-- Model of `lbmap.Service4Value`/`Service6Value`. `revNat` is the uint16
reverse-NAT ID stored by `SetRevNat`. -/
structure SvcVal where
  flags : SvcFlags
  revNat : Nat
  backendID : Nat
  count : Nat
  affTimeoutSec : Nat
  l7ProxyPort : Nat
  deriving DecidableEq

/-- Model of `lbmap.Backend4KeyV3`/`Backend6KeyV3`. -/
structure BeKey where
  isV6 : Bool
  id : Nat
  deriving DecidableEq

/-- Model of `lbmap.Backend4ValueV3`/`Backend6ValueV3` (the value stores the
raw IP, not the cluster scope — `beValueToAddr` reconstructs the address
with cluster 0). -/
structure BeVal where
  isV6 : Bool
  addr : Nat
  port : Nat
  state : BackendState
  zoneID : Nat
  deriving DecidableEq

/-- Model of `lbmap.RevNat4Key`/`RevNat6Key` (a uint16 service ID). -/
structure RevKey where
  isV6 : Bool
  id : Nat
  deriving DecidableEq

/-- Model of `lbmap.RevNat4Value`/`RevNat6Value` (frontend IP and port). -/
structure RevVal where
  addr : Nat
  port : Nat
  deriving DecidableEq

/-- Model of `lbmap.AffinityMatchKey`. -/
structure AffKey where
  backendID : Nat
  revNATID : Nat
  deriving DecidableEq

/-- A datapath write operation, as recorded in the trace. -/
inductive WOp
  | updSvc (k : SvcKey) (v : SvcVal)
  | delSvc (k : SvcKey)
  | updBe (k : BeKey) (v : BeVal)
  | delBe (k : BeKey)
  | updRevNat (k : RevKey) (v : RevVal)
  | delRevNat (k : RevKey)
  | updAff (k : AffKey)
  | delAff (k : AffKey)
  deriving DecidableEq

/-- Errors surfaced by the reconciler operations. -/
inductive Err
  | writeFailed (op : WOp)
  | allocFail (e : AllocErr)
  | invalidRevNatID
  | dumpFailed
  deriving DecidableEq

/-- Model of the relevant `option.Config` / `Config` fields read by the
reconciler. -/
structure Config where
  enableSessionAffinity : Bool
  externalClusterIP : Bool
  deriving DecidableEq

/-- Model of the per-backend record `backendState` of the registry. -/
structure BackendRec where
  addr : L3n4Addr
  revision : Nat
  refCount : Nat
  id : Nat
  deriving DecidableEq

/-- The Go zero value of `backendState` (`ops.backendStates[addr]` on a
missing key). -/
def BackendRec.zero : BackendRec := ⟨L3n4Addr.zero, 0, 0, 0⟩

/-- Model of the full `bpfOps` state: allocators, registry, membership and
node-address bookkeeping, plus the four kernel tables, a failure oracle for
datapath writes and a trace of attempted writes. -/
structure St where
  serviceIDAlloc : IdAlloc
  backendIDAlloc : IdAlloc
  restoredServiceIDs : List Nat
  restoredBackendIDs : List Nat
  backendStates : List (L3n4Addr × BackendRec)
  backendReferences : List (L3n4Addr × List L3n4Addr)
  nodePortAddrs : List (Nat × List IPAddr)
  svcMap : List (SvcKey × SvcVal)
  beMap : List (BeKey × BeVal)
  revNatMap : List (RevKey × RevVal)
  affMap : List AffKey
  failures : List Bool
  trace : List WOp
  cfg : Config
  deriving DecidableEq

/-- The state with the write trace erased (two runs can differ in the trace
while agreeing on everything the datapath and bookkeeping can observe). -/
structure StCore where
  serviceIDAlloc : IdAlloc
  backendIDAlloc : IdAlloc
  restoredServiceIDs : List Nat
  restoredBackendIDs : List Nat
  backendStates : List (L3n4Addr × BackendRec)
  backendReferences : List (L3n4Addr × List L3n4Addr)
  nodePortAddrs : List (Nat × List IPAddr)
  svcMap : List (SvcKey × SvcVal)
  beMap : List (BeKey × BeVal)
  revNatMap : List (RevKey × RevVal)
  affMap : List AffKey
  failures : List Bool
  cfg : Config
  deriving DecidableEq

/-- Projection erasing the trace. -/
def St.core (st : St) : StCore :=
  { serviceIDAlloc := st.serviceIDAlloc, backendIDAlloc := st.backendIDAlloc,
    restoredServiceIDs := st.restoredServiceIDs,
    restoredBackendIDs := st.restoredBackendIDs,
    backendStates := st.backendStates, backendReferences := st.backendReferences,
    nodePortAddrs := st.nodePortAddrs, svcMap := st.svcMap, beMap := st.beMap,
    revNatMap := st.revNatMap, affMap := st.affMap, failures := st.failures,
    cfg := st.cfg }

/-! ## Datapath driver operations (model of the `lbmaps` interface: each
write records the attempted operation, consults the failure oracle, and on
success applies the table change; deletes are tolerant of missing keys) -/

/-- Pop the next outcome from the failure oracle (an exhausted oracle means
the write succeeds). -/
def popFailure (st : St) : Bool × St :=
  match st.failures with
  | [] => (true, st)
  | b :: rest => (b, { st with failures := rest })

/-- Record an attempted write and consult the oracle. -/
def tryWrite (op : WOp) (apply : St → St) (st : St) : Except Err Unit × St :=
  let st := { st with trace := st.trace ++ [op] }
  let p := popFailure st
  if p.1 then (.ok (), apply p.2) else (.error (.writeFailed op), p.2)

/-- Model of `lbmaps.UpdateService`. -/
def UpdateService (k : SvcKey) (v : SvcVal) (st : St) : Except Err Unit × St :=
  tryWrite (.updSvc k v) (fun st => { st with svcMap := mupdate st.svcMap k v }) st

/-- Model of `lbmaps.DeleteService` / `SilentDelete` on a service map (the
driver treats a missing key as success). -/
def DeleteService (k : SvcKey) (st : St) : Except Err Unit × St :=
  tryWrite (.delSvc k) (fun st => { st with svcMap := merase st.svcMap k }) st

/-- Model of `lbmaps.UpdateBackend`. -/
def UpdateBackend (k : BeKey) (v : BeVal) (st : St) : Except Err Unit × St :=
  tryWrite (.updBe k v) (fun st => { st with beMap := mupdate st.beMap k v }) st

/-- Model of `SilentDelete` on a backend map. -/
def DeleteBackendMap (k : BeKey) (st : St) : Except Err Unit × St :=
  tryWrite (.delBe k) (fun st => { st with beMap := merase st.beMap k }) st

/-- Model of `lbmaps.UpdateRevNat`. -/
def UpdateRevNat (k : RevKey) (v : RevVal) (st : St) : Except Err Unit × St :=
  tryWrite (.updRevNat k v) (fun st => { st with revNatMap := mupdate st.revNatMap k v }) st

/-- Model of `lbmaps.DeleteRevNat`. -/
def DeleteRevNat (k : RevKey) (st : St) : Except Err Unit × St :=
  tryWrite (.delRevNat k) (fun st => { st with revNatMap := merase st.revNatMap k }) st

/-- Insert into the affinity-match set. -/
def affInsert (l : List AffKey) (k : AffKey) : List AffKey :=
  if k ∈ l then l else l ++ [k]

/-- Model of `lbmap.AffinityMatchMap.Update`. -/
def UpdateAffinity (k : AffKey) (st : St) : Except Err Unit × St :=
  tryWrite (.updAff k) (fun st => { st with affMap := affInsert st.affMap k }) st

/-- Model of `lbmap.AffinityMatchMap.SilentDelete`. -/
def DeleteAffinity (k : AffKey) (st : St) : Except Err Unit × St :=
  tryWrite (.delAff k) (fun st => { st with affMap := st.affMap.filter (fun x => x ≠ k) }) st

/-- Run a fallible action for every element, stopping at the first error
(model of the Go `for` loops whose body may `return err`). -/
def forEachE {α : Type} (f : α → St → Except Err Unit × St) :
    List α → St → Except Err Unit × St
  | [], st => (.ok (), st)
  | x :: rest, st =>
    match f x st with
    | (.ok _, st) => forEachE f rest st
    | (.error e, st) => (.error e, st)

/-! ## Reference-counted backend registry (source `bpfOps` helpers) -/

/-- Model of `bpfOps.needsUpdate`: true iff the stored revision (0 for a
missing record) is older than `rev`. -/
def needsUpdate (st : St) (addr : L3n4Addr) (rev : Nat) : Bool :=
  decide (((mlookup st.backendStates addr).getD BackendRec.zero).revision < rev)

/-- Model of `bpfOps.updateBackendRevision` (note: the Go code sets only the
`id` and `revision` fields; on a missing record the `addr` field keeps the
zero value until `updateBackendRefCounts` fills it in). -/
def updateBackendRevision (st : St) (id : Nat) (addr : L3n4Addr) (rev : Nat) : St :=
  let s := (mlookup st.backendStates addr).getD BackendRec.zero
  { st with backendStates := mupdate st.backendStates addr { s with id := id, revision := rev } }

/-- Model of `bpfOps.releaseBackend`. -/
def releaseBackend (st : St) (id : Nat) (addr : L3n4Addr) : St :=
  { st with
    backendStates := merase st.backendStates addr,
    backendIDAlloc := st.backendIDAlloc.deleteLocalID id }

/-- Model of `bpfOps.orphanBackends`: records of addresses in the old
membership of `frontend` that are not in `backends` and have at most one
reference. -/
def orphanBackends (st : St) (frontend : L3n4Addr) (backends : List L3n4Addr) :
    List BackendRec :=
  match mlookup st.backendReferences frontend with
  | none => []
  | some oldRefs =>
    oldRefs.filterMap (fun addr =>
      if addr ∈ backends then none
      else
        match mlookup st.backendStates addr with
        | some s => if s.refCount ≤ 1 then some s else none
        | none => none)

/-- The decrement branch of `updateBackendRefCounts` for one departing
address (the Go code decrements only when `refCount > 1`). -/
def decOne (st : St) (addr : L3n4Addr) : St :=
  match mlookup st.backendStates addr with
  | some s =>
    if 1 < s.refCount then
      { st with backendStates := mupdate st.backendStates addr { s with refCount := s.refCount - 1 } }
    else st
  | none => st

/-- The increment branch of `updateBackendRefCounts` for one entering
address (creating the record, and setting its `addr` field, if absent). -/
def incOne (st : St) (addr : L3n4Addr) : St :=
  let s := (mlookup st.backendStates addr).getD BackendRec.zero
  { st with backendStates := mupdate st.backendStates addr { s with addr := addr, refCount := s.refCount + 1 } }

/-- Model of `bpfOps.updateBackendRefCounts`: walk the old membership,
removing still-referenced addresses from the new set and decrementing
departing ones, then increment every address that is newly referenced. -/
def updateBackendRefCounts (st : St) (frontend : L3n4Addr) (backends : List L3n4Addr) : St :=
  match mlookup st.backendReferences frontend with
  | none => backends.foldl incOne st
  | some oldRefs =>
    let p := oldRefs.foldl
      (fun (p : List L3n4Addr × St) addr =>
        if addr ∈ p.1 then (p.1.erase addr, p.2) else (p.1, decOne p.2 addr))
      (backends, st)
    p.1.foldl incOne p.2

/-- Model of `bpfOps.updateReferences`: commit the reference-count delta and
replace the stored membership set. -/
def updateReferences (st : St) (frontend : L3n4Addr) (backends : List L3n4Addr) : St :=
  let st := updateBackendRefCounts st frontend backends
  { st with backendReferences := mupdate st.backendReferences frontend backends }

/-! ## Backend ordering (source `sortedBackends` / `numActive`) -/

/-- Model of `netip.Addr.Compare` on cluster addresses: IPv4 sorts before
IPv6, then by address bits. -/
def addrOrd (a b : AddrCluster) : Ordering :=
  match a.isV6, b.isV6 with
  | false, true => .lt
  | true, false => .gt
  | _, _ => compare a.addr b.addr

/-- The comparison closure passed to `sort.Slice` in `sortedBackends`:
state (Active first), then address, then port. -/
def beLess (a b : BackendWithRevision) : Bool :=
  if a.state.toNat < b.state.toNat then true
  else if b.state.toNat < a.state.toNat then false
  else
    match addrOrd a.l3n4Addr.addrCluster b.l3n4Addr.addrCluster with
    | .lt => true
    | .eq => decide (a.l3n4Addr.port < b.l3n4Addr.port)
    | .gt => false

/-- The non-strict order induced by `beLess` (`a` may come before `b`). -/
def beLE (a b : BackendWithRevision) : Prop := beLess b a = false

instance : DecidableRel beLE := fun a b => inferInstanceAs (Decidable (beLess b a = false))

/-- Model of `sortedBackends`: Go's `sort.Slice` with the `beLess`
comparator (the algorithm Go uses is unspecified; any sort consistent with
the comparator is a faithful model, and the claims proved below do not
depend on the order of elements whose three sort keys all tie). -/
def sortedBackends (bes : List BackendWithRevision) : List BackendWithRevision :=
  List.insertionSort beLE bes

/-- Model of `numActive`: the index of the first non-Active backend (the
length of the Active prefix). -/
def numActive : List BackendWithRevision → Nat
  | [] => 0
  | be :: rest => if be.state = .active then numActive rest + 1 else 0

/-! ## Frontend reconciliation (source `bpfOps.updateFrontend` etc.) -/

/-- The service key for `fe`'s address at a given slot (model of
`NewService4Key`/`NewService6Key` on `fe.Address`). -/
def svcKeyOf (fe : Frontend) (slot : Nat) : SvcKey :=
  ⟨fe.address.isIPv6, fe.address.addrCluster.addr, fe.address.port, fe.address.scope, slot⟩

/-- Model of `svcKey.IsSurrogate()`: the key's address is unspecified. -/
def isSurrogate (fe : Frontend) : Bool := fe.address.addrCluster.addr == 0

/-- The packed service flags computed in `updateFrontend` (including the
`isRoutable` computation). -/
def flagsOf (cfg : Config) (fe : Frontend) : SvcFlags :=
  let isRoutable := !isSurrogate fe &&
    (!(fe.svcType == .clusterIP) || cfg.externalClusterIP)
  { svcType := fe.svcType,
    svcExtLocal := fe.extTrafficPolicyLocal,
    svcIntLocal := fe.intTrafficPolicyLocal,
    svcNatPolicy := fe.natPolicy,
    sessionAffinity := fe.sessionAffinity,
    isRoutable := isRoutable,
    l7LoadBalancer := fe.l7ProxyPort != 0,
    loopbackHostport := fe.loopbackHostPort }

/-- Model of `bpfOps.upsertService` (the E2BIG message special-casing only
changes the error text). -/
def upsertService (k : SvcKey) (v : SvcVal) (st : St) : Except Err Unit × St :=
  UpdateService k v st

/-- Model of `bpfOps.upsertMaster`: slot 0 carries the active-backend count,
affinity timeout and L7 proxy port. -/
def upsertMaster (k : SvcKey) (v : SvcVal) (fe : Frontend) (activeBackends : Nat) (st : St) :
    Except Err Unit × St :=
  let k := { k with slot := 0 }
  let v := { v with count := activeBackends, backendID := 0 }
  let v := if fe.sessionAffinity then { v with affTimeoutSec := fe.sessionAffinityTimeoutSec } else v
  let v := if fe.l7ProxyPort ≠ 0 then { v with l7ProxyPort := fe.l7ProxyPort } else v
  upsertService k v st

/-- Model of `bpfOps.cleanupSlots`: silently delete slots
`newCount+1 .. oldCount`. -/
def cleanupSlots (k : SvcKey) (oldCount newCount : Nat) (st : St) : Except Err Unit × St :=
  forEachE (fun i st => DeleteService { k with slot := i + 1 } st)
    ((List.range (oldCount - newCount)).map (fun j => newCount + j)) st

/-- Model of `bpfOps.upsertBackend`. -/
def upsertBackend (id : Nat) (be : BackendWithRevision) (st : St) : Except Err Unit × St :=
  UpdateBackend ⟨be.l3n4Addr.addrCluster.isV6, id⟩
    ⟨be.l3n4Addr.addrCluster.isV6, be.l3n4Addr.addrCluster.addr, be.l3n4Addr.port,
      be.state, be.zoneID⟩ st

/-- Model of `bpfOps.deleteBackend`. -/
def deleteBackend (ipv6 : Bool) (id : Nat) (st : St) : Except Err Unit × St :=
  DeleteBackendMap ⟨ipv6, id⟩ st

/-- Model of `bpfOps.upsertAffinityMatch` (a no-op unless session affinity
is enabled in the config). -/
def upsertAffinityMatch (id beID : Nat) (st : St) : Except Err Unit × St :=
  if st.cfg.enableSessionAffinity then UpdateAffinity ⟨beID, id % 65536⟩ st
  else (.ok (), st)

/-- Model of `bpfOps.deleteAffinityMatch`. -/
def deleteAffinityMatch (id beID : Nat) (st : St) : Except Err Unit × St :=
  if st.cfg.enableSessionAffinity then DeleteAffinity ⟨beID, id % 65536⟩ st
  else (.ok (), st)

/-- Model of `bpfOps.upsertRevNat`: fails hard on a zero reverse-NAT key. -/
def upsertRevNat (id : Nat) (k : SvcKey) (st : St) : Except Err Unit × St :=
  if id % 65536 = 0 then (.error .invalidRevNatID, st)
  else UpdateRevNat ⟨k.isV6, id % 65536⟩ ⟨k.addr, k.port⟩ st

/-- The orphan-deletion loop of `updateFrontend` (delete the backend row
and its affinity match, then release its ID). -/
def delOrphans (feID : Nat) (orphans : List BackendRec) (st : St) : Except Err Unit × St :=
  forEachE (fun o st =>
    match deleteBackend o.addr.isIPv6 o.id st with
    | (.error e, st) => (.error e, st)
    | (.ok _, st) =>
      match deleteAffinityMatch feID o.id st with
      | (.error e, st) => (.error e, st)
      | (.ok _, st) => (.ok (), releaseBackend st o.id o.addr)) orphans st

/-- The orphan-deletion loop of `deleteFrontend` (affinity matches were
already cleaned up by the preceding loop there). -/
def delOrphansNoAff (orphans : List BackendRec) (st : St) : Except Err Unit × St :=
  forEachE (fun o st =>
    match deleteBackend o.addr.isIPv6 o.id st with
    | (.error e, st) => (.error e, st)
    | (.ok _, st) => (.ok (), releaseBackend st o.id o.addr)) orphans st

/-- Backend-ID reuse/allocation at the top of the backend loop (lines
455-464): reuse the registry's ID when nonzero, else allocate one. (The Go
condition `ok && s.id != 0` is expressed through the zero record, whose
`id` is 0.) -/
def getBackendID (be : BackendWithRevision) (st : St) : Except Err Nat × St :=
  if ((mlookup st.backendStates be.l3n4Addr).getD BackendRec.zero).id ≠ 0 then
    (.ok ((mlookup st.backendStates be.l3n4Addr).getD BackendRec.zero).id, st)
  else
    match st.backendIDAlloc.acquireLocalID be.l3n4Addr 0 with
    | (.ok id, al) => (.ok id, { st with backendIDAlloc := al })
    | (.error e, al) => (.error (.allocFail e), { st with backendIDAlloc := al })

/-- The stale-revision upsert of the backend loop (lines 466-473). -/
def maybeUpsertBackend (beID : Nat) (be : BackendWithRevision) (st : St) :
    Except Err Unit × St :=
  if needsUpdate st be.l3n4Addr be.revision then
    match upsertBackend beID be st with
    | (.ok _, st) => (.ok (), updateBackendRevision st beID be.l3n4Addr be.revision)
    | (.error e, st) => (.error e, st)
  else (.ok (), st)

/-- The key/value mutations performed before writing a backend's slot
(`SetBackendID`, `SetRevNat`, `SetBackendSlot`). -/
def slotKV (feID beID i : Nat) (kv : SvcKey × SvcVal) : SvcKey × SvcVal :=
  ({ kv.1 with slot := i + 1 }, { kv.2 with backendID := beID, revNat := feID % 65536 })

/-- The service-slot refresh for an Active backend (lines 480-489); done on
every pass regardless of the revision check. -/
def writeSlot (feID beID i : Nat) (be : BackendWithRevision) (kv : SvcKey × SvcVal)
    (st : St) : Except Err (SvcKey × SvcVal) × St :=
  if be.state = .active then
    match upsertService (slotKV feID beID i kv).1 (slotKV feID beID i kv).2 st with
    | (.ok _, st) => (.ok (slotKV feID beID i kv), st)
    | (.error e, st) => (.error e, st)
  else (.ok kv, st)

/-- The affinity-match maintenance of the backend loop (lines 495-505). -/
def maintainAffinity (fe : Frontend) (feID beID : Nat) (be : BackendWithRevision)
    (st : St) : Except Err Unit × St :=
  if fe.sessionAffinity && (be.state == .active) then upsertAffinityMatch feID beID st
  else deleteAffinityMatch feID beID st

/-- One iteration of the backend loop of `updateFrontend` (lines 454-506):
reuse or allocate the backend ID, upsert a stale backend row, refresh the
service slot for an Active backend, and maintain its affinity match. The
mutable `svcKey`/`svcVal` pair is threaded through. -/
def processBackend (fe : Frontend) (feID : Nat) (i : Nat) (be : BackendWithRevision)
    (kv : SvcKey × SvcVal) (st : St) : Except Err (SvcKey × SvcVal) × St :=
  match getBackendID be st with
  | (.error e, st) => (.error e, st)
  | (.ok beID, st) =>
    match maybeUpsertBackend beID be st with
    | (.error e, st) => (.error e, st)
    | (.ok _, st) =>
      match writeSlot feID beID i be kv st with
      | (.error e, st) => (.error e, st)
      | (.ok kv', st) =>
        match maintainAffinity fe feID beID be st with
        | (.ok _, st) => (.ok kv', st)
        | (.error e, st) => (.error e, st)

/-- The backend loop of `updateFrontend`, from position `i`. -/
def processBackends (fe : Frontend) (feID : Nat) :
    List BackendWithRevision → Nat → SvcKey × SvcVal → St →
    Except Err (SvcKey × SvcVal) × St
  | [], _, kv, st => (.ok kv, st)
  | be :: rest, i, kv, st =>
    match processBackend fe feID i be kv st with
    | (.ok kv, st) => processBackends fe feID rest (i + 1) kv st
    | (.error e, st) => (.error e, st)

/-- The deduplicated backend address set (`backendAddrs` in the source,
built by `sets.Insert` over the ordered backends). -/
def backendAddrsOf (bes : List BackendWithRevision) : List L3n4Addr :=
  bes.foldl (fun acc be => if be.l3n4Addr ∈ acc then acc else acc ++ [be.l3n4Addr]) []

/-- Model of `bpfOps.updateFrontend`: the ordered per-frontend
reconciliation pass (allocate ID, compute flags, delete orphans, walk the
sorted backends, write reverse-NAT, master and trim slots, and commit the
membership last). -/
def updateFrontend (fe : Frontend) (st : St) : Except Err Unit × St :=
  match st.serviceIDAlloc.acquireLocalID fe.address 0 with
  | (.error e, al) => (.error (.allocFail e), { st with serviceIDAlloc := al })
  | (.ok feID, al) =>
    let st := { st with serviceIDAlloc := al }
    let svcKey := svcKeyOf fe 0
    let svcVal : SvcVal :=
      { flags := flagsOf st.cfg fe, revNat := feID % 65536, backendID := 0,
        count := 0, affTimeoutSec := 0, l7ProxyPort := 0 }
    let orderedBackends := sortedBackends fe.backends
    let backendAddrs := backendAddrsOf orderedBackends
    match delOrphans feID (orphanBackends st fe.address backendAddrs) st with
    | (.error e, st) => (.error e, st)
    | (.ok _, st) =>
      match processBackends fe feID orderedBackends 0 (svcKey, svcVal) st with
      | (.error e, st) => (.error e, st)
      | (.ok kv, st) =>
        let numPreviousBackends := ((mlookup st.backendReferences fe.address).getD []).length
        match upsertRevNat feID kv.1 st with
        | (.error e, st) => (.error e, st)
        | (.ok _, st) =>
          let numActiveBackends := numActive orderedBackends
          match upsertMaster kv.1 kv.2 fe numActiveBackends st with
          | (.error e, st) => (.error e, st)
          | (.ok _, st) =>
            match cleanupSlots kv.1 numPreviousBackends numActiveBackends st with
            | (.error e, st) => (.error e, st)
            | (.ok _, st) => (.ok (), updateReferences st fe.address backendAddrs)

/-- Model of `bpfOps.deleteFrontend`. -/
def deleteFrontend (fe : Frontend) (st : St) : Except Err Unit × St :=
  match st.serviceIDAlloc.lookupLocalID fe.address with
  | none => (.ok (), st)
  | some feID =>
    match forEachE (fun addr st =>
        deleteAffinityMatch feID ((mlookup st.backendStates addr).getD BackendRec.zero).id st)
        ((mlookup st.backendReferences fe.address).getD []) st with
    | (.error e, st) => (.error e, st)
    | (.ok _, st) =>
      match delOrphansNoAff (orphanBackends st fe.address []) st with
      | (.error e, st) => (.error e, st)
      | (.ok _, st) =>
        let numBackends := ((mlookup st.backendReferences fe.address).getD []).length
        match forEachE (fun i st => DeleteService (svcKeyOf fe i) st)
            (List.range (numBackends + 1)) st with
        | (.error e, st) => (.error e, st)
        | (.ok _, st) =>
          match DeleteRevNat ⟨fe.address.isIPv6, feID % 65536⟩ st with
          | (.error e, st) => (.error e, st)
          | (.ok _, st) =>
            let st := updateBackendRefCounts st fe.address []
            let st := { st with backendReferences := merase st.backendReferences fe.address }
            (.ok (), { st with serviceIDAlloc := st.serviceIDAlloc.deleteLocalID feID })

/-- The NodePort/HostPort condition of `Update`/`Delete`: NodePort, or
HostPort with an unspecified bind address. -/
def isNodePortLike (fe : Frontend) : Bool :=
  fe.svcType == .nodePort ||
    (fe.svcType == .hostPort && fe.address.addrCluster.isUnspecified)

/-- Substitute a node address into a clone of the frontend (step 10 of
§4.3: `fe = fe.Clone(); fe.Address.AddrCluster = ...`). -/
def substAddr (fe : Frontend) (a : IPAddr) : Frontend :=
  { fe with address := { fe.address with addrCluster := addrClusterFrom a } }

/-- The per-node update loop of `Update`: skip node addresses of the wrong
family, reconcile a clone for each matching one, and drop it from the
previously-recorded set. -/
def updLoop (fe : Frontend) :
    List IPAddr → List IPAddr → St → Except Err Unit × (List IPAddr × St)
  | [], old, st => (.ok (), (old, st))
  | a :: rest, old, st =>
    if fe.address.isIPv6 != a.isV6 then updLoop fe rest old st
    else
      match updateFrontend (substAddr fe a) st with
      | (.ok _, st) => updLoop fe rest (old.erase a) st
      | (.error e, st) => (.error e, (old, st))

/-- The orphan-node-address deletion loop of `Update` (same family skip). -/
def updDelLoop (fe : Frontend) : List IPAddr → St → Except Err Unit × St
  | [], st => (.ok (), st)
  | a :: rest, st =>
    if fe.address.isIPv6 != a.isV6 then updDelLoop fe rest st
    else
      match deleteFrontend (substAddr fe a) st with
      | (.ok _, st) => updDelLoop fe rest st
      | (.error e, st) => (.error e, st)

/-- Model of `bpfOps.Update` (the `reconciler.Operations` entry point):
reconcile the frontend itself and, for NodePort/HostPort, expand over the
node addresses and clean up node addresses no longer in use. -/
def Update (fe : Frontend) (st : St) : Except Err Unit × St :=
  match updateFrontend fe st with
  | (.error e, st) => (.error e, st)
  | (.ok _, st) =>
    if isNodePortLike fe then
      let old := (mlookup st.nodePortAddrs fe.address.port).getD []
      match updLoop fe fe.nodePortAddrs old st with
      | (.error e, p) => (.error e, p.2)
      | (.ok _, p) =>
        match updDelLoop fe p.1 p.2 with
        | (.error e, st) => (.error e, st)
        | (.ok _, st) =>
          (.ok (), { st with nodePortAddrs := mupdate st.nodePortAddrs fe.address.port fe.nodePortAddrs })
    else (.ok (), st)

/-- The per-node deletion loop of `Delete` — note: unlike `Update`'s loops,
the source has no IP-family check here. -/
def delNodeLoop (fe : Frontend) : List IPAddr → St → Except Err Unit × St
  | [], st => (.ok (), st)
  | a :: rest, st =>
    match deleteFrontend (substAddr fe a) st with
    | (.ok _, st) => delNodeLoop fe rest st
    | (.error e, st) => (.error e, st)

/-- Model of `bpfOps.Delete`: delete the frontend and, for
NodePort/HostPort, every entry recorded for the last-used node addresses. -/
def Delete (fe : Frontend) (st : St) : Except Err Unit × St :=
  match deleteFrontend fe st with
  | (.error e, st) => (.error e, st)
  | (.ok _, st) =>
    if isNodePortLike fe then
      match mlookup st.nodePortAddrs fe.address.port with
      | some addrs =>
        match delNodeLoop fe addrs st with
        | (.error e, st) => (.error e, st)
        | (.ok _, st) =>
          (.ok (), { st with nodePortAddrs := merase st.nodePortAddrs fe.address.port })
      | none => (.ok (), st)
    else (.ok (), st)

/-! ## Pruner (source `bpfOps.Prune` and its four sweeps) -/

/-- Model of `svcKeyToAddr` (protocol hardcoded to TCP in the source, and
`MustAddrClusterFromIP` yields cluster 0). -/
def svcKeyToAddr (k : SvcKey) : L3n4Addr := ⟨⟨k.isV6, k.addr, 0⟩, k.port, .tcp, k.scope⟩

/-- Model of `beValueToAddr`. -/
def beValueToAddr (v : BeVal) : L3n4Addr := ⟨⟨v.isV6, v.addr, 0⟩, v.port, .tcp, 0⟩

/-- A delete attempt whose failure is logged and ignored (the prune sweeps
log map-delete failures instead of returning them). -/
def attemptDelete (op : WOp) (apply : St → St) (st : St) : St :=
  let st := { st with trace := st.trace ++ [op] }
  let p := popFailure st
  if p.1 then apply p.2 else p.2

/-- Model of `bpfOps.pruneServiceMaps`: drop every service row whose
frontend address has no membership record; always reports success. -/
def pruneServiceMaps (st : St) : Except Err Unit × St :=
  let toDelete := st.svcMap.filterMap (fun e =>
    if (mlookup st.backendReferences (svcKeyToAddr e.1)).isSome then none else some e.1)
  (.ok (), toDelete.foldl (fun st k =>
    attemptDelete (.delSvc k) (fun st => { st with svcMap := merase st.svcMap k }) st) st)

/-- Model of `bpfOps.pruneBackendMaps`: drop every backend row whose address
has no registry record; always reports success. -/
def pruneBackendMaps (st : St) : Except Err Unit × St :=
  let toDelete := st.beMap.filterMap (fun e =>
    if (mlookup st.backendStates (beValueToAddr e.2)).isSome then none else some e.1)
  (.ok (), toDelete.foldl (fun st k =>
    attemptDelete (.delBe k) (fun st => { st with beMap := merase st.beMap k }) st) st)

/-- Model of `bpfOps.pruneRestoredIDs`: free restart-restored IDs that no
frontend or backend reclaimed, then clear both restored sets. -/
def pruneRestoredIDs (st : St) : Except Err Unit × St :=
  let st := st.restoredServiceIDs.foldl (fun st id =>
    match mlookup st.serviceIDAlloc.entitiesID id with
    | some addrID =>
      if (mlookup st.backendReferences addrID.l3n4Addr).isSome then st
      else { st with serviceIDAlloc := st.serviceIDAlloc.deleteLocalID id }
    | none => st) st
  let st := st.restoredBackendIDs.foldl (fun st id =>
    match mlookup st.backendIDAlloc.entitiesID id with
    | some addrID =>
      if (mlookup st.backendStates addrID.l3n4Addr).isSome then st
      else { st with backendIDAlloc := st.backendIDAlloc.deleteLocalID id }
    | none => st) st
  (.ok (), { st with restoredServiceIDs := [], restoredBackendIDs := [] })

/-- Model of `bpfOps.pruneRevNat`: dump the reverse-NAT table (the dump may
fail, which is the sweep's error), then drop rows whose ID is not allocated,
ignoring per-row delete failures. -/
def pruneRevNat (st : St) : Except Err Unit × St :=
  let p := popFailure st
  if !p.1 then (.error .dumpFailed, p.2)
  else
    let st := p.2
    let toDelete := st.revNatMap.filterMap (fun e =>
      if (mlookup st.serviceIDAlloc.entitiesID e.1.id).isSome then none else some e.1)
    (.ok (), toDelete.foldl (fun st k =>
      attemptDelete (.delRevNat k) (fun st => { st with revNatMap := merase st.revNatMap k }) st) st)

/-- Model of `errors.Join` over the four sweep results: `ok` iff every
sweep succeeded, otherwise the list of failures. -/
def errJoin (rs : List (Except Err Unit)) : Except (List Err) Unit :=
  let errs := rs.filterMap (fun r => match r with | .error e => some e | .ok _ => none)
  if errs.isEmpty then .ok () else .error errs

/-- Model of `bpfOps.Prune`: run all four sweeps unconditionally (Go
evaluates every argument of `errors.Join`) and join their errors. -/
def Prune (st : St) : Except (List Err) Unit × St :=
  let p1 := pruneRestoredIDs st
  let p2 := pruneServiceMaps p1.2
  let p3 := pruneBackendMaps p2.2
  let p4 := pruneRevNat p3.2
  (errJoin [p1.1, p2.1, p3.1, p4.1], p4.2)

/-! ## General lemmas: traces grow by appending, and state components are
framed by the steps that do not mention them -/

/-- `st'` extends `st`'s trace by operations all satisfying `P`. -/
def TraceExt (st st' : St) (P : WOp → Prop) : Prop :=
  ∃ d, st'.trace = st.trace ++ d ∧ ∀ op ∈ d, P op

theorem TraceExt.refl (st : St) (P : WOp → Prop) : TraceExt st st P :=
  ⟨[], by simp⟩

theorem TraceExt.trans {st1 st2 st3 : St} {P : WOp → Prop}
    (h1 : TraceExt st1 st2 P) (h2 : TraceExt st2 st3 P) : TraceExt st1 st3 P := by
  obtain ⟨d1, e1, p1⟩ := h1
  obtain ⟨d2, e2, p2⟩ := h2
  refine ⟨d1 ++ d2, by simp [e2, e1], ?_⟩
  intro op hop
  rcases List.mem_append.mp hop with h | h
  · exact p1 op h
  · exact p2 op h

theorem TraceExt.mono {st st' : St} {P Q : WOp → Prop}
    (h : TraceExt st st' P) (hpq : ∀ op, P op → Q op) : TraceExt st st' Q := by
  obtain ⟨d, e, p⟩ := h
  exact ⟨d, e, fun op hop => hpq op (p op hop)⟩

theorem TraceExt.same_trace {st st' : St} {P : WOp → Prop}
    (h : st'.trace = st.trace) : TraceExt st st' P :=
  ⟨[], by simp [h]⟩

theorem TraceExt.mem {st st' : St} {P : WOp → Prop} (h : TraceExt st st' P)
    {op : WOp} (hop : op ∈ st'.trace) : op ∈ st.trace ∨ P op := by
  obtain ⟨d, e, p⟩ := h
  rw [e] at hop
  rcases List.mem_append.mp hop with h | h
  · exact Or.inl h
  · exact Or.inr (p op h)

theorem popFailure_trace (st : St) : (popFailure st).2.trace = st.trace := by
  unfold popFailure
  cases st.failures <;> rfl

theorem tryWrite_trace (op : WOp) (apply : St → St) (st : St)
    (happly : ∀ s, (apply s).trace = s.trace) :
    (tryWrite op apply st).2.trace = st.trace ++ [op] := by
  unfold tryWrite popFailure
  cases st.failures with
  | nil => simp [happly]
  | cons b rest => cases b <;> simp [happly]

theorem tryWrite_traceExt (op : WOp) (apply : St → St) (st : St)
    (happly : ∀ s, (apply s).trace = s.trace) {P : WOp → Prop} (hP : P op) :
    TraceExt st (tryWrite op apply st).2 P :=
  ⟨[op], tryWrite_trace op apply st happly, by simpa using hP⟩

theorem forEachE_traceExt {α : Type} (f : α → St → Except Err Unit × St)
    {P : WOp → Prop} (hf : ∀ a s, TraceExt s ((f a s).2) P) :
    ∀ (l : List α) (st : St), TraceExt st ((forEachE f l st).2) P := by
  intro l
  induction l with
  | nil => intro st; exact TraceExt.refl st P
  | cons x rest ih =>
    intro st
    unfold forEachE
    rcases hfx : f x st with ⟨r, st1⟩
    have h1 : TraceExt st st1 P := by
      have := hf x st
      rwa [hfx] at this
    cases r with
    | ok _ => exact h1.trans (ih st1)
    | error e => exact h1

/-- Trace-extension facts for the atomic datapath writes. -/
theorem UpdateService_traceExt (k v st) {P : WOp → Prop} (hP : P (.updSvc k v)) :
    TraceExt st (UpdateService k v st).2 P := by
  unfold UpdateService
  refine tryWrite_traceExt _ _ _ (fun s => ?_) hP
  rfl

theorem DeleteService_traceExt (k st) {P : WOp → Prop} (hP : P (.delSvc k)) :
    TraceExt st (DeleteService k st).2 P := by
  unfold DeleteService
  refine tryWrite_traceExt _ _ _ (fun s => ?_) hP
  rfl

theorem UpdateBackend_traceExt (k v st) {P : WOp → Prop} (hP : P (.updBe k v)) :
    TraceExt st (UpdateBackend k v st).2 P := by
  unfold UpdateBackend
  refine tryWrite_traceExt _ _ _ (fun s => ?_) hP
  rfl

theorem DeleteBackendMap_traceExt (k st) {P : WOp → Prop} (hP : P (.delBe k)) :
    TraceExt st (DeleteBackendMap k st).2 P := by
  unfold DeleteBackendMap
  refine tryWrite_traceExt _ _ _ (fun s => ?_) hP
  rfl

theorem UpdateRevNat_traceExt (k v st) {P : WOp → Prop} (hP : P (.updRevNat k v)) :
    TraceExt st (UpdateRevNat k v st).2 P := by
  unfold UpdateRevNat
  refine tryWrite_traceExt _ _ _ (fun s => ?_) hP
  rfl

theorem DeleteRevNat_traceExt (k st) {P : WOp → Prop} (hP : P (.delRevNat k)) :
    TraceExt st (DeleteRevNat k st).2 P := by
  unfold DeleteRevNat
  refine tryWrite_traceExt _ _ _ (fun s => ?_) hP
  rfl

theorem UpdateAffinity_traceExt (k st) {P : WOp → Prop} (hP : P (.updAff k)) :
    TraceExt st (UpdateAffinity k st).2 P := by
  unfold UpdateAffinity
  refine tryWrite_traceExt _ _ _ (fun s => ?_) hP
  rfl

theorem DeleteAffinity_traceExt (k st) {P : WOp → Prop} (hP : P (.delAff k)) :
    TraceExt st (DeleteAffinity k st).2 P := by
  unfold DeleteAffinity
  refine tryWrite_traceExt _ _ _ (fun s => ?_) hP
  rfl

theorem upsertAffinityMatch_traceExt (id beID st) {P : WOp → Prop}
    (hP : P (.updAff ⟨beID, id % 65536⟩)) :
    TraceExt st (upsertAffinityMatch id beID st).2 P := by
  unfold upsertAffinityMatch
  split
  · exact UpdateAffinity_traceExt _ _ hP
  · exact TraceExt.refl st P

theorem deleteAffinityMatch_traceExt (id beID st) {P : WOp → Prop}
    (hP : P (.delAff ⟨beID, id % 65536⟩)) :
    TraceExt st (deleteAffinityMatch id beID st).2 P := by
  unfold deleteAffinityMatch
  split
  · exact DeleteAffinity_traceExt _ _ hP
  · exact TraceExt.refl st P

/-! Frame lemmas: the committed membership map `backendReferences` is
untouched by every step of `updateFrontend` except the final
`updateReferences`. -/

theorem tryWrite_refs (op : WOp) (apply : St → St) (st : St)
    (h : ∀ s, (apply s).backendReferences = s.backendReferences) :
    ((tryWrite op apply st).2).backendReferences = st.backendReferences := by
  unfold tryWrite popFailure
  cases st.failures with
  | nil => simp [h]
  | cons b rest => cases b <;> simp [h]

theorem UpdateService_refs (k v st) :
    ((UpdateService k v st).2).backendReferences = st.backendReferences := by
  unfold UpdateService
  refine tryWrite_refs _ _ _ (fun s => ?_)
  rfl

theorem DeleteService_refs (k st) :
    ((DeleteService k st).2).backendReferences = st.backendReferences := by
  unfold DeleteService
  refine tryWrite_refs _ _ _ (fun s => ?_)
  rfl

theorem UpdateBackend_refs (k v st) :
    ((UpdateBackend k v st).2).backendReferences = st.backendReferences := by
  unfold UpdateBackend
  refine tryWrite_refs _ _ _ (fun s => ?_)
  rfl

theorem DeleteBackendMap_refs (k st) :
    ((DeleteBackendMap k st).2).backendReferences = st.backendReferences := by
  unfold DeleteBackendMap
  refine tryWrite_refs _ _ _ (fun s => ?_)
  rfl

theorem UpdateRevNat_refs (k v st) :
    ((UpdateRevNat k v st).2).backendReferences = st.backendReferences := by
  unfold UpdateRevNat
  refine tryWrite_refs _ _ _ (fun s => ?_)
  rfl

theorem DeleteRevNat_refs (k st) :
    ((DeleteRevNat k st).2).backendReferences = st.backendReferences := by
  unfold DeleteRevNat
  refine tryWrite_refs _ _ _ (fun s => ?_)
  rfl

theorem UpdateAffinity_refs (k st) :
    ((UpdateAffinity k st).2).backendReferences = st.backendReferences := by
  unfold UpdateAffinity
  refine tryWrite_refs _ _ _ (fun s => ?_)
  rfl

theorem DeleteAffinity_refs (k st) :
    ((DeleteAffinity k st).2).backendReferences = st.backendReferences := by
  unfold DeleteAffinity
  refine tryWrite_refs _ _ _ (fun s => ?_)
  rfl

theorem upsertAffinityMatch_refs (id beID st) :
    ((upsertAffinityMatch id beID st).2).backendReferences = st.backendReferences := by
  unfold upsertAffinityMatch
  split
  · exact UpdateAffinity_refs _ _
  · rfl

theorem deleteAffinityMatch_refs (id beID st) :
    ((deleteAffinityMatch id beID st).2).backendReferences = st.backendReferences := by
  unfold deleteAffinityMatch
  split
  · exact DeleteAffinity_refs _ _
  · rfl

theorem upsertRevNat_refs (id k st) :
    ((upsertRevNat id k st).2).backendReferences = st.backendReferences := by
  unfold upsertRevNat
  split
  · rfl
  · exact UpdateRevNat_refs _ _ _

theorem upsertBackend_refs (id be st) :
    ((upsertBackend id be st).2).backendReferences = st.backendReferences := by
  unfold upsertBackend
  exact UpdateBackend_refs _ _ _

theorem deleteBackend_refs (v6 id st) :
    ((deleteBackend v6 id st).2).backendReferences = st.backendReferences := by
  unfold deleteBackend
  exact DeleteBackendMap_refs _ _

theorem forEachE_proj {α β : Type} (proj : St → β) (f : α → St → Except Err Unit × St)
    (hf : ∀ a s, proj ((f a s).2) = proj s) :
    ∀ (l : List α) (st : St), proj ((forEachE f l st).2) = proj st := by
  intro l
  induction l with
  | nil => intro st; rfl
  | cons x rest ih =>
    intro st
    rw [forEachE]
    rcases hx : f x st with ⟨r, st1⟩
    have h1 : proj st1 = proj st := by
      have := hf x st
      rwa [hx] at this
    cases r with
    | ok u => simpa [h1] using ih st1
    | error e => simpa using h1

theorem releaseBackend_refs (st id addr) :
    (releaseBackend st id addr).backendReferences = st.backendReferences := rfl

theorem updateBackendRevision_refs (st id addr rev) :
    (updateBackendRevision st id addr rev).backendReferences = st.backendReferences := rfl

theorem delOrphans_refs (feID orphans st) :
    ((delOrphans feID orphans st).2).backendReferences = st.backendReferences := by
  unfold delOrphans
  refine forEachE_proj _ _ (fun o s => ?_) orphans st
  rcases hd : deleteBackend o.addr.isIPv6 o.id s with ⟨r, s1⟩
  have h1 : s1.backendReferences = s.backendReferences := by
    have := deleteBackend_refs o.addr.isIPv6 o.id s
    rwa [hd] at this
  cases r with
  | error e => simpa using h1
  | ok u =>
    dsimp only
    rcases ha : deleteAffinityMatch feID o.id s1 with ⟨r2, s2⟩
    have h2 : s2.backendReferences = s1.backendReferences := by
      have := deleteAffinityMatch_refs feID o.id s1
      rwa [ha] at this
    try rw [ha]
    cases r2 with
    | error e => simpa using h2.trans h1
    | ok u2 => simpa [releaseBackend_refs] using h2.trans h1

theorem delOrphansNoAff_refs (orphans st) :
    ((delOrphansNoAff orphans st).2).backendReferences = st.backendReferences := by
  unfold delOrphansNoAff
  refine forEachE_proj _ _ (fun o s => ?_) orphans st
  rcases hd : deleteBackend o.addr.isIPv6 o.id s with ⟨r, s1⟩
  have h1 : s1.backendReferences = s.backendReferences := by
    have := deleteBackend_refs o.addr.isIPv6 o.id s
    rwa [hd] at this
  cases r with
  | error e => simpa using h1
  | ok u => simpa [releaseBackend_refs] using h1

theorem getBackendID_refs (be st) :
    ((getBackendID be st).2).backendReferences = st.backendReferences := by
  unfold getBackendID
  split
  · rfl
  · rcases h : st.backendIDAlloc.acquireLocalID be.l3n4Addr 0 with ⟨r, al⟩
    cases r <;> rfl

theorem maybeUpsertBackend_refs (beID be st) :
    ((maybeUpsertBackend beID be st).2).backendReferences = st.backendReferences := by
  unfold maybeUpsertBackend
  split
  · rcases h : upsertBackend beID be st with ⟨r, s1⟩
    have h1 : s1.backendReferences = st.backendReferences := by
      have := upsertBackend_refs beID be st
      rwa [h] at this
    cases r with
    | ok u => simpa [updateBackendRevision_refs] using h1
    | error e => simpa using h1
  · rfl

theorem writeSlot_refs (feID beID i be kv st) :
    ((writeSlot feID beID i be kv st).2).backendReferences = st.backendReferences := by
  unfold writeSlot
  split
  · rcases h : upsertService (slotKV feID beID i kv).1 (slotKV feID beID i kv).2 st with ⟨r, s1⟩
    have h1 : s1.backendReferences = st.backendReferences := by
      have := UpdateService_refs (slotKV feID beID i kv).1 (slotKV feID beID i kv).2 st
      unfold upsertService at h
      rwa [h] at this
    cases r <;> simpa using h1
  · rfl

theorem maintainAffinity_refs (fe feID beID be st) :
    ((maintainAffinity fe feID beID be st).2).backendReferences = st.backendReferences := by
  unfold maintainAffinity
  split
  · exact upsertAffinityMatch_refs _ _ _
  · exact deleteAffinityMatch_refs _ _ _

theorem processBackend_refs (fe feID i be kv st) :
    ((processBackend fe feID i be kv st).2).backendReferences = st.backendReferences := by
  unfold processBackend
  rcases h1 : getBackendID be st with ⟨r1, s1⟩
  have e1 : s1.backendReferences = st.backendReferences := by
    have := getBackendID_refs be st
    rwa [h1] at this
  cases r1 with
  | error e => simpa using e1
  | ok beID =>
    dsimp only
    rcases h2 : maybeUpsertBackend beID be s1 with ⟨r2, s2⟩
    have e2 : s2.backendReferences = s1.backendReferences := by
      have := maybeUpsertBackend_refs beID be s1
      rwa [h2] at this
    try rw [h2]
    cases r2 with
    | error e => simpa using e2.trans e1
    | ok u =>
      dsimp only
      rcases h3 : writeSlot feID beID i be kv s2 with ⟨r3, s3⟩
      have e3 : s3.backendReferences = s2.backendReferences := by
        have := writeSlot_refs feID beID i be kv s2
        rwa [h3] at this
      try rw [h3]
      cases r3 with
      | error e => simpa using e3.trans (e2.trans e1)
      | ok kv' =>
        dsimp only
        rcases h4 : maintainAffinity fe feID beID be s3 with ⟨r4, s4⟩
        have e4 : s4.backendReferences = s3.backendReferences := by
          have := maintainAffinity_refs fe feID beID be s3
          rwa [h4] at this
        try rw [h4]
        cases r4 <;> simpa using e4.trans (e3.trans (e2.trans e1))

theorem processBackends_refs (fe feID) :
    ∀ (bes : List BackendWithRevision) (i : Nat) (kv : SvcKey × SvcVal) (st : St),
      ((processBackends fe feID bes i kv st).2).backendReferences = st.backendReferences := by
  intro bes
  induction bes with
  | nil => intro i kv st; rfl
  | cons be rest ih =>
    intro i kv st
    rw [processBackends]
    rcases h : processBackend fe feID i be kv st with ⟨r, s1⟩
    have e1 : s1.backendReferences = st.backendReferences := by
      have := processBackend_refs fe feID i be kv st
      rwa [h] at this
    cases r with
    | ok kv' => simpa using (ih (i + 1) kv' s1).trans e1
    | error e => simpa using e1

theorem cleanupSlots_refs (k oldCount newCount st) :
    ((cleanupSlots k oldCount newCount st).2).backendReferences = st.backendReferences := by
  unfold cleanupSlots
  exact forEachE_proj _ _ (fun i s => DeleteService_refs _ _) _ _

theorem upsertMaster_refs (k v fe n st) :
    ((upsertMaster k v fe n st).2).backendReferences = st.backendReferences := by
  unfold upsertMaster upsertService
  exact UpdateService_refs _ _ _

theorem incOne_refs (st a) : (incOne st a).backendReferences = st.backendReferences := rfl

theorem decOne_refs (st a) : (decOne st a).backendReferences = st.backendReferences := by
  unfold decOne
  rcases mlookup st.backendStates a with _ | s
  · rfl
  · dsimp only
    split <;> rfl

theorem foldl_incOne_refs :
    ∀ (l : List L3n4Addr) (st : St), (l.foldl incOne st).backendReferences = st.backendReferences := by
  intro l
  induction l with
  | nil => intro st; rfl
  | cons a rest ih =>
    intro st
    simp only [List.foldl_cons]
    rw [ih, incOne_refs]

theorem updateBackendRefCounts_refs (st : St) (f : L3n4Addr) (ns : List L3n4Addr) :
    (updateBackendRefCounts st f ns).backendReferences = st.backendReferences := by
  unfold updateBackendRefCounts
  rcases mlookup st.backendReferences f with _ | oldRefs
  · exact foldl_incOne_refs ns st
  · dsimp only
    rw [foldl_incOne_refs]
    have key : ∀ (l : List L3n4Addr) (acc : List L3n4Addr × St),
        ((l.foldl (fun (p : List L3n4Addr × St) addr =>
          if addr ∈ p.1 then (p.1.erase addr, p.2) else (p.1, decOne p.2 addr)) acc).2).backendReferences =
        acc.2.backendReferences := by
      intro l
      induction l with
      | nil => intro acc; rfl
      | cons a rest ih =>
        intro acc
        simp only [List.foldl_cons]
        rw [ih]
        split <;> simp [decOne_refs]
    exact key oldRefs (ns, st)

/-- The per-frontend reconciliation either fails — leaving the committed
membership map untouched — or succeeds, in which case the membership map is
the old one with exactly this frontend's entry replaced by the new backend
set: the commit is performed only as the very last step. -/
theorem updateFrontend_refs_master (fe : Frontend) (st : St) :
    (((updateFrontend fe st).2).backendReferences = st.backendReferences ∧
      ∃ e, (updateFrontend fe st).1 = .error e) ∨
    (((updateFrontend fe st).2).backendReferences =
        mupdate st.backendReferences fe.address (backendAddrsOf (sortedBackends fe.backends)) ∧
      (updateFrontend fe st).1 = .ok ()) := by
  unfold updateFrontend
  rcases h0 : st.serviceIDAlloc.acquireLocalID fe.address 0 with ⟨r0, al⟩
  cases r0 with
  | error e => exact Or.inl ⟨rfl, Err.allocFail e, rfl⟩
  | ok feID =>
    dsimp only
    rcases h1 : delOrphans feID
        (orphanBackends { st with serviceIDAlloc := al } fe.address
          (backendAddrsOf (sortedBackends fe.backends)))
        { st with serviceIDAlloc := al } with ⟨r1, s1⟩
    have e1 : s1.backendReferences = st.backendReferences := by
      have := delOrphans_refs feID
        (orphanBackends { st with serviceIDAlloc := al } fe.address
          (backendAddrsOf (sortedBackends fe.backends)))
        { st with serviceIDAlloc := al }
      rw [h1] at this
      exact this
    try rw [h1]
    cases r1 with
    | error e => exact Or.inl ⟨e1, e, rfl⟩
    | ok u =>
      dsimp only
      rcases h2 : processBackends fe feID (sortedBackends fe.backends) 0
          (svcKeyOf fe 0,
            { flags := flagsOf st.cfg fe, revNat := feID % 65536, backendID := 0,
              count := 0, affTimeoutSec := 0, l7ProxyPort := 0 }) s1 with ⟨r2, s2⟩
      have e2 : s2.backendReferences = s1.backendReferences := by
        have := processBackends_refs fe feID (sortedBackends fe.backends) 0
          (svcKeyOf fe 0,
            { flags := flagsOf st.cfg fe, revNat := feID % 65536, backendID := 0,
              count := 0, affTimeoutSec := 0, l7ProxyPort := 0 }) s1
        rw [h2] at this
        exact this
      try rw [h2]
      cases r2 with
      | error e => exact Or.inl ⟨e2.trans e1, e, rfl⟩
      | ok kv =>
        dsimp only
        rcases h3 : upsertRevNat feID kv.1 s2 with ⟨r3, s3⟩
        have e3 : s3.backendReferences = s2.backendReferences := by
          have := upsertRevNat_refs feID kv.1 s2
          rw [h3] at this
          exact this
        try rw [h3]
        cases r3 with
        | error e => exact Or.inl ⟨e3.trans (e2.trans e1), e, rfl⟩
        | ok u3 =>
          dsimp only
          rcases h4 : upsertMaster kv.1 kv.2 fe (numActive (sortedBackends fe.backends)) s3
            with ⟨r4, s4⟩
          have e4 : s4.backendReferences = s3.backendReferences := by
            have := upsertMaster_refs kv.1 kv.2 fe (numActive (sortedBackends fe.backends)) s3
            rw [h4] at this
            exact this
          try rw [h4]
          cases r4 with
          | error e => exact Or.inl ⟨e4.trans (e3.trans (e2.trans e1)), e, rfl⟩
          | ok u4 =>
            dsimp only
            rcases h5 : cleanupSlots kv.1
                ((mlookup s2.backendReferences fe.address).getD []).length
                (numActive (sortedBackends fe.backends)) s4 with ⟨r5, s5⟩
            have e5 : s5.backendReferences = s4.backendReferences := by
              have := cleanupSlots_refs kv.1
                ((mlookup s2.backendReferences fe.address).getD []).length
                (numActive (sortedBackends fe.backends)) s4
              rw [h5] at this
              exact this
            try rw [h5]
            cases r5 with
            | error e => exact Or.inl ⟨e5.trans (e4.trans (e3.trans (e2.trans e1))), e, rfl⟩
            | ok u5 =>
              refine Or.inr ⟨?_, rfl⟩
              show (updateReferences s5 fe.address
                (backendAddrsOf (sortedBackends fe.backends))).backendReferences = _
              unfold updateReferences
              dsimp only
              rw [updateBackendRefCounts_refs,
                e5.trans (e4.trans (e3.trans (e2.trans e1)))]

/-! ## Sample concrete inputs used by witnesses and counterexamples -/

/-- A sample IPv4 frontend address. -/
def addrA : L3n4Addr := ⟨⟨false, 10, 0⟩, 80, .tcp, 0⟩

/-- A sample IPv4 backend address. -/
def addrB : L3n4Addr := ⟨⟨false, 11, 0⟩, 8080, .tcp, 0⟩

/-- Another sample IPv4 address. -/
def addrC : L3n4Addr := ⟨⟨false, 12, 0⟩, 8080, .tcp, 0⟩

/-- A sample IPv6 address. -/
def addrD : L3n4Addr := ⟨⟨true, 99, 0⟩, 80, .tcp, 0⟩

/-- A sample configuration (session affinity enabled, external ClusterIP
disabled). -/
def cfg0 : Config := ⟨true, false⟩

/-- The reconciler state right after `newBPFOps` (empty bookkeeping, empty
tables, no injected write failures). -/
def emptySt : St :=
  { serviceIDAlloc := newIDAllocator firstFreeServiceID maxSetOfServiceID,
    backendIDAlloc := newIDAllocator firstFreeBackendID maxSetOfBackendID,
    restoredServiceIDs := [], restoredBackendIDs := [],
    backendStates := [], backendReferences := [], nodePortAddrs := [],
    svcMap := [], beMap := [], revNatMap := [], affMap := [],
    failures := [], trace := [], cfg := cfg0 }

/-- A minimal ClusterIP frontend at `addrA` with no backends. -/
def feA : Frontend :=
  { address := addrA, svcType := .clusterIP, backends := [], nodePortAddrs := [],
    extTrafficPolicyLocal := false, intTrafficPolicyLocal := false, natPolicy := 0,
    sessionAffinity := false, sessionAffinityTimeoutSec := 0, l7ProxyPort := 0,
    loopbackHostPort := false }

/-- A service-ID allocator with the single usable ID already taken
(bounds (1,2): the scan loop can allocate only ID 1, see the C2 analysis). -/
def fullAllocW : IdAlloc :=
  { entitiesID := [(1, ⟨addrB, 1⟩)], entities := [(addrB, 1)],
    nextID := 2, maxID := 2, initNextID := 1, initMaxID := 2 }

/-- A state in which service-ID allocation fails and a membership entry for
`addrA` exists. -/
def stW : St :=
  { emptySt with serviceIDAlloc := fullAllocW, backendReferences := [(addrA, [addrB])] }

/-! ## C1 — errors in `updateFrontend` leave the committed membership
untouched -/

/-- C1: if the per-frontend reconciliation `updateFrontend` returns an
error at any step, the committed membership entry
`backendReferences[fe.Address]` is exactly what it was before the call;
on success the membership map is updated — as the final step — to the new
deduplicated backend set. -/
theorem updateFrontend_commits_membership_last (fe : Frontend) (st : St) :
    (∀ e, (updateFrontend fe st).1 = .error e →
      mlookup ((updateFrontend fe st).2).backendReferences fe.address =
        mlookup st.backendReferences fe.address) ∧
    ((updateFrontend fe st).1 = .ok () →
      ((updateFrontend fe st).2).backendReferences =
        mupdate st.backendReferences fe.address
          (backendAddrsOf (sortedBackends fe.backends))) := by
  rcases updateFrontend_refs_master fe st with ⟨hrefs, e0, herr⟩ | ⟨hrefs, hok⟩
  · constructor
    · intro e he
      rw [hrefs]
    · intro hok
      rw [herr] at hok
      cases hok
  · constructor
    · intro e he
      rw [hok] at he
      cases he
    · intro _
      exact hrefs

/-- Witness for C1: a concrete state in which allocation fails (the only
scannable service ID is taken), so `updateFrontend` errors and the
membership entry for the frontend is preserved. -/
theorem updateFrontend_commits_membership_last_witness :
    (updateFrontend feA stW).1 = .error (.allocFail .noIDAvailable) ∧
    mlookup ((updateFrontend feA stW).2).backendReferences feA.address =
      mlookup stW.backendReferences feA.address := by
  have h : (updateFrontend feA stW).1 = .error (.allocFail .noIDAvailable) := by decide
  exact ⟨h, (updateFrontend_commits_membership_last feA stW).1 _ h⟩

/-! ## C6 — adopted IDs are returned unchanged by a subsequent acquire -/

/-- C6: after adopting ID `i` for address `a` via `addID` (the startup
table-scan path), a subsequent `acquireLocalID(a, 0)` succeeds, returns
exactly `i`, and leaves the allocator unchanged. -/
theorem addID_then_acquire (al : IdAlloc) (a : L3n4Addr) (i : Nat) (_hi : i ≠ 0) :
    (al.addID a i).acquireLocalID a 0 = (.ok i, al.addID a i) := by
  unfold IdAlloc.acquireLocalID IdAlloc.addID
  simp [mlookup_mupdate_self]

/-- Witness for C6 at a concrete allocator and ID. -/
theorem addID_then_acquire_witness :
    ((newIDAllocator 1 65535).addID addrA 7).acquireLocalID addrA 0 =
      (.ok 7, (newIDAllocator 1 65535).addID addrA 7) :=
  addID_then_acquire (newIDAllocator 1 65535) addrA 7 (by decide)

/-! ## C4 — orphan characterization -/

/-- The membership characterization of `orphanBackends`. -/
theorem orphanBackends_mem_iff (st : St) (fa : L3n4Addr) (ns : List L3n4Addr)
    (r : BackendRec) :
    r ∈ orphanBackends st fa ns ↔
      ∃ a ∈ (mlookup st.backendReferences fa).getD [],
        a ∉ ns ∧ mlookup st.backendStates a = some r ∧ r.refCount ≤ 1 := by
  unfold orphanBackends
  rcases h : mlookup st.backendReferences fa with _ | oldRefs
  · simp
  · simp only [Option.getD_some, List.mem_filterMap]
    constructor
    · rintro ⟨a, ha, hsome⟩
      by_cases hmem : a ∈ ns
      · simp [hmem] at hsome
      · simp only [hmem, if_neg, ite_false] at hsome
        rcases hs : mlookup st.backendStates a with _ | s
        · rw [hs] at hsome
          cases hsome
        · rw [hs] at hsome
          by_cases hrc : s.refCount ≤ 1
          · simp [hrc] at hsome
            subst hsome
            exact ⟨a, ha, hmem, hs, hrc⟩
          · simp [hrc] at hsome
    · rintro ⟨a, ha, hmem, hs, hrc⟩
      refine ⟨a, ha, ?_⟩
      simp [hmem, hs, hrc]

/-! Trace characterization: which datapath writes each phase issues. -/

theorem forEachE_traceExt_mem {α : Type} (f : α → St → Except Err Unit × St)
    {P : WOp → Prop} :
    ∀ (l : List α), (∀ a ∈ l, ∀ s, TraceExt s ((f a s).2) P) →
      ∀ (st : St), TraceExt st ((forEachE f l st).2) P := by
  intro l
  induction l with
  | nil => intro _ st; exact TraceExt.refl st P
  | cons x rest ih =>
    intro hf st
    rw [forEachE]
    rcases hx : f x st with ⟨r, st1⟩
    have h1 : TraceExt st st1 P := by
      have := hf x (by simp) st
      rwa [hx] at this
    cases r with
    | ok u => exact h1.trans (ih (fun a ha s => hf a (by simp [ha]) s) st1)
    | error e => exact h1

theorem getBackendID_trace (be st) : ((getBackendID be st).2).trace = st.trace := by
  unfold getBackendID
  split
  · rfl
  · rcases h : st.backendIDAlloc.acquireLocalID be.l3n4Addr 0 with ⟨r, al⟩
    cases r <;> rfl

theorem decOne_trace (st a) : (decOne st a).trace = st.trace := by
  unfold decOne
  rcases mlookup st.backendStates a with _ | s
  · rfl
  · dsimp only
    split <;> rfl

theorem foldl_incOne_trace :
    ∀ (l : List L3n4Addr) (st : St), (l.foldl incOne st).trace = st.trace := by
  intro l
  induction l with
  | nil => intro st; rfl
  | cons a rest ih =>
    intro st
    simp only [List.foldl_cons]
    rw [ih]
    rfl

theorem updateBackendRefCounts_trace (st : St) (f : L3n4Addr) (ns : List L3n4Addr) :
    (updateBackendRefCounts st f ns).trace = st.trace := by
  unfold updateBackendRefCounts
  rcases mlookup st.backendReferences f with _ | oldRefs
  · exact foldl_incOne_trace ns st
  · dsimp only
    rw [foldl_incOne_trace]
    have key : ∀ (l : List L3n4Addr) (acc : List L3n4Addr × St),
        ((l.foldl (fun (p : List L3n4Addr × St) addr =>
          if addr ∈ p.1 then (p.1.erase addr, p.2) else (p.1, decOne p.2 addr)) acc).2).trace =
        acc.2.trace := by
      intro l
      induction l with
      | nil => intro acc; rfl
      | cons a rest ih =>
        intro acc
        simp only [List.foldl_cons]
        rw [ih]
        split <;> simp [decOne_trace]
    exact key oldRefs (ns, st)

theorem updateReferences_trace (st f ns) : (updateReferences st f ns).trace = st.trace := by
  unfold updateReferences
  exact updateBackendRefCounts_trace st f ns

theorem maybeUpsertBackend_traceExt (beID be st) {P : WOp → Prop}
    (h : ∀ k v, P (.updBe k v)) :
    TraceExt st ((maybeUpsertBackend beID be st).2) P := by
  unfold maybeUpsertBackend
  split
  · rcases hu : upsertBackend beID be st with ⟨r, s1⟩
    have h1 : TraceExt st s1 P := by
      have : TraceExt st (upsertBackend beID be st).2 P := by
        unfold upsertBackend
        exact UpdateBackend_traceExt _ _ _ (h _ _)
      rwa [hu] at this
    cases r with
    | ok u => exact h1.trans (TraceExt.same_trace rfl)
    | error e => exact h1
  · exact TraceExt.refl st P

theorem writeSlot_traceExt (feID beID i be kv st) {P : WOp → Prop}
    (h : P (.updSvc (slotKV feID beID i kv).1 (slotKV feID beID i kv).2)) :
    TraceExt st ((writeSlot feID beID i be kv st).2) P := by
  unfold writeSlot
  split
  · rcases hu : upsertService (slotKV feID beID i kv).1 (slotKV feID beID i kv).2 st
      with ⟨r, s1⟩
    have h1 : TraceExt st s1 P := by
      have : TraceExt st (upsertService (slotKV feID beID i kv).1
          (slotKV feID beID i kv).2 st).2 P := by
        unfold upsertService
        exact UpdateService_traceExt _ _ _ h
      rwa [hu] at this
    cases r <;> exact h1
  · exact TraceExt.refl st P

theorem maintainAffinity_traceExt (fe feID beID be st) {P : WOp → Prop}
    (h1 : P (.updAff ⟨beID, feID % 65536⟩)) (h2 : P (.delAff ⟨beID, feID % 65536⟩)) :
    TraceExt st ((maintainAffinity fe feID beID be st).2) P := by
  unfold maintainAffinity
  split
  · exact upsertAffinityMatch_traceExt _ _ _ h1
  · exact deleteAffinityMatch_traceExt _ _ _ h2

/-- The service key and value returned by `processBackend` keep the address
family of the pair it was given. -/
theorem processBackend_kv_fam (fe feID i be kv st) :
    ∀ kv' st', processBackend fe feID i be kv st = (.ok kv', st') →
      kv'.1.isV6 = kv.1.isV6 := by
  intro kv' st' h
  unfold processBackend at h
  rcases h1 : getBackendID be st with ⟨r1, s1⟩
  rw [h1] at h
  cases r1 with
  | error e => cases h
  | ok beID =>
    dsimp only at h
    rcases h2 : maybeUpsertBackend beID be s1 with ⟨r2, s2⟩
    rw [h2] at h
    cases r2 with
    | error e => cases h
    | ok u =>
      dsimp only at h
      rcases h3 : writeSlot feID beID i be kv s2 with ⟨r3, s3⟩
      rw [h3] at h
      cases r3 with
      | error e => cases h
      | ok kv2 =>
        dsimp only at h
        have hkv2 : kv2.1.isV6 = kv.1.isV6 := by
          unfold writeSlot at h3
          split at h3
          · rcases h4 : upsertService (slotKV feID beID i kv).1 (slotKV feID beID i kv).2 s2
              with ⟨r4, s4⟩
            rw [h4] at h3
            cases r4 with
            | ok u => cases h3; rfl
            | error e => cases h3
          · cases h3
            rfl
        rcases h5 : maintainAffinity fe feID beID be s3 with ⟨r5, s5⟩
        rw [h5] at h
        cases r5 with
        | ok u => cases h; exact hkv2
        | error e => cases h

theorem processBackend_traceExt (fe feID i be kv st) {P : WOp → Prop}
    (hBe : ∀ k v, P (.updBe k v))
    (hSvc : ∀ k v, k.isV6 = kv.1.isV6 → P (.updSvc k v))
    (hAffU : ∀ k, P (.updAff k)) (hAffD : ∀ k, P (.delAff k)) :
    TraceExt st ((processBackend fe feID i be kv st).2) P := by
  unfold processBackend
  rcases h1 : getBackendID be st with ⟨r1, s1⟩
  have e1 : TraceExt st s1 P := by
    refine TraceExt.same_trace ?_
    have := getBackendID_trace be st
    rwa [h1] at this
  cases r1 with
  | error e => exact e1
  | ok beID =>
    dsimp only
    rcases h2 : maybeUpsertBackend beID be s1 with ⟨r2, s2⟩
    have e2 : TraceExt s1 s2 P := by
      have := maybeUpsertBackend_traceExt beID be s1 hBe
      rwa [h2] at this
    cases r2 with
    | error e => exact e1.trans e2
    | ok u =>
      dsimp only
      rcases h3 : writeSlot feID beID i be kv s2 with ⟨r3, s3⟩
      have e3 : TraceExt s2 s3 P := by
        have := writeSlot_traceExt feID beID i be kv s2 (hSvc _ _ rfl)
        rwa [h3] at this
      cases r3 with
      | error e => exact (e1.trans e2).trans e3
      | ok kv' =>
        dsimp only
        rcases h4 : maintainAffinity fe feID beID be s3 with ⟨r4, s4⟩
        have e4 : TraceExt s3 s4 P := by
          have := maintainAffinity_traceExt fe feID beID be s3 (hAffU _) (hAffD _)
          rwa [h4] at this
        cases r4 <;> exact ((e1.trans e2).trans e3).trans e4

theorem processBackends_traceExt (fe feID) {P : WOp → Prop}
    (hBe : ∀ k v, P (.updBe k v))
    (hAffU : ∀ k, P (.updAff k)) (hAffD : ∀ k, P (.delAff k)) :
    ∀ (bes : List BackendWithRevision) (i : Nat) (kv : SvcKey × SvcVal) (st : St),
      (∀ k v, k.isV6 = kv.1.isV6 → P (.updSvc k v)) →
      TraceExt st ((processBackends fe feID bes i kv st).2) P := by
  intro bes
  induction bes with
  | nil => intro i kv st _; exact TraceExt.refl st P
  | cons be rest ih =>
    intro i kv st hSvc
    rw [processBackends]
    rcases h : processBackend fe feID i be kv st with ⟨r, s1⟩
    have e1 : TraceExt st s1 P := by
      have := processBackend_traceExt fe feID i be kv st hBe hSvc hAffU hAffD
      rwa [h] at this
    cases r with
    | ok kv' =>
      have hfam : kv'.1.isV6 = kv.1.isV6 := processBackend_kv_fam fe feID i be kv st kv' s1 h
      exact e1.trans (ih (i + 1) kv' s1 (fun k v hk => hSvc k v (hk.trans hfam)))
    | error e => exact e1

theorem delOrphans_traceExt (feID orphans st) {P : WOp → Prop}
    (hBe : ∀ o ∈ orphans, P (.delBe ⟨o.addr.isIPv6, o.id⟩))
    (hAffD : ∀ k, P (.delAff k)) :
    TraceExt st ((delOrphans feID orphans st).2) P := by
  unfold delOrphans
  refine forEachE_traceExt_mem _ orphans (fun o ho s => ?_) st
  rcases hd : deleteBackend o.addr.isIPv6 o.id s with ⟨r, s1⟩
  have h1 : TraceExt s s1 P := by
    have : TraceExt s (deleteBackend o.addr.isIPv6 o.id s).2 P := by
      unfold deleteBackend
      exact DeleteBackendMap_traceExt _ _ (hBe o ho)
    rwa [hd] at this
  cases r with
  | error e => exact h1
  | ok u =>
    dsimp only
    rcases ha : deleteAffinityMatch feID o.id s1 with ⟨r2, s2⟩
    have h2 : TraceExt s1 s2 P := by
      have := deleteAffinityMatch_traceExt feID o.id s1 (hAffD _)
      rwa [ha] at this
    cases r2 with
    | error e => exact h1.trans h2
    | ok u2 => exact h1.trans (h2.trans (TraceExt.same_trace rfl))

theorem upsertRevNat_traceExt (id k st) {P : WOp → Prop}
    (h : ∀ v, P (.updRevNat ⟨k.isV6, id % 65536⟩ v)) :
    TraceExt st ((upsertRevNat id k st).2) P := by
  unfold upsertRevNat
  split
  · exact TraceExt.refl st P
  · exact UpdateRevNat_traceExt _ _ _ (h _)

theorem upsertMaster_traceExt (k v fe n st) {P : WOp → Prop}
    (h : ∀ v', P (.updSvc { k with slot := 0 } v')) :
    TraceExt st ((upsertMaster k v fe n st).2) P := by
  unfold upsertMaster upsertService
  exact UpdateService_traceExt _ _ _ (h _)

theorem cleanupSlots_traceExt (k oldCount newCount st) {P : WOp → Prop}
    (h : ∀ i, P (.delSvc { k with slot := i + 1 })) :
    TraceExt st ((cleanupSlots k oldCount newCount st).2) P := by
  unfold cleanupSlots
  exact forEachE_traceExt_mem _ _ (fun i _ s => DeleteService_traceExt _ _ (h i)) st

theorem processBackends_kv_fam (fe feID) :
    ∀ (bes : List BackendWithRevision) (i : Nat) (kv : SvcKey × SvcVal) (st : St) kv' st',
      processBackends fe feID bes i kv st = (.ok kv', st') → kv'.1.isV6 = kv.1.isV6 := by
  intro bes
  induction bes with
  | nil =>
    intro i kv st kv' st' h
    cases h
    rfl
  | cons be rest ih =>
    intro i kv st kv' st' h
    rw [processBackends] at h
    rcases hp : processBackend fe feID i be kv st with ⟨r, s1⟩
    rw [hp] at h
    cases r with
    | error e => cases h
    | ok kv2 =>
      have h1 := processBackend_kv_fam fe feID i be kv st kv2 s1 hp
      exact (ih (i + 1) kv2 s1 kv' st' h).trans h1

/-- The write-trace discipline of `updateFrontend`: every operation it
issues is a backend upsert, a service write or delete in the frontend's
address family, a reverse-NAT upsert in that family, an affinity write, or
the delete of one of the orphan backends computed at entry. -/
theorem updateFrontend_traceExt (fe : Frontend) (st : St) {P : WOp → Prop}
    (hBe : ∀ k v, P (.updBe k v))
    (hSvcU : ∀ k v, k.isV6 = fe.address.isIPv6 → P (.updSvc k v))
    (hSvcD : ∀ k, k.isV6 = fe.address.isIPv6 → P (.delSvc k))
    (hRev : ∀ kr v, kr.isV6 = fe.address.isIPv6 → P (.updRevNat kr v))
    (hAffU : ∀ k, P (.updAff k)) (hAffD : ∀ k, P (.delAff k))
    (hOrph : ∀ o ∈ orphanBackends st fe.address (backendAddrsOf (sortedBackends fe.backends)),
      P (.delBe ⟨o.addr.isIPv6, o.id⟩)) :
    TraceExt st ((updateFrontend fe st).2) P := by
  unfold updateFrontend
  rcases h0 : st.serviceIDAlloc.acquireLocalID fe.address 0 with ⟨r0, al⟩
  cases r0 with
  | error e => exact TraceExt.same_trace rfl
  | ok feID =>
    dsimp only
    rcases h1 : delOrphans feID
        (orphanBackends { st with serviceIDAlloc := al } fe.address
          (backendAddrsOf (sortedBackends fe.backends)))
        { st with serviceIDAlloc := al } with ⟨r1, s1⟩
    have e1 : TraceExt st s1 P := by
      have := delOrphans_traceExt feID
        (orphanBackends { st with serviceIDAlloc := al } fe.address
          (backendAddrsOf (sortedBackends fe.backends)))
        { st with serviceIDAlloc := al } hOrph hAffD
      rw [h1] at this
      exact TraceExt.trans (TraceExt.same_trace rfl) this
    cases r1 with
    | error e => exact e1
    | ok u =>
      dsimp only
      rcases h2 : processBackends fe feID (sortedBackends fe.backends) 0
          (svcKeyOf fe 0,
            { flags := flagsOf st.cfg fe, revNat := feID % 65536, backendID := 0,
              count := 0, affTimeoutSec := 0, l7ProxyPort := 0 }) s1 with ⟨r2, s2⟩
      have e2 : TraceExt s1 s2 P := by
        have := processBackends_traceExt fe feID hBe hAffU hAffD
          (sortedBackends fe.backends) 0
          (svcKeyOf fe 0,
            { flags := flagsOf st.cfg fe, revNat := feID % 65536, backendID := 0,
              count := 0, affTimeoutSec := 0, l7ProxyPort := 0 }) s1
          (fun k v hk => hSvcU k v hk)
        rwa [h2] at this
      cases r2 with
      | error e => exact e1.trans e2
      | ok kv =>
        dsimp only
        have hkvfam : kv.1.isV6 = fe.address.isIPv6 :=
          processBackends_kv_fam fe feID (sortedBackends fe.backends) 0
            (svcKeyOf fe 0,
              { flags := flagsOf st.cfg fe, revNat := feID % 65536, backendID := 0,
                count := 0, affTimeoutSec := 0, l7ProxyPort := 0 }) s1 kv s2 h2
        rcases h3 : upsertRevNat feID kv.1 s2 with ⟨r3, s3⟩
        have e3 : TraceExt s2 s3 P := by
          have := upsertRevNat_traceExt feID kv.1 s2
            (fun v => hRev ⟨kv.1.isV6, feID % 65536⟩ v hkvfam)
          rwa [h3] at this
        cases r3 with
        | error e => exact (e1.trans e2).trans e3
        | ok u3 =>
          dsimp only
          rcases h4 : upsertMaster kv.1 kv.2 fe (numActive (sortedBackends fe.backends)) s3
            with ⟨r4, s4⟩
          have e4 : TraceExt s3 s4 P := by
            have := upsertMaster_traceExt kv.1 kv.2 fe (numActive (sortedBackends fe.backends))
              s3 (fun v' => hSvcU _ v' hkvfam)
            rwa [h4] at this
          cases r4 with
          | error e => exact ((e1.trans e2).trans e3).trans e4
          | ok u4 =>
            dsimp only
            rcases h5 : cleanupSlots kv.1
                ((mlookup s2.backendReferences fe.address).getD []).length
                (numActive (sortedBackends fe.backends)) s4 with ⟨r5, s5⟩
            have e5 : TraceExt s4 s5 P := by
              have := cleanupSlots_traceExt kv.1
                ((mlookup s2.backendReferences fe.address).getD []).length
                (numActive (sortedBackends fe.backends)) s4
                (fun i => hSvcD _ hkvfam)
              rwa [h5] at this
            cases r5 with
            | error e => exact (((e1.trans e2).trans e3).trans e4).trans e5
            | ok u5 =>
              refine ((((e1.trans e2).trans e3).trans e4).trans e5).trans ?_
              exact TraceExt.same_trace (updateReferences_trace _ _ _)

/-! ## C5 — reference-count delta of `updateBackendRefCounts` /
`updateReferences` -/

/-- List difference by membership (the shape the refcount walk computes). -/
def diffL (xs ys : List L3n4Addr) : List L3n4Addr :=
  xs.filter (fun a => decide (a ∉ ys))

theorem mem_diffL {xs ys : List L3n4Addr} {a : L3n4Addr} :
    a ∈ diffL xs ys ↔ a ∈ xs ∧ a ∉ ys := by
  simp [diffL, List.mem_filter]

theorem nodup_diffL {xs ys : List L3n4Addr} (h : xs.Nodup) : (diffL xs ys).Nodup :=
  h.filter _

theorem diffL_nil_right (xs : List L3n4Addr) : diffL xs [] = xs := by
  simp [diffL]

theorem diffL_cons_notmem {xs : List L3n4Addr} {b : L3n4Addr} (ys : List L3n4Addr)
    (hb : b ∉ xs) : diffL xs (b :: ys) = diffL xs ys := by
  refine List.filter_congr ?_
  intro a ha
  have hab : a ≠ b := fun h => hb (h ▸ ha)
  simp [List.mem_cons, hab]

theorem diffL_erase_notmem {xs : List L3n4Addr} {b : L3n4Addr} (ys : List L3n4Addr)
    (hb : b ∉ xs) : diffL xs (ys.erase b) = diffL xs ys := by
  refine List.filter_congr ?_
  intro a ha
  have hab : a ≠ b := fun h => hb (h ▸ ha)
  have hiff : (a ∈ ys.erase b) ↔ (a ∈ ys) := List.mem_erase_of_ne hab
  simp [hiff]

theorem diffL_erase_mem {ns : List L3n4Addr} {b : L3n4Addr} (rest : List L3n4Addr)
    (hns : ns.Nodup) (_hb : b ∈ ns) : diffL (ns.erase b) rest = diffL ns (b :: rest) := by
  unfold diffL
  rw [hns.erase_eq_filter b, List.filter_filter]
  refine List.filter_congr ?_
  intro a _
  by_cases hab : a = b
  · subst hab
    simp
  · by_cases hr : a ∈ rest <;> simp [List.mem_cons, hab, hr]

theorem diffL_cons_self {b : L3n4Addr} {rest ns : List L3n4Addr} (hb : b ∉ ns) :
    diffL (b :: rest) ns = b :: diffL rest ns := by
  unfold diffL
  rw [List.filter_cons]
  simp [hb]

theorem diffL_cons_drop {b : L3n4Addr} {rest ns : List L3n4Addr} (hb : b ∈ ns) :
    diffL (b :: rest) ns = diffL rest ns := by
  unfold diffL
  rw [List.filter_cons]
  simp [hb]

/-- The decrement walk of `updateBackendRefCounts`: with duplicate-free old
and new sets, it removes the still-referenced addresses from the new set
and applies `decOne` to exactly the departing ones. -/
theorem refcount_dec_phase :
    ∀ (old ns : List L3n4Addr) (st : St), old.Nodup → ns.Nodup →
      old.foldl (fun (p : List L3n4Addr × St) addr =>
          if addr ∈ p.1 then (p.1.erase addr, p.2) else (p.1, decOne p.2 addr)) (ns, st) =
      (diffL ns old, (diffL old ns).foldl decOne st) := by
  intro old
  induction old with
  | nil =>
    intro ns st _ _
    rw [diffL_nil_right]
    rfl
  | cons b rest ih =>
    intro ns st hold hns
    rcases List.nodup_cons.mp hold with ⟨hbr, hrest⟩
    simp only [List.foldl_cons]
    by_cases hb : b ∈ ns
    · rw [if_pos hb]
      rw [ih (ns.erase b) st hrest (hns.erase b)]
      rw [diffL_erase_mem rest hns hb, diffL_erase_notmem ns hbr, diffL_cons_drop hb]
    · rw [if_neg hb]
      rw [ih ns (decOne st b) hrest hns]
      rw [diffL_cons_notmem rest hb, diffL_cons_self hb]
      rfl

/-- `updateBackendRefCounts` in closed form: decrement the departing
addresses, then increment the entering ones. -/
theorem updateBackendRefCounts_eq (st : St) (f : L3n4Addr) (ns : List L3n4Addr)
    (hold : ((mlookup st.backendReferences f).getD []).Nodup) (hns : ns.Nodup) :
    updateBackendRefCounts st f ns =
      (diffL ns ((mlookup st.backendReferences f).getD [])).foldl incOne
        ((diffL ((mlookup st.backendReferences f).getD []) ns).foldl decOne st) := by
  unfold updateBackendRefCounts
  rcases h : mlookup st.backendReferences f with _ | oldRefs
  · simp only [Option.getD_none]
    rw [diffL_nil_right]
    rfl
  · rw [h] at hold
    simp only [Option.getD_some] at hold ⊢
    show (List.foldl incOne
        (oldRefs.foldl (fun (p : List L3n4Addr × St) addr =>
          if addr ∈ p.1 then (p.1.erase addr, p.2) else (p.1, decOne p.2 addr)) (ns, st)).2
        (oldRefs.foldl (fun (p : List L3n4Addr × St) addr =>
          if addr ∈ p.1 then (p.1.erase addr, p.2) else (p.1, decOne p.2 addr)) (ns, st)).1) = _
    rw [refcount_dec_phase oldRefs ns st hold hns]

theorem decOne_lookup_ne (st : St) (a b : L3n4Addr) (h : a ≠ b) :
    mlookup (decOne st a).backendStates b = mlookup st.backendStates b := by
  unfold decOne
  rcases mlookup st.backendStates a with _ | s
  · rfl
  · dsimp only
    split
    · exact mlookup_mupdate_ne _ _ _ _ h
    · rfl

theorem incOne_lookup_ne (st : St) (a b : L3n4Addr) (h : a ≠ b) :
    mlookup (incOne st a).backendStates b = mlookup st.backendStates b := by
  unfold incOne
  exact mlookup_mupdate_ne _ _ _ _ h

/-- The pointwise effect of one decrement: decremented only when the
stored count exceeds 1 (the record is never removed). -/
theorem decOne_lookup_self (st : St) (a : L3n4Addr) :
    mlookup (decOne st a).backendStates a =
      match mlookup st.backendStates a with
      | some s => some (if 1 < s.refCount then { s with refCount := s.refCount - 1 } else s)
      | none => none := by
  unfold decOne
  rcases h : mlookup st.backendStates a with _ | s
  · exact h
  · dsimp only
    split
    · rename_i hgt
      rw [mlookup_mupdate_self]
    · rename_i hle
      rw [h]

/-- The pointwise effect of one increment: the count grows by one and the
record (with its `addr` field set) is created if absent. -/
theorem incOne_lookup_self (st : St) (a : L3n4Addr) :
    mlookup (incOne st a).backendStates a =
      some
        { addr := a,
          revision := ((mlookup st.backendStates a).getD BackendRec.zero).revision,
          refCount := ((mlookup st.backendStates a).getD BackendRec.zero).refCount + 1,
          id := ((mlookup st.backendStates a).getD BackendRec.zero).id } := by
  unfold incOne
  exact mlookup_mupdate_self _ _ _

theorem foldl_decOne_lookup_notmem :
    ∀ (l : List L3n4Addr) (st : St) (a : L3n4Addr), a ∉ l →
      mlookup ((l.foldl decOne st).backendStates) a = mlookup st.backendStates a := by
  intro l
  induction l with
  | nil => intro st a _; rfl
  | cons b rest ih =>
    intro st a ha
    have hab : b ≠ a := fun h => ha (by simp [h])
    simp only [List.foldl_cons]
    rw [ih _ a (fun h => ha (by simp [h])), decOne_lookup_ne st b a hab]

theorem foldl_incOne_lookup_notmem :
    ∀ (l : List L3n4Addr) (st : St) (a : L3n4Addr), a ∉ l →
      mlookup ((l.foldl incOne st).backendStates) a = mlookup st.backendStates a := by
  intro l
  induction l with
  | nil => intro st a _; rfl
  | cons b rest ih =>
    intro st a ha
    have hab : b ≠ a := fun h => ha (by simp [h])
    simp only [List.foldl_cons]
    rw [ih _ a (fun h => ha (by simp [h])), incOne_lookup_ne st b a hab]

theorem foldl_decOne_lookup_mem :
    ∀ (l : List L3n4Addr) (st : St) (a : L3n4Addr), l.Nodup → a ∈ l →
      mlookup ((l.foldl decOne st).backendStates) a =
        mlookup (decOne st a).backendStates a := by
  intro l
  induction l with
  | nil => intro st a _ ha; cases ha
  | cons b rest ih =>
    intro st a hnd ha
    rcases List.nodup_cons.mp hnd with ⟨hbr, hrest⟩
    simp only [List.foldl_cons]
    rcases List.mem_cons.mp ha with rfl | ha'
    · exact foldl_decOne_lookup_notmem rest (decOne st a) a hbr
    · have hba : b ≠ a := fun h => hbr (h ▸ ha')
      rw [ih (decOne st b) a hrest ha', decOne_lookup_self (decOne st b) a,
        decOne_lookup_self st a, decOne_lookup_ne st b a hba]

theorem foldl_incOne_lookup_mem :
    ∀ (l : List L3n4Addr) (st : St) (a : L3n4Addr), l.Nodup → a ∈ l →
      mlookup ((l.foldl incOne st).backendStates) a =
        mlookup (incOne st a).backendStates a := by
  intro l
  induction l with
  | nil => intro st a _ ha; cases ha
  | cons b rest ih =>
    intro st a hnd ha
    rcases List.nodup_cons.mp hnd with ⟨hbr, hrest⟩
    simp only [List.foldl_cons]
    rcases List.mem_cons.mp ha with rfl | ha'
    · exact foldl_incOne_lookup_notmem rest (incOne st a) a hbr
    · have hba : b ≠ a := fun h => hbr (h ▸ ha')
      rw [ih (incOne st b) a hrest ha', incOne_lookup_self (incOne st b) a,
        incOne_lookup_self st a, incOne_lookup_ne st b a hba]


/-- A record with a single reference, for the C5 counterexample and the
C4 witness. -/
def recB : BackendRec := ⟨addrB, 1, 1, 9⟩

/-- A state in which frontend `addrA`'s committed membership is `[addrB]`
and `addrB`'s registry record has refCount 1. -/
def stO : St :=
  { emptySt with backendStates := [(addrB, recB)], backendReferences := [(addrA, [addrB])] }

/-- C5 counterexample: for a departing address whose refCount is 1, the Go
code does **not** decrement (the guard is `refCount > 1`): the stored count
stays 1, while the claim's "decrement with floor 0" would require 0. -/
theorem updateBackendRefCounts_no_floor_zero :
    mlookup (updateBackendRefCounts stO addrA []).backendStates addrB =
      some ⟨addrB, 1, 1, 9⟩ := by
  decide

/-- C5 (amended): the commit delta of `updateBackendRefCounts` followed by
the membership replacement of `updateReferences`: a departing tracked
address is decremented only when its count exceeds 1 (floor 1 — the record
is never deleted and never reaches 0 here), an entering address is
incremented with the record created if absent, all other records are
untouched, and the stored membership set is replaced by the new set. -/
theorem updateReferences_delta (st : St) (f : L3n4Addr) (ns : List L3n4Addr)
    (hold : ((mlookup st.backendReferences f).getD []).Nodup) (hns : ns.Nodup) :
    mlookup (updateReferences st f ns).backendReferences f = some ns ∧
    (∀ a s, a ∈ (mlookup st.backendReferences f).getD [] → a ∉ ns →
      mlookup st.backendStates a = some s →
      mlookup (updateReferences st f ns).backendStates a =
        some (if 1 < s.refCount then { s with refCount := s.refCount - 1 } else s)) ∧
    (∀ a, a ∈ (mlookup st.backendReferences f).getD [] → a ∉ ns →
      mlookup st.backendStates a = none →
      mlookup (updateReferences st f ns).backendStates a = none) ∧
    (∀ a, a ∈ ns → a ∉ (mlookup st.backendReferences f).getD [] →
      mlookup (updateReferences st f ns).backendStates a =
        some { addr := a,
               revision := ((mlookup st.backendStates a).getD BackendRec.zero).revision,
               refCount := ((mlookup st.backendStates a).getD BackendRec.zero).refCount + 1,
               id := ((mlookup st.backendStates a).getD BackendRec.zero).id }) ∧
    (∀ a, ((a ∈ (mlookup st.backendReferences f).getD [] ∧ a ∈ ns) ∨
           (a ∉ (mlookup st.backendReferences f).getD [] ∧ a ∉ ns)) →
      mlookup (updateReferences st f ns).backendStates a = mlookup st.backendStates a) := by
  have hbs : (updateReferences st f ns).backendStates =
      (updateBackendRefCounts st f ns).backendStates := rfl
  have hrefs : (updateReferences st f ns).backendReferences =
      mupdate (updateBackendRefCounts st f ns).backendReferences f ns := rfl
  have hq := updateBackendRefCounts_eq st f ns hold hns
  refine ⟨?_, ?_, ?_, ?_, ?_⟩
  · rw [hrefs, mlookup_mupdate_self]
  · intro a s ha hns' hs
    rw [hbs, hq]
    have h1 : a ∉ diffL ns ((mlookup st.backendReferences f).getD []) :=
      fun h => hns' (mem_diffL.mp h).1
    have h2 : a ∈ diffL ((mlookup st.backendReferences f).getD []) ns :=
      mem_diffL.mpr ⟨ha, hns'⟩
    rw [foldl_incOne_lookup_notmem _ _ _ h1,
      foldl_decOne_lookup_mem _ _ _ (nodup_diffL hold) h2,
      decOne_lookup_self, hs]
  · intro a ha hns' hs
    rw [hbs, hq]
    have h1 : a ∉ diffL ns ((mlookup st.backendReferences f).getD []) :=
      fun h => hns' (mem_diffL.mp h).1
    have h2 : a ∈ diffL ((mlookup st.backendReferences f).getD []) ns :=
      mem_diffL.mpr ⟨ha, hns'⟩
    rw [foldl_incOne_lookup_notmem _ _ _ h1,
      foldl_decOne_lookup_mem _ _ _ (nodup_diffL hold) h2,
      decOne_lookup_self, hs]
  · intro a ha hold'
    rw [hbs, hq]
    have h1 : a ∈ diffL ns ((mlookup st.backendReferences f).getD []) :=
      mem_diffL.mpr ⟨ha, hold'⟩
    have h2 : a ∉ diffL ((mlookup st.backendReferences f).getD []) ns :=
      fun h => hold' (mem_diffL.mp h).1
    rw [foldl_incOne_lookup_mem _ _ _ (nodup_diffL hns) h1, incOne_lookup_self,
      foldl_decOne_lookup_notmem _ _ _ h2]
  · intro a ha
    rw [hbs, hq]
    have h1 : a ∉ diffL ns ((mlookup st.backendReferences f).getD []) := by
      intro h
      rcases mem_diffL.mp h with ⟨hin, hout⟩
      rcases ha with ⟨_, _⟩ | ⟨_, h2⟩
      · exact hout (by assumption)
      · exact h2 hin
    have h2 : a ∉ diffL ((mlookup st.backendReferences f).getD []) ns := by
      intro h
      rcases mem_diffL.mp h with ⟨hin, hout⟩
      rcases ha with ⟨_, h1'⟩ | ⟨h1', _⟩
      · exact hout h1'
      · exact h1' hin
    rw [foldl_incOne_lookup_notmem _ _ _ h1, foldl_decOne_lookup_notmem _ _ _ h2]

/-- Witness for C5's amended theorem at a concrete state: membership for
`addrA` is replaced by the new set. -/
theorem updateReferences_delta_witness :
    mlookup (updateReferences stO addrA [addrC]).backendReferences addrA = some [addrC] :=
  (updateReferences_delta stO addrA [addrC] (by decide) (by decide)).1

/-! ## C8 — Prune runs all four sweeps and joins their errors -/

theorem errJoin4_ok_iff (r1 r2 r3 r4 : Except Err Unit) :
    errJoin [r1, r2, r3, r4] = .ok () ↔
      r1 = .ok () ∧ r2 = .ok () ∧ r3 = .ok () ∧ r4 = .ok () := by
  cases r1 <;> cases r2 <;> cases r3 <;> cases r4 <;> simp [errJoin]

/-- C8: `Prune` always executes all four sweeps in order — the final state
reflects restored-ID pruning, service-map pruning, backend-map pruning and
reverse-NAT pruning applied unconditionally, regardless of which sweeps
fail — and it reports success exactly when every sweep succeeded. -/
theorem Prune_runs_all_sweeps (st : St) :
    (Prune st).2 =
      (pruneRevNat (pruneBackendMaps (pruneServiceMaps (pruneRestoredIDs st).2).2).2).2 ∧
    ((Prune st).1 = .ok () ↔
      (pruneRestoredIDs st).1 = .ok () ∧
      (pruneServiceMaps (pruneRestoredIDs st).2).1 = .ok () ∧
      (pruneBackendMaps (pruneServiceMaps (pruneRestoredIDs st).2).2).1 = .ok () ∧
      (pruneRevNat (pruneBackendMaps (pruneServiceMaps (pruneRestoredIDs st).2).2).2).1 =
        .ok ()) := by
  exact ⟨rfl, errJoin4_ok_iff _ _ _ _⟩

/-! ## C4 — orphan characterization and orphan-only backend deletion -/

/-- C4: `orphanBackends(fa, newSet)` returns exactly the tracked records of
addresses in `fa`'s committed membership that are absent from `newSet` and
have refCount ≤ 1 (so a backend still referenced by another frontend —
refCount ≥ 2 — is never returned); and every backend-row delete issued by
`updateFrontend` targets one of those orphans. -/
theorem orphanBackends_exact (st : St) (fa : L3n4Addr) (ns : List L3n4Addr)
    (r : BackendRec) (fe : Frontend) :
    (r ∈ orphanBackends st fa ns ↔
      ∃ a ∈ (mlookup st.backendReferences fa).getD [],
        a ∉ ns ∧ mlookup st.backendStates a = some r ∧ r.refCount ≤ 1) ∧
    (∀ k, WOp.delBe k ∈ ((updateFrontend fe st).2).trace →
      WOp.delBe k ∈ st.trace ∨
      ∃ o ∈ orphanBackends st fe.address (backendAddrsOf (sortedBackends fe.backends)),
        k = ⟨o.addr.isIPv6, o.id⟩) := by
  constructor
  · exact orphanBackends_mem_iff st fa ns r
  · intro k hk
    have hT := updateFrontend_traceExt fe st
      (P := fun op => ∀ k', op = WOp.delBe k' →
        ∃ o ∈ orphanBackends st fe.address (backendAddrsOf (sortedBackends fe.backends)),
          k' = ⟨o.addr.isIPv6, o.id⟩)
      (fun kk v k' h => WOp.noConfusion h)
      (fun kk v _ k' h => WOp.noConfusion h)
      (fun kk _ k' h => WOp.noConfusion h)
      (fun kk v _ k' h => WOp.noConfusion h)
      (fun kk k' h => WOp.noConfusion h)
      (fun kk k' h => WOp.noConfusion h)
      (fun o ho k' h => by cases h; exact ⟨o, ho, rfl⟩)
    rcases hT.mem hk with h | hP
    · exact Or.inl h
    · exact Or.inr (hP k rfl)

/-- Witness for C4: a state with a refCount-1 orphan; `updateFrontend`
issues a delete for its backend row, and that delete is accounted for by
the orphan set. -/
theorem orphanBackends_exact_witness :
    WOp.delBe ⟨false, 9⟩ ∈ ((updateFrontend feA stO).2).trace ∧
    (WOp.delBe ⟨false, 9⟩ ∈ stO.trace ∨
     ∃ o ∈ orphanBackends stO addrA (backendAddrsOf (sortedBackends feA.backends)),
       (⟨false, 9⟩ : BeKey) = ⟨o.addr.isIPv6, o.id⟩) := by
  have h : WOp.delBe ⟨false, 9⟩ ∈ ((updateFrontend feA stO).2).trace := by decide
  exact ⟨h, (orphanBackends_exact stO addrA [] recB feA).2 _ h⟩

/-! ## C2 — allocator wraparound -/

/-- The `entitiesID` map after sequentially allocating `addrs` starting at
ID `i0`. -/
def entriesIDFrom (i0 : Nat) : List L3n4Addr → List (Nat × L3n4AddrID)
  | [] => []
  | a :: rest => (i0, ⟨a, i0⟩) :: entriesIDFrom (i0 + 1) rest

/-- The `entities` map after sequentially allocating `addrs` starting at
ID `i0`. -/
def entriesFrom (i0 : Nat) : List L3n4Addr → List (L3n4Addr × Nat)
  | [] => []
  | a :: rest => (a, i0) :: entriesFrom (i0 + 1) rest

/-- The allocator state after `addrs` have been allocated IDs
`i0, i0+1, ...` in order, with bounds `(i0, m)`. -/
def chainAlloc (i0 m : Nat) (addrs : List L3n4Addr) : IdAlloc :=
  { entitiesID := entriesIDFrom i0 addrs, entities := entriesFrom i0 addrs,
    nextID := i0 + addrs.length, maxID := m, initNextID := i0, initMaxID := m }

/-- Sequential acquisition of fresh IDs for a list of addresses; `none` if
any acquisition fails. -/
def acquireAll (al : IdAlloc) : List L3n4Addr → Option (List Nat × IdAlloc)
  | [] => some ([], al)
  | a :: rest =>
    match al.acquireLocalID a 0 with
    | (.ok id, al') => (acquireAll al' rest).map (fun p => (id :: p.1, p.2))
    | (.error _, _) => none

theorem entriesIDFrom_lookup_ge :
    ∀ (addrs : List L3n4Addr) (i0 j : Nat), i0 + addrs.length ≤ j →
      mlookup (entriesIDFrom i0 addrs) j = none := by
  intro addrs
  induction addrs with
  | nil => intro i0 j _; rfl
  | cons a rest ih =>
    intro i0 j h
    simp only [List.length_cons] at h
    have : i0 ≠ j := by omega
    simp only [entriesIDFrom, mlookup_cons, if_neg this]
    exact ih (i0 + 1) j (by omega)

theorem entriesIDFrom_lookup_isSome :
    ∀ (addrs : List L3n4Addr) (i0 j : Nat), i0 ≤ j → j < i0 + addrs.length →
      (mlookup (entriesIDFrom i0 addrs) j).isSome = true := by
  intro addrs
  induction addrs with
  | nil => intro i0 j h1 h2; simp at h2; omega
  | cons a rest ih =>
    intro i0 j h1 h2
    by_cases h : i0 = j
    · simp [entriesIDFrom, mlookup_cons, h]
    · simp only [entriesIDFrom, mlookup_cons, if_neg h]
      simp only [List.length_cons] at h2
      exact ih (i0 + 1) j (by omega) (by omega)

theorem entriesIDFrom_lookup_at :
    ∀ (addrs : List L3n4Addr) (i0 t : Nat) (ht : t < addrs.length),
      mlookup (entriesIDFrom i0 addrs) (i0 + t) =
        some ⟨addrs.get ⟨t, ht⟩, i0 + t⟩ := by
  intro addrs
  induction addrs with
  | nil => intro i0 t ht; simp at ht
  | cons a rest ih =>
    intro i0 t ht
    cases t with
    | zero => simp [entriesIDFrom, mlookup_cons]
    | succ t' =>
      have hne : i0 ≠ i0 + (t' + 1) := by omega
      simp only [entriesIDFrom, mlookup_cons, if_neg hne]
      have := ih (i0 + 1) t' (by simpa using Nat.lt_of_succ_lt_succ ht)
      have harith : i0 + 1 + t' = i0 + (t' + 1) := by omega
      rw [harith] at this
      rw [this]
      rfl

theorem entriesFrom_lookup_notmem :
    ∀ (addrs : List L3n4Addr) (i0 : Nat) (b : L3n4Addr), b ∉ addrs →
      mlookup (entriesFrom i0 addrs) b = none := by
  intro addrs
  induction addrs with
  | nil => intro i0 b _; rfl
  | cons a rest ih =>
    intro i0 b hb
    have : a ≠ b := fun h => hb (by simp [h])
    simp only [entriesFrom, mlookup_cons, if_neg this]
    exact ih (i0 + 1) b (fun h => hb (by simp [h]))

theorem entriesIDFrom_append :
    ∀ (xs ys : List L3n4Addr) (i0 : Nat),
      entriesIDFrom i0 (xs ++ ys) = entriesIDFrom i0 xs ++ entriesIDFrom (i0 + xs.length) ys := by
  intro xs
  induction xs with
  | nil => intro ys i0; rfl
  | cons a rest ih =>
    intro ys i0
    show (i0, (⟨a, i0⟩ : L3n4AddrID)) :: entriesIDFrom (i0 + 1) (rest ++ ys) =
      ((i0, (⟨a, i0⟩ : L3n4AddrID)) :: entriesIDFrom (i0 + 1) rest) ++
        entriesIDFrom (i0 + (rest.length + 1)) ys
    rw [List.cons_append, ih ys (i0 + 1)]
    have harith : i0 + (rest.length + 1) = i0 + 1 + rest.length := by omega
    rw [harith]

theorem entriesFrom_append :
    ∀ (xs ys : List L3n4Addr) (i0 : Nat),
      entriesFrom i0 (xs ++ ys) = entriesFrom i0 xs ++ entriesFrom (i0 + xs.length) ys := by
  intro xs
  induction xs with
  | nil => intro ys i0; rfl
  | cons a rest ih =>
    intro ys i0
    show (a, i0) :: entriesFrom (i0 + 1) (rest ++ ys) =
      ((a, i0) :: entriesFrom (i0 + 1) rest) ++ entriesFrom (i0 + (rest.length + 1)) ys
    rw [List.cons_append, ih ys (i0 + 1)]
    have harith : i0 + (rest.length + 1) = i0 + 1 + rest.length := by omega
    rw [harith]

/-- One successful fresh allocation extends the chain: the scan claims
`i0 + |pre|` in a single iteration. -/
theorem chain_step (i0 m : Nat) (pre : List L3n4Addr) (b : L3n4Addr)
    (h2 : i0 + pre.length < m) (hb : b ∉ pre) :
    (chainAlloc i0 m pre).acquireLocalID b 0 =
      (.ok (i0 + pre.length), chainAlloc i0 m (pre ++ [b])) := by
  have hent : mlookup (chainAlloc i0 m pre).entities b = none :=
    entriesFrom_lookup_notmem pre i0 b hb
  have hfree : mlookup (chainAlloc i0 m pre).entitiesID (chainAlloc i0 m pre).nextID = none :=
    entriesIDFrom_lookup_ge pre i0 _ (Nat.le_refl _)
  unfold IdAlloc.acquireLocalID
  rw [hent]
  show scanLoop b (chainAlloc i0 m pre).nextID false (chainAlloc i0 m pre)
      (scanFuel (chainAlloc i0 m pre)) = _
  have hfuel : scanFuel (chainAlloc i0 m pre) = (scanFuel (chainAlloc i0 m pre) - 1) + 1 := by
    unfold scanFuel
    omega
  rw [hfuel, scanLoop]
  rw [if_neg (by simp)]
  have hnm : ¬ ((chainAlloc i0 m pre).nextID = (chainAlloc i0 m pre).maxID) := by
    show ¬ (i0 + pre.length = m)
    omega
  rw [if_neg hnm]
  dsimp only
  rw [hfree]
  dsimp only
  have hfree' : mlookup (entriesIDFrom i0 pre) (i0 + pre.length) = none :=
    entriesIDFrom_lookup_ge pre i0 _ (Nat.le_refl _)
  have hent' : mlookup (entriesFrom i0 pre) b = none :=
    entriesFrom_lookup_notmem pre i0 b hb
  have hids : mupdate (entriesIDFrom i0 pre) (i0 + pre.length)
      (⟨b, i0 + pre.length⟩ : L3n4AddrID) = entriesIDFrom i0 (pre ++ [b]) := by
    rw [mupdate_append _ hfree', entriesIDFrom_append pre [b] i0]
    rfl
  have hents : mupdate (entriesFrom i0 pre) b (i0 + pre.length) =
      entriesFrom i0 (pre ++ [b]) := by
    rw [mupdate_append _ hent', entriesFrom_append pre [b] i0]
    rfl
  have hlen : i0 + pre.length + 1 = i0 + (pre ++ [b]).length := by
    simp only [List.length_append, List.length_cons, List.length_nil]
    omega
  show ((Except.ok (i0 + pre.length) : Except AllocErr Nat),
      ({ entitiesID := mupdate (entriesIDFrom i0 pre) (i0 + pre.length)
            (⟨b, i0 + pre.length⟩ : L3n4AddrID),
         entities := mupdate (entriesFrom i0 pre) b (i0 + pre.length),
         nextID := i0 + pre.length + 1, maxID := m, initNextID := i0,
         initMaxID := m } : IdAlloc)) =
    (Except.ok (i0 + pre.length), chainAlloc i0 m (pre ++ [b]))
  rw [hids, hents, hlen]
  rfl

/-- Sequentially acquiring distinct fresh addresses extends the chain one
ID at a time. -/
theorem acquireAll_chain (i0 m : Nat) :
    ∀ (addrs pre : List L3n4Addr), (pre ++ addrs).Nodup →
      i0 + pre.length + addrs.length ≤ m →
      acquireAll (chainAlloc i0 m pre) addrs =
        some (List.range' (i0 + pre.length) addrs.length, chainAlloc i0 m (pre ++ addrs)) := by
  intro addrs
  induction addrs with
  | nil =>
    intro pre _ _
    simp [acquireAll, List.range']
  | cons a rest ih =>
    intro pre hnd hle
    have ha : a ∉ pre := by
      intro h
      have : ¬ (pre ++ a :: rest).Nodup := by
        intro hn
        rcases List.disjoint_of_nodup_append hn h (by simp) 
      exact this hnd
    have hstep := chain_step i0 m pre a (by simp at hle ⊢; omega) ha
    unfold acquireAll
    rw [hstep]
    dsimp only
    have hnd' : ((pre ++ [a]) ++ rest).Nodup := by
      have : (pre ++ [a]) ++ rest = pre ++ a :: rest := by simp
      rw [this]
      exact hnd
    have hle' : i0 + (pre ++ [a]).length + rest.length ≤ m := by
      simp only [List.length_append, List.length_cons, List.length_nil] at hle ⊢
      simp at hle ⊢
      omega
    rw [ih (pre ++ [a]) hnd' hle']
    have hassoc : (pre ++ [a]) ++ rest = pre ++ a :: rest := by simp
    rw [hassoc]
    have hlen1 : i0 + (pre ++ [a]).length = i0 + pre.length + 1 := by
      simp only [List.length_append, List.length_cons, List.length_nil]
      omega
    rw [hlen1]
    show some (((i0 + pre.length) :: List.range' (i0 + pre.length + 1) rest.length : List Nat),
        chainAlloc i0 m (pre ++ a :: rest)) =
      some (List.range' (i0 + pre.length) (rest.length + 1), chainAlloc i0 m (pre ++ a :: rest))
    rw [List.range'_succ]

/-- After the rollover, a scan over a fully occupied range `[j, m)` ends in
the "no ID available" break with the cursor back at `startingID = m`. -/
theorem scanLoop_fail (svc : L3n4Addr) (al : IdAlloc) (m : Nat) (hm : al.maxID = m) :
    ∀ (fuel j : Nat), j ≤ m → m - j < fuel →
      (∀ id, j ≤ id → id < m → (mlookup al.entitiesID id).isSome = true) →
      scanLoop svc m true { al with nextID := j } fuel =
        (.error .noIDAvailable, { al with nextID := m }) := by
  intro fuel
  induction fuel with
  | zero =>
    intro j _ h2 _
    omega
  | succ fuel ih =>
    intro j hjm hfuel hocc
    rw [scanLoop]
    by_cases hj : j = m
    · subst hj
      rw [if_pos ⟨rfl, rfl⟩]
    · rw [if_neg (by simp [hj])]
      have hnm : ¬ (({ al with nextID := j } : IdAlloc).nextID =
          ({ al with nextID := j } : IdAlloc).maxID) := by
        show ¬ (j = al.maxID)
        rw [hm]
        exact hj
      rw [if_neg hnm]
      dsimp only
      have hsome := hocc j (Nat.le_refl j) (by omega)
      rcases hlook : mlookup al.entitiesID j with _ | v
      · rw [hlook] at hsome
        simp at hsome
      · dsimp only
        exact ih (j + 1) (by omega) (by omega) (fun id h1 h2 => hocc id (by omega) h2)

/-- After the rollover, a scan over an occupied range `[j, r)` with `r`
free claims exactly `r`. -/
theorem scanLoop_ok (svc : L3n4Addr) (al : IdAlloc) (m r s : Nat) (hm : al.maxID = m) :
    ∀ (fuel j : Nat), j ≤ r → r < m → r < s → r - j < fuel →
      (∀ id, j ≤ id → id < r → (mlookup al.entitiesID id).isSome = true) →
      mlookup al.entitiesID r = none →
      scanLoop svc s true { al with nextID := j } fuel =
        (.ok r, { al.addID svc r with nextID := r + 1 }) := by
  intro fuel
  induction fuel with
  | zero =>
    intro j _ _ _ h2 _ _
    omega
  | succ fuel ih =>
    intro j hjr hrm hrs hfuel hocc hfree
    rw [scanLoop]
    rw [if_neg (by simp; intro h; omega)]
    have hnm : ¬ (({ al with nextID := j } : IdAlloc).nextID =
        ({ al with nextID := j } : IdAlloc).maxID) := by
      show ¬ (j = al.maxID)
      rw [hm]
      omega
    rw [if_neg hnm]
    dsimp only
    by_cases hj : j = r
    · subst hj
      rw [hfree]
      rfl
    · have hsome := hocc j (Nat.le_refl j) (by omega)
      rcases hlook : mlookup al.entitiesID j with _ | v
      · rw [hlook] at hsome
        simp at hsome
      · dsimp only
        exact ih (j + 1) (by omega) hrm hrs (by omega)
          (fun id h1 h2 => hocc id (by omega) h2) hfree

/-- When every ID in `[i0, m)` is taken and the cursor sits at `m`, a fresh
acquisition wraps around once and fails with "no ID available", leaving
the allocator unchanged. -/
theorem chain_full_acquire_fails (i0 m : Nat) (pre : List L3n4Addr) (b : L3n4Addr)
    (hlen : i0 + pre.length = m) (hi0 : i0 < m) (hb : b ∉ pre) :
    (chainAlloc i0 m pre).acquireLocalID b 0 =
      (.error .noIDAvailable, chainAlloc i0 m pre) := by
  have hent : mlookup (chainAlloc i0 m pre).entities b = none :=
    entriesFrom_lookup_notmem pre i0 b hb
  unfold IdAlloc.acquireLocalID
  rw [hent]
  show scanLoop b (chainAlloc i0 m pre).nextID false (chainAlloc i0 m pre)
      (scanFuel (chainAlloc i0 m pre)) = _
  rw [show (chainAlloc i0 m pre).nextID = m from hlen]
  have hfuel : scanFuel (chainAlloc i0 m pre) = (scanFuel (chainAlloc i0 m pre) - 1) + 1 := by
    unfold scanFuel
    omega
  rw [hfuel, scanLoop]
  rw [if_neg (by simp)]
  have hmx : (chainAlloc i0 m pre).nextID = (chainAlloc i0 m pre).maxID := hlen
  rw [if_pos hmx]
  dsimp only
  rcases hlook : mlookup (chainAlloc i0 m pre).entitiesID (chainAlloc i0 m pre).initNextID
    with _ | v
  · have hlook' : mlookup (entriesIDFrom i0 pre) i0 = none := hlook
    have hsome := entriesIDFrom_lookup_isSome pre i0 i0 (Nat.le_refl i0) (by omega)
    rw [hlook'] at hsome
    simp at hsome
  · have hfuelbig : m - (i0 + 1) < scanFuel (chainAlloc i0 m pre) - 1 := by
      unfold scanFuel
      show m - (i0 + 1) < 2 * m + (i0 + pre.length) + (entriesIDFrom i0 pre).length + 4 - 1
      omega
    have hscan := scanLoop_fail b (chainAlloc i0 m pre) m rfl
      (scanFuel (chainAlloc i0 m pre) - 1) (i0 + 1) (by omega) hfuelbig
      (fun id h1 h2 => entriesIDFrom_lookup_isSome pre i0 id (by omega) (by omega))
    have hfix : ({ chainAlloc i0 m pre with nextID := m } : IdAlloc) = chainAlloc i0 m pre := by
      unfold chainAlloc
      rw [← hlen]
    rw [hfix] at hscan
    exact hscan

/-- After a failed full scan, releasing the ID `i0 + t` and acquiring a
fresh address succeeds by claiming exactly the released ID. -/
theorem release_then_acquire (i0 m : Nat) (pre : List L3n4Addr) (t : Nat) (c : L3n4Addr)
    (hlen : i0 + pre.length = m) (hi0 : i0 < m) (ht : t < pre.length) (hc : c ∉ pre) :
    (((chainAlloc i0 m pre).deleteLocalID (i0 + t)).acquireLocalID c 0).1 =
      .ok (i0 + t) := by
  have hgetmem : pre.get ⟨t, ht⟩ ∈ pre := pre.get_mem _ _
  have hgetne : pre.get ⟨t, ht⟩ ≠ c := fun h => hc (h ▸ hgetmem)
  have hdel : (chainAlloc i0 m pre).deleteLocalID (i0 + t) =
      { chainAlloc i0 m pre with
          entitiesID := merase (entriesIDFrom i0 pre) (i0 + t),
          entities := merase (entriesFrom i0 pre) (pre.get ⟨t, ht⟩) } := by
    unfold IdAlloc.deleteLocalID
    rw [show mlookup (chainAlloc i0 m pre).entitiesID (i0 + t) =
        some ⟨pre.get ⟨t, ht⟩, i0 + t⟩ from entriesIDFrom_lookup_at pre i0 t ht]
    rfl
  rw [hdel]
  set al1 : IdAlloc :=
    { chainAlloc i0 m pre with
        entitiesID := merase (entriesIDFrom i0 pre) (i0 + t),
        entities := merase (entriesFrom i0 pre) (pre.get ⟨t, ht⟩) } with hal1
  have hcnone : mlookup al1.entities c = none := by
    show mlookup (merase (entriesFrom i0 pre) (pre.get ⟨t, ht⟩)) c = none
    rw [mlookup_merase_ne _ _ _ hgetne]
    exact entriesFrom_lookup_notmem pre i0 c hc
  unfold IdAlloc.acquireLocalID
  rw [hcnone]
  show (scanLoop c al1.nextID false al1 (scanFuel al1)).1 = _
  have hnext : al1.nextID = m := hlen
  rw [hnext]
  have hfuel : scanFuel al1 = (scanFuel al1 - 1) + 1 := by
    unfold scanFuel
    omega
  rw [hfuel, scanLoop]
  rw [if_neg (by simp)]
  have hmx : al1.nextID = al1.maxID := hlen
  rw [if_pos hmx]
  dsimp only
  by_cases ht0 : t = 0
  · have hocc0 : mlookup al1.entitiesID al1.initNextID = none := by
      show mlookup (merase (entriesIDFrom i0 pre) (i0 + t)) i0 = none
      subst ht0
      exact mlookup_merase_self _ _
    rw [hocc0]
    subst ht0
    rfl
  · have hsome : (mlookup al1.entitiesID al1.initNextID).isSome = true := by
      show (mlookup (merase (entriesIDFrom i0 pre) (i0 + t)) i0).isSome = true
      rw [mlookup_merase_ne _ _ _ (by omega)]
      exact entriesIDFrom_lookup_isSome pre i0 i0 (Nat.le_refl i0) (by omega)
    rcases hlook : mlookup al1.entitiesID al1.initNextID with _ | v
    · rw [hlook] at hsome
      simp at hsome
    · have hfuelbig : (i0 + t) - (i0 + 1) < scanFuel al1 - 1 := by
        have h1 : al1.nextID = i0 + pre.length := rfl
        unfold scanFuel
        rw [h1]
        omega
      have hscan := scanLoop_ok c al1 m (i0 + t) m rfl
        (scanFuel al1 - 1) (i0 + 1) (by omega) (by omega) (by omega)
        hfuelbig
        (fun id h1 h2 => by
          show (mlookup (merase (entriesIDFrom i0 pre) (i0 + t)) id).isSome = true
          rw [mlookup_merase_ne _ _ _ (by omega)]
          exact entriesIDFrom_lookup_isSome pre i0 id (by omega) (by omega))
        (by
          show mlookup (merase (entriesIDFrom i0 pre) (i0 + t)) (i0 + t) = none
          exact mlookup_merase_self _ _)
      exact congrArg Prod.fst hscan

/-- C2 counterexample: with bounds `(1, 2)` — where `maxID - initNextID + 1
= 2` — the second distinct address already fails with "no ID available".
The scan resets the cursor to `initNextID` upon *reaching* `maxID`, before
probing that slot, so the ID `maxID` is never claimed by the scan. -/
theorem allocator_maxID_never_scanned :
    ((newIDAllocator 1 2).acquireLocalID addrA 0).1 = .ok 1 ∧
    ((((newIDAllocator 1 2).acquireLocalID addrA 0).2).acquireLocalID addrB 0).1 =
      .error .noIDAvailable := by
  decide

/-- C2 (amended): for an allocator with bounds `(initNextID, maxID)`,
`initNextID ≥ 1` and `initNextID < maxID`, acquiring IDs for
`maxID - initNextID` distinct addresses succeeds, assigning the distinct
IDs `initNextID, ..., maxID - 1` in order; the next fresh acquisition
fails with "no ID available" (the slot `maxID` is never probed by the
scan); and after releasing any allocated ID, acquiring a fresh address
succeeds by reusing exactly the released ID. -/
theorem allocator_wraparound_amended (i0 m : Nat) (addrs : List L3n4Addr)
    (h1 : 1 ≤ i0) (h2 : i0 < m) (hnd : addrs.Nodup) (hlen : addrs.length = m - i0) :
    acquireAll (newIDAllocator i0 m) addrs =
      some (List.range' i0 (m - i0), chainAlloc i0 m addrs) ∧
    (∀ b, b ∉ addrs →
      (chainAlloc i0 m addrs).acquireLocalID b 0 =
        (.error .noIDAvailable, chainAlloc i0 m addrs)) ∧
    (∀ t, t < m - i0 → ∀ c, c ∉ addrs →
      (((chainAlloc i0 m addrs).deleteLocalID (i0 + t)).acquireLocalID c 0).1 =
        .ok (i0 + t)) := by
  refine ⟨?_, ?_, ?_⟩
  · have h := acquireAll_chain i0 m addrs [] (by simpa using hnd)
      (by simp only [List.length_nil]; omega)
    show acquireAll (chainAlloc i0 m []) addrs =
      some (List.range' i0 (m - i0), chainAlloc i0 m addrs)
    rw [h]
    simp [hlen]
  · intro b hb
    exact chain_full_acquire_fails i0 m addrs b (by omega) h2 hb
  · intro t htlt c hcnot
    exact release_then_acquire i0 m addrs t c (by omega) h2 (by omega) hcnot

/-- Witness for C2's amended theorem with bounds `(1, 3)`: both scannable
IDs are handed out, a third address fails, and releasing ID 1 lets a fresh
address reuse it. -/
theorem allocator_wraparound_amended_witness :
    acquireAll (newIDAllocator 1 3) [addrA, addrB] =
      some ([1, 2], chainAlloc 1 3 [addrA, addrB]) ∧
    (chainAlloc 1 3 [addrA, addrB]).acquireLocalID addrC 0 =
      (.error .noIDAvailable, chainAlloc 1 3 [addrA, addrB]) ∧
    (((chainAlloc 1 3 [addrA, addrB]).deleteLocalID 1).acquireLocalID addrC 0).1 =
      .ok 1 := by
  have h := allocator_wraparound_amended 1 3 [addrA, addrB]
    (by decide) (by decide) (by decide) (by decide)
  exact ⟨h.1, h.2.1 addrC (by decide), h.2.2 0 (by decide) addrC (by decide)⟩

/-! ## C9: the allocator invariant -/

/-- Converse companion to `mlookup_mem`: a present key looks up to
something. -/
theorem mlookup_isSome_of_mem {κ ν : Type} [DecidableEq κ] {m : List (κ × ν)} {k : κ} {v : ν}
    (h : (k, v) ∈ m) : (mlookup m k).isSome = true := by
  induction m with
  | nil => simp at h
  | cons hd tl ih =>
    obtain ⟨k₀, v₀⟩ := hd
    rcases List.mem_cons.mp h with h | h
    · injection h with hk hv
      subst hk
      simp [mlookup]
    · by_cases hk : k₀ = k
      · simp [mlookup, hk]
      · simp only [mlookup_cons, if_neg hk]
        exact ih h

/-- The mutual-consistency invariant of the two allocator maps (the claim
is about this property): every entry of `entitiesID` stores its own key as
the record's ID, that key is nonzero, and the record's address maps back
to the key in `entities`; conversely every entry of `entities` maps, in
`entitiesID`, to exactly the pairing of its own address and ID. -/
def IdAlloc.Inv (al : IdAlloc) : Prop :=
  (∀ e ∈ al.entitiesID, e.2.id = e.1 ∧ e.1 ≠ 0 ∧
      mlookup al.entities e.2.l3n4Addr = some e.1) ∧
  (∀ e ∈ al.entities, mlookup al.entitiesID e.2 = some ⟨e.1, e.2⟩)

instance (al : IdAlloc) : Decidable al.Inv := by
  unfold IdAlloc.Inv
  exact inferInstance

/-- `IdAlloc.Inv` together with the cursor bounds every allocator reachable
from `newIDAllocator` maintains: the initial and the current scan cursor
are both at least 1. -/
def IdAlloc.ReachInv (al : IdAlloc) : Prop :=
  al.Inv ∧ 1 ≤ al.initNextID ∧ 1 ≤ al.nextID

instance (al : IdAlloc) : Decidable al.ReachInv := by
  unfold IdAlloc.ReachInv
  exact inferInstance

/-- `Inv` only depends on the two maps, not on the cursor fields. -/
theorem Inv_of_eq_maps {a b : IdAlloc} (h1 : a.entitiesID = b.entitiesID)
    (h2 : a.entities = b.entities) (h : a.Inv) : b.Inv := by
  obtain ⟨x, y⟩ := h
  constructor
  · intro e he
    rw [← h1] at he
    obtain ⟨p, q, r⟩ := x e he
    refine ⟨p, q, ?_⟩
    rw [← h2]
    exact r
  · intro e he
    rw [← h2] at he
    rw [← h1]
    exact y e he

/-- `addID` preserves the invariant when the ID is nonzero and both the ID
and the address are fresh — exactly the situation at its call sites inside
`acquireLocalID`. -/
theorem addID_Inv {al : IdAlloc} {svc : L3n4Addr} {i : Nat}
    (h : al.Inv) (hi : i ≠ 0) (hid : mlookup al.entitiesID i = none)
    (hsvc : mlookup al.entities svc = none) : (al.addID svc i).Inv := by
  obtain ⟨h1, h2⟩ := h
  constructor
  · intro e he
    rcases mem_mupdate he with he | he
    · subst he
      exact ⟨rfl, hi, mlookup_mupdate_self _ _ _⟩
    · obtain ⟨he1, he2, he3⟩ := h1 e he
      refine ⟨he1, he2, ?_⟩
      have hne : svc ≠ e.2.l3n4Addr := by
        intro hEq
        rw [← hEq, hsvc] at he3
        exact Option.noConfusion he3
      show mlookup (mupdate al.entities svc i) e.2.l3n4Addr = some e.1
      rw [mlookup_mupdate_ne _ _ _ _ hne]
      exact he3
  · intro e he
    rcases mem_mupdate he with he | he
    · subst he
      exact mlookup_mupdate_self _ _ _
    · have h2e := h2 e he
      have hne : i ≠ e.2 := by
        intro hEq
        rw [← hEq, hid] at h2e
        exact Option.noConfusion h2e
      show mlookup (mupdate al.entitiesID i ⟨svc, i⟩) e.2 = some ⟨e.1, e.2⟩
      rw [mlookup_mupdate_ne _ _ _ _ hne]
      exact h2e

/-- `deleteLocalID` preserves the invariant unconditionally. -/
theorem deleteLocalID_Inv {al : IdAlloc} (i : Nat) (h : al.Inv) :
    (al.deleteLocalID i).Inv := by
  obtain ⟨h1, h2⟩ := h
  rcases hlook : mlookup al.entitiesID i with _ | svcRec
  · have hdel : al.deleteLocalID i = al := by
      unfold IdAlloc.deleteLocalID
      rw [hlook]
    rw [hdel]
    exact ⟨h1, h2⟩
  · have hdel : al.deleteLocalID i =
        { al with entitiesID := merase al.entitiesID i,
                  entities := merase al.entities svcRec.l3n4Addr } := by
      unfold IdAlloc.deleteLocalID
      rw [hlook]
    rw [hdel]
    have hmem := mlookup_mem hlook
    obtain ⟨hrid, hrnz, hraddr⟩ := h1 (i, svcRec) hmem
    constructor
    · intro e he
      obtain ⟨heIn, heNe⟩ := mem_merase he
      obtain ⟨he1, he2, he3⟩ := h1 e heIn
      refine ⟨he1, he2, ?_⟩
      have hne : svcRec.l3n4Addr ≠ e.2.l3n4Addr := by
        intro hEq
        rw [← hEq, hraddr] at he3
        injection he3 with hinj
        exact heNe hinj.symm
      show mlookup (merase al.entities svcRec.l3n4Addr) e.2.l3n4Addr = some e.1
      rw [mlookup_merase_ne _ _ _ hne]
      exact he3
    · intro e he
      obtain ⟨heIn, heNe⟩ := mem_merase he
      have h2e := h2 e heIn
      have hne : i ≠ e.2 := by
        intro hEq
        rw [← hEq, hlook] at h2e
        injection h2e with hinj
        apply heNe
        rw [hinj]
      show mlookup (merase al.entitiesID i) e.2 = some ⟨e.1, e.2⟩
      rw [mlookup_merase_ne _ _ _ hne]
      exact h2e

/-- The scan loop preserves the reachability invariant: it only moves the
cursor (keeping it ≥ 1) until it claims a free, nonzero slot via `addID`
for an address absent from `entities`. -/
theorem scanLoop_ReachInv (svc : L3n4Addr) (startingID : Nat) :
    ∀ (fuel : Nat) (rollover : Bool) (al : IdAlloc), al.Inv →
      mlookup al.entities svc = none → 1 ≤ al.initNextID → 1 ≤ al.nextID →
      (scanLoop svc startingID rollover al fuel).2.ReachInv := by
  intro fuel
  induction fuel with
  | zero =>
    intro rollover al hInv hsvc hinit hn
    exact ⟨hInv, hinit, hn⟩
  | succ fuel ih =>
    intro rollover al hInv hsvc hinit hn
    rw [scanLoop]
    by_cases hbrk : al.nextID = startingID ∧ rollover = true
    · rw [if_pos hbrk]
      exact ⟨hInv, hinit, hn⟩
    · rw [if_neg hbrk]
      by_cases hmx : al.nextID = al.maxID
      · rw [if_pos hmx]
        dsimp only
        rcases hlook : mlookup al.entitiesID al.initNextID with _ | v
        · dsimp only
          exact ⟨Inv_of_eq_maps rfl rfl (addID_Inv hInv (by omega) hlook hsvc),
            hinit, Nat.le_add_left 1 al.initNextID⟩
        · dsimp only
          exact ih true _ (Inv_of_eq_maps rfl rfl hInv) hsvc hinit
            (Nat.le_add_left 1 al.initNextID)
      · rw [if_neg hmx]
        dsimp only
        rcases hlook : mlookup al.entitiesID al.nextID with _ | v
        · dsimp only
          exact ⟨Inv_of_eq_maps rfl rfl (addID_Inv hInv (by omega) hlook hsvc),
            hinit, Nat.le_add_left 1 al.nextID⟩
        · dsimp only
          exact ih rollover _ (Inv_of_eq_maps rfl rfl hInv) hsvc hinit
            (Nat.le_add_left 1 al.nextID)

/-- Under the invariant, a `none` result of `acquireLocalID`'s opening
double lookup really means the address is absent from `entities` (the
invariant rules out a dangling forward entry). -/
theorem entities_none_of_bind_none {al : IdAlloc} {svc : L3n4Addr} (h : al.Inv)
    (hb : (mlookup al.entities svc).bind
      (fun svcID => (mlookup al.entitiesID svcID).map (fun r => r.id)) = none) :
    mlookup al.entities svc = none := by
  rcases hlook : mlookup al.entities svc with _ | j
  · rfl
  · exfalso
    have h2 := h.2 (svc, j) (mlookup_mem hlook)
    rw [hlook] at hb
    simp [h2] at hb

/-- `acquireLocalID` preserves the reachability invariant in every branch. -/
theorem acquireLocalID_ReachInv (al : IdAlloc) (svc : L3n4Addr) (d : Nat)
    (h : al.ReachInv) : (al.acquireLocalID svc d).2.ReachInv := by
  obtain ⟨hInv, hinit, hn⟩ := h
  unfold IdAlloc.acquireLocalID
  split
  · exact ⟨hInv, hinit, hn⟩
  · next hb =>
    have hsvc := entities_none_of_bind_none hInv hb
    by_cases hd : d ≠ 0
    · rw [if_pos hd]
      rcases hlook : mlookup al.entitiesID d with _ | foundSVC
      · dsimp only
        by_cases hge : d ≥ al.nextID
        · rw [if_pos hge]
          exact ⟨Inv_of_eq_maps rfl rfl (addID_Inv hInv hd hlook hsvc),
            hinit, Nat.one_le_iff_ne_zero.mpr hd⟩
        · rw [if_neg hge]
          exact ⟨Inv_of_eq_maps rfl rfl (addID_Inv hInv hd hlook hsvc), hinit, hn⟩
      · dsimp only
        exact ⟨hInv, hinit, hn⟩
    · rw [if_neg hd]
      exact scanLoop_ReachInv svc al.nextID (scanFuel al) false al hInv hsvc hinit hn

/-- `deleteLocalID` preserves the reachability invariant. -/
theorem deleteLocalID_ReachInv (al : IdAlloc) (i : Nat) (h : al.ReachInv) :
    (al.deleteLocalID i).ReachInv := by
  obtain ⟨hInv, hinit, hn⟩ := h
  refine ⟨deleteLocalID_Inv i hInv, ?_, ?_⟩ <;>
    · unfold IdAlloc.deleteLocalID
      rcases mlookup al.entitiesID i with _ | svcRec
      · dsimp only
        assumption
      · dsimp only
        assumption

/-- C9 counterexample: `addID` does not preserve the claimed invariant in
general. Adopting ID 0 (`addID(svc, 0)`) violates "no stored ID is 0",
and re-binding an already-taken ID to a second address breaks the mutual
consistency of the two maps — the claim exempts neither case. -/
theorem allocator_addID_breaks_invariant :
    (newIDAllocator 1 65535).ReachInv ∧
    ¬ ((newIDAllocator 1 65535).addID addrA 0).ReachInv ∧
    ((newIDAllocator 1 65535).addID addrA 7).ReachInv ∧
    ¬ (((newIDAllocator 1 65535).addID addrA 7).addID addrB 7).ReachInv := by
  decide

/-- C9 (amended): `newIDAllocator` establishes the reachability invariant
(for a nonzero initial cursor); `acquireLocalID` and `deleteLocalID`
preserve it unconditionally; `addID` preserves it under the freshness
conditions that hold at its call sites inside `acquireLocalID` (nonzero
ID, ID not yet bound, address not yet bound). Under the invariant, no two
entries of `entities` give distinct addresses the same ID, every stored
ID is nonzero, and the two maps are mutually consistent in both
directions. -/
theorem allocator_invariant_amended (al : IdAlloc) (h : al.ReachInv) :
    (∀ i m, 1 ≤ i → (newIDAllocator i m).ReachInv) ∧
    (∀ svc d, (al.acquireLocalID svc d).2.ReachInv) ∧
    (∀ i, (al.deleteLocalID i).ReachInv) ∧
    (∀ svc i, i ≠ 0 → mlookup al.entitiesID i = none →
        mlookup al.entities svc = none → (al.addID svc i).ReachInv) ∧
    (∀ e ∈ al.entities, ∀ e' ∈ al.entities, e.2 = e'.2 → e.1 = e'.1) ∧
    (∀ e ∈ al.entitiesID, e.1 ≠ 0 ∧ e.2.id = e.1 ∧
        mlookup al.entities e.2.l3n4Addr = some e.1) ∧
    (∀ e ∈ al.entities, mlookup al.entitiesID e.2 = some ⟨e.1, e.2⟩) := by
  obtain ⟨hInv, hinit, hn⟩ := h
  refine ⟨?_, ?_, ?_, ?_, ?_, ?_, ?_⟩
  · intro i m hi
    refine ⟨⟨?_, ?_⟩, hi, hi⟩
    · intro e he
      simp [newIDAllocator] at he
    · intro e he
      simp [newIDAllocator] at he
  · intro svc d
    exact acquireLocalID_ReachInv al svc d ⟨hInv, hinit, hn⟩
  · intro i
    exact deleteLocalID_ReachInv al i ⟨hInv, hinit, hn⟩
  · intro svc i hi hid hsvc
    exact ⟨addID_Inv hInv hi hid hsvc, hinit, hn⟩
  · intro e he e' he' hEq
    have h1 := hInv.2 e he
    have h2 := hInv.2 e' he'
    rw [hEq, h2] at h1
    injection h1 with h1
    injection h1 with hA hB
    exact hA.symm
  · intro e he
    obtain ⟨a, b, c⟩ := hInv.1 e he
    exact ⟨b, a, c⟩
  · exact hInv.2

/-- Witness for C9's amended theorem at the allocator holding the single
binding `addrA ↦ 7`. -/
theorem allocator_invariant_amended_witness :
    (((newIDAllocator 1 65535).addID addrA 7).acquireLocalID addrB 0).2.ReachInv ∧
    (((newIDAllocator 1 65535).addID addrA 7).deleteLocalID 7).ReachInv ∧
    (((newIDAllocator 1 65535).addID addrA 7).addID addrB 9).ReachInv ∧
    (newIDAllocator 1 65535).ReachInv := by
  have h := allocator_invariant_amended ((newIDAllocator 1 65535).addID addrA 7) (by decide)
  exact ⟨h.2.1 addrB 0, h.2.2.1 7, h.2.2.2.1 addrB 9 (by decide) (by decide) (by decide),
    h.1 1 65535 (by decide)⟩

/-! ## C7: `sortedBackends` ordering and determinism -/

/-- The lexicographic strict order (state value, then family, then address
bits, then port) that `beLess` implements. -/
def beLtP (a b : BackendWithRevision) : Prop :=
  a.state.toNat < b.state.toNat ∨
  (a.state.toNat = b.state.toNat ∧
    (a.l3n4Addr.addrCluster.isV6.toNat < b.l3n4Addr.addrCluster.isV6.toNat ∨
      (a.l3n4Addr.addrCluster.isV6.toNat = b.l3n4Addr.addrCluster.isV6.toNat ∧
        (a.l3n4Addr.addrCluster.addr < b.l3n4Addr.addrCluster.addr ∨
          (a.l3n4Addr.addrCluster.addr = b.l3n4Addr.addrCluster.addr ∧
            a.l3n4Addr.port < b.l3n4Addr.port)))))

/-- `beLess` decides exactly the lexicographic order `beLtP`. -/
theorem beLess_true_iff (a b : BackendWithRevision) : beLess a b = true ↔ beLtP a b := by
  unfold beLess beLtP addrOrd
  rcases hva : a.l3n4Addr.addrCluster.isV6 with _ | _ <;>
    rcases hvb : b.l3n4Addr.addrCluster.isV6 with _ | _ <;>
      by_cases h1 : a.state.toNat < b.state.toNat <;>
        by_cases h2 : b.state.toNat < a.state.toNat <;>
          rcases hcmp : compare a.l3n4Addr.addrCluster.addr b.l3n4Addr.addrCluster.addr
            with _ | _ | _ <;>
            simp [h1, h2, Bool.toNat, Nat.compare_eq_lt.mp, Nat.compare_eq_eq.mp] <;>
            first
              | omega
              | (rw [Nat.compare_eq_lt] at hcmp; omega)
              | (rw [Nat.compare_eq_eq] at hcmp; omega)
              | (rw [Nat.compare_eq_gt] at hcmp; omega)

/-- Negated form of `beLess_true_iff`. -/
theorem beLess_false_iff (a b : BackendWithRevision) : beLess a b = false ↔ ¬ beLtP a b := by
  rw [← beLess_true_iff]
  cases h : beLess a b <;> simp

instance : IsTotal BackendWithRevision beLE := by
  constructor
  intro a b
  show beLess b a = false ∨ beLess a b = false
  by_cases hab : beLess a b = true
  · left
    rw [beLess_false_iff]
    have h1 := (beLess_true_iff a b).mp hab
    unfold beLtP at h1 ⊢
    omega
  · right
    exact Bool.not_eq_true _ ▸ Bool.of_not_eq_true hab

instance : IsTrans BackendWithRevision beLE := by
  constructor
  intro a b c hab hbc
  show beLess c a = false
  have h1 : beLess b a = false := hab
  have h2 : beLess c b = false := hbc
  rw [beLess_false_iff] at h1 h2 ⊢
  unfold beLtP at h1 h2 ⊢
  omega

/-- Anything ordered no later than an Active backend is itself Active. -/
theorem active_of_beLE_active {a b : BackendWithRevision} (h : beLE a b)
    (hb : b.state = .active) : a.state = .active := by
  by_contra hna
  have hlt : beLtP b a := by
    left
    have h1 : 1 ≤ a.state.toNat := by
      cases hsa : a.state
      · exact absurd hsa hna
      · decide
      · decide
      · decide
    rw [hb]
    show 0 < a.state.toNat
    omega
  have htrue := (beLess_true_iff b a).mpr hlt
  have hfalse : beLess b a = false := h
  rw [htrue] at hfalse
  exact Bool.noConfusion hfalse

/-- Every backend in the `numActive`-prefix of any list is Active. -/
theorem mem_take_numActive : ∀ (l : List BackendWithRevision) (be : BackendWithRevision),
    be ∈ l.take (numActive l) → be.state = .active := by
  intro l
  induction l with
  | nil =>
    intro be h
    simp at h
  | cons a t ih =>
    intro be h
    by_cases ha : a.state = .active
    · have hn : numActive (a :: t) = numActive t + 1 := by simp [numActive, ha]
      rw [hn, List.take_succ_cons] at h
      rcases List.mem_cons.mp h with h | h
      · rw [h]
        exact ha
      · exact ih be h
    · have hn : numActive (a :: t) = 0 := by simp [numActive, ha]
      rw [hn] at h
      simp at h

/-- In a sorted list, every backend past the `numActive`-prefix is
non-Active. -/
theorem mem_drop_numActive : ∀ (l : List BackendWithRevision), l.Sorted beLE →
    ∀ be ∈ l.drop (numActive l), be.state ≠ .active := by
  intro l
  induction l with
  | nil =>
    intro _ be h
    simp at h
  | cons a t ih =>
    intro hs be h
    obtain ⟨hhead, htail⟩ := List.sorted_cons.mp hs
    by_cases ha : a.state = .active
    · have hn : numActive (a :: t) = numActive t + 1 := by simp [numActive, ha]
      rw [hn, List.drop_succ_cons] at h
      exact ih htail be h
    · have hn : numActive (a :: t) = 0 := by simp [numActive, ha]
      rw [hn, List.drop_zero] at h
      rcases List.mem_cons.mp h with h | h
      · rw [h]
        exact ha
      · intro hact
        exact ha (active_of_beLE_active (hhead be h) hact)

/-- Two sorted permutations of each other are equal when the order is
antisymmetric on their members. -/
theorem sorted_perm_antisymm_eq :
    ∀ (l₁ l₂ : List BackendWithRevision), l₁.Perm l₂ →
      l₁.Sorted beLE → l₂.Sorted beLE →
      (∀ a ∈ l₁, ∀ b ∈ l₁, beLE a b → beLE b a → a = b) → l₁ = l₂ := by
  intro l₁
  induction l₁ with
  | nil =>
    intro l₂ hp _ _ _
    exact hp.nil_eq
  | cons a t ih =>
    intro l₂ hp hs₁ hs₂ hanti
    cases l₂ with
    | nil =>
      have h0 := hp.symm.nil_eq
      simp at h0
    | cons b t₂ =>
      have hab : a = b := by
        have hbmem : b ∈ a :: t := hp.mem_iff.mpr (List.mem_cons_self b t₂)
        have hamem : a ∈ b :: t₂ := hp.mem_iff.mp (List.mem_cons_self a t)
        rcases List.mem_cons.mp hamem with h | h
        · exact h
        · rcases List.mem_cons.mp hbmem with h' | h'
          · exact h'.symm
          · have h1 : beLE a b := (List.sorted_cons.mp hs₁).1 b h'
            have h2 : beLE b a := (List.sorted_cons.mp hs₂).1 a h
            exact hanti a (List.mem_cons_self a t) b hbmem h1 h2
      subst hab
      have hp' : t.Perm t₂ := hp.cons_inv
      rw [ih t₂ hp' (List.sorted_cons.mp hs₁).2 (List.sorted_cons.mp hs₂).2
        (fun x hx y hy hxy hyx =>
          hanti x (List.mem_cons_of_mem a hx) y (List.mem_cons_of_mem a hy) hxy hyx)]

/-- C7: `sortedBackends` returns a permutation of its input, sorted by the
comparator (state with Active first, then L3 address, then port); every
backend in the `numActive`-prefix is Active and none after it is; sorting
is idempotent; and — provided no two backends of the list tie on all
three sort keys without being equal — the output is the same for every
permutation of the input, i.e. a deterministic function of the backend
set. -/
theorem sortedBackends_order (bes : List BackendWithRevision)
    (hkey : ∀ a ∈ bes, ∀ b ∈ bes, beLE a b → beLE b a → a = b) :
    (sortedBackends bes).Perm bes ∧
    (sortedBackends bes).Sorted beLE ∧
    (∀ be ∈ (sortedBackends bes).take (numActive (sortedBackends bes)), be.state = .active) ∧
    (∀ be ∈ (sortedBackends bes).drop (numActive (sortedBackends bes)), be.state ≠ .active) ∧
    sortedBackends (sortedBackends bes) = sortedBackends bes ∧
    (∀ bes', bes.Perm bes' → sortedBackends bes = sortedBackends bes') := by
  refine ⟨List.perm_insertionSort beLE bes, List.sorted_insertionSort beLE bes,
    ?_, ?_, ?_, ?_⟩
  · intro be h
    exact mem_take_numActive _ be h
  · intro be h
    exact mem_drop_numActive _ (List.sorted_insertionSort beLE bes) be h
  · exact List.Sorted.insertionSort_eq (List.sorted_insertionSort beLE bes)
  · intro bes' hperm
    apply sorted_perm_antisymm_eq
    · exact (List.perm_insertionSort beLE bes).trans
        (hperm.trans (List.perm_insertionSort beLE bes').symm)
    · exact List.sorted_insertionSort beLE bes
    · exact List.sorted_insertionSort beLE bes'
    · intro x hx y hy hxy hyx
      exact hkey x ((List.perm_insertionSort beLE bes).subset hx)
        y ((List.perm_insertionSort beLE bes).subset hy) hxy hyx


/-- Sample Active backend for the C7 witness. -/
def beA0 : BackendWithRevision := ⟨addrA, .active, 0, 1⟩

/-- Sample Terminating backend for the C7 witness. -/
def beT0 : BackendWithRevision := ⟨addrB, .terminating, 0, 1⟩

/-- Witness for C7 on the two-element list `[beT0, beA0]` and its
permutation `[beA0, beT0]`. -/
theorem sortedBackends_order_witness :
    (sortedBackends [beT0, beA0]).Perm [beT0, beA0] ∧
    (sortedBackends [beT0, beA0]).Sorted beLE ∧
    beA0.state = .active ∧
    beT0.state ≠ .active ∧
    sortedBackends (sortedBackends [beT0, beA0]) = sortedBackends [beT0, beA0] ∧
    sortedBackends [beT0, beA0] = sortedBackends [beA0, beT0] := by
  have h := sortedBackends_order [beT0, beA0] (by decide)
  exact ⟨h.1, h.2.1, h.2.2.1 beA0 (by decide), h.2.2.2.1 beT0 (by decide),
    h.2.2.2.2.1, h.2.2.2.2.2 [beA0, beT0] (by decide)⟩

/-! ## C10: IP-family discipline of the per-node expansions -/

/-- The IP family of a datapath write that targets a per-frontend entry of
the services map (`none` for every other table). -/
def svcOpFam : WOp → Option Bool
  | .updSvc k _ => some k.isV6
  | .delSvc k => some k.isV6
  | _ => none

/-- "Every services-map write carries `fe`'s IP family." -/
def FamOK (fe : Frontend) (op : WOp) : Prop :=
  ∀ b, svcOpFam op = some b → b = fe.address.isIPv6

/-- Every services-map write of `updateFrontend g` carries `g`'s family. -/
theorem updateFrontend_famOK (g : Frontend) (st : St) :
    TraceExt st ((updateFrontend g st).2) (FamOK g) := by
  refine updateFrontend_traceExt g st ?_ ?_ ?_ ?_ ?_ ?_ ?_
  · intro k v b hb
    simp [svcOpFam] at hb
  · intro k v hk b hb
    simp only [svcOpFam, Option.some.injEq] at hb
    rw [← hb]
    exact hk
  · intro k hk b hb
    simp only [svcOpFam, Option.some.injEq] at hb
    rw [← hb]
    exact hk
  · intro kr v _ b hb
    simp [svcOpFam] at hb
  · intro k b hb
    simp [svcOpFam] at hb
  · intro k b hb
    simp [svcOpFam] at hb
  · intro o _ b hb
    simp [svcOpFam] at hb

/-- Trace extension of the orphan loop of `deleteFrontend` (all its writes
are backend-map deletes). -/
theorem delOrphansNoAff_traceExt (orphans : List BackendRec) (st : St) {P : WOp → Prop}
    (hBeD : ∀ k, P (.delBe k)) :
    TraceExt st ((delOrphansNoAff orphans st).2) P := by
  unfold delOrphansNoAff
  refine forEachE_traceExt _ (fun o s => ?_) orphans st
  rcases hd : deleteBackend o.addr.isIPv6 o.id s with ⟨r, s1⟩
  have h1 : TraceExt s s1 P := by
    have : TraceExt s (deleteBackend o.addr.isIPv6 o.id s).2 P := by
      unfold deleteBackend
      exact DeleteBackendMap_traceExt _ _ (hBeD _)
    rwa [hd] at this
  cases r with
  | error e => exact h1
  | ok u => exact h1.trans (TraceExt.same_trace rfl)

/-- Trace extension of `deleteFrontend`: its writes are affinity deletes,
backend-map deletes, services-map deletes keyed by `fe`'s family, and one
reverse-NAT delete keyed by `fe`'s family. -/
theorem deleteFrontend_traceExt (fe : Frontend) (st : St) {P : WOp → Prop}
    (hAffD : ∀ k, P (.delAff k))
    (hBeD : ∀ k, P (.delBe k))
    (hSvcD : ∀ k, k.isV6 = fe.address.isIPv6 → P (.delSvc k))
    (hRevD : ∀ k, k.isV6 = fe.address.isIPv6 → P (.delRevNat k)) :
    TraceExt st ((deleteFrontend fe st).2) P := by
  unfold deleteFrontend
  rcases hl : st.serviceIDAlloc.lookupLocalID fe.address with _ | feID
  · exact TraceExt.refl st P
  · dsimp only
    rcases h1 : forEachE (fun addr st =>
        deleteAffinityMatch feID ((mlookup st.backendStates addr).getD BackendRec.zero).id st)
        ((mlookup st.backendReferences fe.address).getD []) st with ⟨r1, s1⟩
    have e1 : TraceExt st s1 P := by
      have := forEachE_traceExt (fun addr st =>
          deleteAffinityMatch feID ((mlookup st.backendStates addr).getD BackendRec.zero).id st)
        (fun a s => deleteAffinityMatch_traceExt _ _ s (hAffD _))
        ((mlookup st.backendReferences fe.address).getD []) st
      rwa [h1] at this
    cases r1 with
    | error e => exact e1
    | ok u1 =>
      dsimp only
      rcases h2 : delOrphansNoAff (orphanBackends s1 fe.address []) s1 with ⟨r2, s2⟩
      have e2 : TraceExt s1 s2 P := by
        have := delOrphansNoAff_traceExt (orphanBackends s1 fe.address []) s1 hBeD
        rwa [h2] at this
      cases r2 with
      | error e => exact e1.trans e2
      | ok u2 =>
        dsimp only
        rcases h3 : forEachE (fun i st => DeleteService (svcKeyOf fe i) st)
            (List.range (((mlookup s2.backendReferences fe.address).getD []).length + 1)) s2
          with ⟨r3, s3⟩
        have e3 : TraceExt s2 s3 P := by
          have := forEachE_traceExt (fun i st => DeleteService (svcKeyOf fe i) st)
            (fun i s => DeleteService_traceExt _ s (hSvcD _ rfl))
            (List.range (((mlookup s2.backendReferences fe.address).getD []).length + 1)) s2
          rwa [h3] at this
        cases r3 with
        | error e => exact (e1.trans e2).trans e3
        | ok u3 =>
          dsimp only
          rcases h4 : DeleteRevNat ⟨fe.address.isIPv6, feID % 65536⟩ s3 with ⟨r4, s4⟩
          have e4 : TraceExt s3 s4 P := by
            have := DeleteRevNat_traceExt ⟨fe.address.isIPv6, feID % 65536⟩ s3 (hRevD _ rfl)
            rwa [h4] at this
          cases r4 with
          | error e => exact ((e1.trans e2).trans e3).trans e4
          | ok u4 =>
            dsimp only
            refine (((e1.trans e2).trans e3).trans e4).trans (TraceExt.same_trace ?_)
            show (updateBackendRefCounts s4 fe.address []).trace = s4.trace
            exact updateBackendRefCounts_trace s4 fe.address []

/-- Every services-map write of `deleteFrontend g` carries `g`'s family. -/
theorem deleteFrontend_famOK (g : Frontend) (st : St) :
    TraceExt st ((deleteFrontend g st).2) (FamOK g) := by
  refine deleteFrontend_traceExt g st ?_ ?_ ?_ ?_
  · intro k b hb
    simp [svcOpFam] at hb
  · intro k b hb
    simp [svcOpFam] at hb
  · intro k hk b hb
    simp only [svcOpFam, Option.some.injEq] at hb
    rw [← hb]
    exact hk
  · intro k _ b hb
    simp [svcOpFam] at hb

/-- A clone substituted with a node address of the frontend's own family
has the frontend's family, so its family discipline transfers. -/
theorem FamOK_of_subst {fe : Frontend} {a : IPAddr} (h : a.isV6 = fe.address.isIPv6)
    (op : WOp) : FamOK (substAddr fe a) op → FamOK fe op := by
  intro hf b hb
  have h1 : b = (substAddr fe a).address.isIPv6 := hf b hb
  rw [show (substAddr fe a).address.isIPv6 = a.isV6 from rfl] at h1
  rw [h1]
  exact h

/-- The per-node update loop of `Update` only issues services-map writes of
`fe`'s family (mismatched node addresses are skipped). -/
theorem updLoop_famOK (fe : Frontend) :
    ∀ (addrs old : List IPAddr) (st : St),
      TraceExt st ((updLoop fe addrs old st).2.2) (FamOK fe) := by
  intro addrs
  induction addrs with
  | nil =>
    intro old st
    exact TraceExt.refl st _
  | cons a rest ih =>
    intro old st
    rw [updLoop]
    by_cases hfam : (fe.address.isIPv6 != a.isV6) = true
    · rw [if_pos hfam]
      exact ih old st
    · rw [if_neg hfam]
      have hfam' : a.isV6 = fe.address.isIPv6 := by
        simp at hfam
        exact hfam.symm
      rcases hu : updateFrontend (substAddr fe a) st with ⟨r, s1⟩
      have h1 : TraceExt st s1 (FamOK fe) := by
        have h0 := (updateFrontend_famOK (substAddr fe a) st).mono
          (fun op => FamOK_of_subst hfam' op)
        rwa [hu] at h0
      cases r with
      | ok u =>
        dsimp only
        exact h1.trans (ih (old.erase a) s1)
      | error e => exact h1

/-- The orphan-node-address deletion loop of `Update` only issues
services-map writes of `fe`'s family (same skip). -/
theorem updDelLoop_famOK (fe : Frontend) :
    ∀ (addrs : List IPAddr) (st : St),
      TraceExt st ((updDelLoop fe addrs st).2) (FamOK fe) := by
  intro addrs
  induction addrs with
  | nil =>
    intro st
    exact TraceExt.refl st _
  | cons a rest ih =>
    intro st
    rw [updDelLoop]
    by_cases hfam : (fe.address.isIPv6 != a.isV6) = true
    · rw [if_pos hfam]
      exact ih st
    · rw [if_neg hfam]
      have hfam' : a.isV6 = fe.address.isIPv6 := by
        simp at hfam
        exact hfam.symm
      rcases hu : deleteFrontend (substAddr fe a) st with ⟨r, s1⟩
      have h1 : TraceExt st s1 (FamOK fe) := by
        have h0 := (deleteFrontend_famOK (substAddr fe a) st).mono
          (fun op => FamOK_of_subst hfam' op)
        rwa [hu] at h0
      cases r with
      | ok u =>
        dsimp only
        exact h1.trans (ih s1)
      | error e => exact h1

/-- C10 (amended, Update side): every services-map write issued by `Update`
— including those of the per-node NodePort/HostPort expansion and of the
orphan-node cleanup — carries the IP family of the frontend's address:
node addresses of the other family are skipped, so no per-node entry is
created, updated, or deleted for them. (`Delete`'s mirrored expansion has
no such filter; see the counterexample.) -/
theorem Update_family_discipline (fe : Frontend) (st : St) :
    TraceExt st ((Update fe st).2) (FamOK fe) := by
  unfold Update
  rcases h0 : updateFrontend fe st with ⟨r0, s0⟩
  have e0 : TraceExt st s0 (FamOK fe) := by
    have := updateFrontend_famOK fe st
    rwa [h0] at this
  cases r0 with
  | error e => exact e0
  | ok u =>
    dsimp only
    by_cases hnp : isNodePortLike fe = true
    · rw [if_pos hnp]
      rcases h1 : updLoop fe fe.nodePortAddrs
          ((mlookup s0.nodePortAddrs fe.address.port).getD []) s0 with ⟨r1, p⟩
      have e1 : TraceExt s0 p.2 (FamOK fe) := by
        have := updLoop_famOK fe fe.nodePortAddrs
          ((mlookup s0.nodePortAddrs fe.address.port).getD []) s0
        rwa [h1] at this
      cases r1 with
      | error e => exact e0.trans e1
      | ok u1 =>
        dsimp only
        rcases h2 : updDelLoop fe p.1 p.2 with ⟨r2, s2⟩
        have e2 : TraceExt p.2 s2 (FamOK fe) := by
          have := updDelLoop_famOK fe p.1 p.2
          rwa [h2] at this
        cases r2 with
        | error e => exact (e0.trans e1).trans e2
        | ok u2 =>
          dsimp only
          exact (e0.trans e1).trans (e2.trans (TraceExt.same_trace rfl))
    · rw [if_neg hnp]
      exact e0

/-- The sample node address of the wrong (IPv6) family for the C10
counterexample. -/
def a6 : IPAddr := ⟨true, 99⟩

/-- A NodePort frontend at the IPv4 address `addrA` (port 80). -/
def feNP : Frontend :=
  { address := addrA, svcType := .nodePort, backends := [], nodePortAddrs := [],
    extTrafficPolicyLocal := false, intTrafficPolicyLocal := false, natPolicy := 0,
    sessionAffinity := false, sessionAffinityTimeoutSec := 0, l7ProxyPort := 0,
    loopbackHostPort := false }

/-- A state in which the IPv6 node address `a6` was recorded for port 80
and its per-node frontend `addrD` holds service ID 1. -/
def stNP : St :=
  { emptySt with
      serviceIDAlloc := (newIDAllocator 1 2).addID addrD 1,
      nodePortAddrs := [(80, [a6])] }

/-- C10 counterexample: `Delete` of the IPv4 NodePort frontend runs its
per-node loop over the recorded node addresses with no family check, and
issues a services-map delete (and reverse-NAT delete) keyed IPv6,
contradicting the claimed skip for `Delete`'s mirrored expansion. -/
theorem Delete_no_family_skip :
    feNP.address.isIPv6 = false ∧
    stNP.trace = [] ∧
    (Delete feNP stNP).1 = .ok () ∧
    WOp.delSvc ⟨true, 99, 80, 0, 0⟩ ∈ (Delete feNP stNP).2.trace ∧
    svcOpFam (WOp.delSvc ⟨true, 99, 80, 0, 0⟩) = some true := by
  decide

/-! ## C3: a second reconciliation pass is content-idempotent -/

/-- The service-slot value written for an Active backend (`slotKV`'s value
at the threaded `svcVal`). -/
def slotVal (cfgv : Config) (fe : Frontend) (feID beID : Nat) : SvcVal :=
  { flags := flagsOf cfgv fe, revNat := feID % 65536, backendID := beID,
    count := 0, affTimeoutSec := 0, l7ProxyPort := 0 }

/-- The master-slot value written by `upsertMaster`. -/
def masterVal (cfgv : Config) (fe : Frontend) (feID numAct : Nat) : SvcVal :=
  let v : SvcVal :=
    { flags := flagsOf cfgv fe, revNat := feID % 65536, backendID := 0,
      count := numAct, affTimeoutSec := 0, l7ProxyPort := 0 }
  let v := if fe.sessionAffinity then { v with affTimeoutSec := fe.sessionAffinityTimeoutSec }
    else v
  if fe.l7ProxyPort ≠ 0 then { v with l7ProxyPort := fe.l7ProxyPort } else v

/-- Core-equal states agree on the failure oracle. -/
theorem core_failures {t s : St} (h : t.core = s.core) : t.failures = s.failures := by
  have := congrArg StCore.failures h
  exact this

/-- Core-equal states agree on the configuration. -/
theorem core_cfg {t s : St} (h : t.core = s.core) : t.cfg = s.cfg := by
  have := congrArg StCore.cfg h
  exact this

/-- Core-equal states agree on the backend registry. -/
theorem core_backendStates {t s : St} (h : t.core = s.core) :
    t.backendStates = s.backendStates := by
  have := congrArg StCore.backendStates h
  exact this

/-- Core-equal states agree on the committed membership map. -/
theorem core_backendReferences {t s : St} (h : t.core = s.core) :
    t.backendReferences = s.backendReferences := by
  have := congrArg StCore.backendReferences h
  exact this

/-- Core-equal states agree on the services map. -/
theorem core_svcMap {t s : St} (h : t.core = s.core) : t.svcMap = s.svcMap := by
  have := congrArg StCore.svcMap h
  exact this

/-- Core-equal states agree on the reverse-NAT map. -/
theorem core_revNatMap {t s : St} (h : t.core = s.core) : t.revNatMap = s.revNatMap := by
  have := congrArg StCore.revNatMap h
  exact this

/-- With an exhausted (empty) failure oracle every write succeeds and only
appends to the trace before applying its table change. -/
theorem tryWrite_nil_ok (op : WOp) (apply : St → St) (t : St) (hf : t.failures = []) :
    tryWrite op apply t = (.ok (), apply { t with trace := t.trace ++ [op] }) := by
  unfold tryWrite popFailure
  dsimp only
  rw [hf]
  rfl

/-- Re-upserting the row already stored in the services map only extends
the trace. -/
theorem UpdateService_noop (k : SvcKey) (v : SvcVal) {t s : St} (hcore : t.core = s.core)
    (hf : s.failures = []) (hk : mlookup s.svcMap k = some v) :
    (UpdateService k v t).1 = .ok () ∧ ((UpdateService k v t).2).core = s.core := by
  have hft : t.failures = [] := (core_failures hcore).trans hf
  have hkt : mlookup t.svcMap k = some v := by
    rw [core_svcMap hcore]
    exact hk
  unfold UpdateService
  rw [tryWrite_nil_ok _ _ _ hft]
  refine ⟨rfl, ?_⟩
  rw [← hcore]
  have hm : mupdate t.svcMap k v = t.svcMap := mupdate_noop _ _ _ hkt
  show St.core { { t with trace := t.trace ++ [WOp.updSvc k v] } with
      svcMap := mupdate t.svcMap k v } = t.core
  unfold St.core
  dsimp only
  rw [hm]

/-- Deleting an absent services-map row only extends the trace. -/
theorem DeleteService_noop (k : SvcKey) {t s : St} (hcore : t.core = s.core)
    (hf : s.failures = []) (hk : mlookup s.svcMap k = none) :
    (DeleteService k t).1 = .ok () ∧ ((DeleteService k t).2).core = s.core := by
  have hft : t.failures = [] := (core_failures hcore).trans hf
  have hkt : mlookup t.svcMap k = none := by
    rw [core_svcMap hcore]
    exact hk
  unfold DeleteService
  rw [tryWrite_nil_ok _ _ _ hft]
  refine ⟨rfl, ?_⟩
  rw [← hcore]
  have hm : merase t.svcMap k = t.svcMap := merase_noop _ _ hkt
  show St.core { { t with trace := t.trace ++ [WOp.delSvc k] } with
      svcMap := merase t.svcMap k } = t.core
  unfold St.core
  dsimp only
  rw [hm]

/-- Re-upserting the stored reverse-NAT row only extends the trace. -/
theorem UpdateRevNat_noop (k : RevKey) (v : RevVal) {t s : St} (hcore : t.core = s.core)
    (hf : s.failures = []) (hk : mlookup s.revNatMap k = some v) :
    (UpdateRevNat k v t).1 = .ok () ∧ ((UpdateRevNat k v t).2).core = s.core := by
  have hft : t.failures = [] := (core_failures hcore).trans hf
  have hkt : mlookup t.revNatMap k = some v := by
    rw [core_revNatMap hcore]
    exact hk
  unfold UpdateRevNat
  rw [tryWrite_nil_ok _ _ _ hft]
  refine ⟨rfl, ?_⟩
  rw [← hcore]
  have hm : mupdate t.revNatMap k v = t.revNatMap := mupdate_noop _ _ _ hkt
  show St.core { { t with trace := t.trace ++ [WOp.updRevNat k v] } with
      revNatMap := mupdate t.revNatMap k v } = t.core
  unfold St.core
  dsimp only
  rw [hm]

/-- `acquireLocalID` on an address that already holds an ID (with its
round-trip entry) returns that ID and leaves the allocator untouched. -/
theorem acquireLocalID_hit (al : IdAlloc) (a : L3n4Addr) (d id : Nat)
    (h1 : mlookup al.entities a = some id)
    (h2 : mlookup al.entitiesID id = some ⟨a, id⟩) :
    al.acquireLocalID a d = (.ok id, al) := by
  unfold IdAlloc.acquireLocalID
  rw [h1, Option.some_bind, h2, Option.map_some']

/-- When the committed membership for `f` is exactly the new backend set,
there are no orphans. -/
theorem orphanBackends_self_nil (s : St) (f : L3n4Addr) (ns : List L3n4Addr)
    (h : mlookup s.backendReferences f = some ns) : orphanBackends s f ns = [] := by
  unfold orphanBackends
  rw [h]
  rw [List.filterMap_eq_nil_iff]
  intro a ha
  rw [if_pos ha]

/-- Walking a duplicate-free set over itself erases everything and touches
no reference count. -/
theorem foldl_erase_self :
    ∀ (l : List L3n4Addr) (t : St), l.Nodup →
      l.foldl (fun (p : List L3n4Addr × St) addr =>
        if addr ∈ p.1 then (p.1.erase addr, p.2) else (p.1, decOne p.2 addr)) (l, t) =
      ([], t) := by
  intro l
  induction l with
  | nil =>
    intro t _
    rfl
  | cons a rest ih =>
    intro t hnd
    simp only [List.foldl_cons]
    rw [if_pos (List.mem_cons_self a rest), List.erase_cons_head]
    exact ih t (List.nodup_cons.mp hnd).2

/-- The deduplicated backend address set is duplicate-free. -/
theorem backendAddrsOf_nodup (bes : List BackendWithRevision) :
    (backendAddrsOf bes).Nodup := by
  unfold backendAddrsOf
  suffices h : ∀ (l : List BackendWithRevision) (acc : List L3n4Addr), acc.Nodup →
      (l.foldl (fun acc be => if be.l3n4Addr ∈ acc then acc else acc ++ [be.l3n4Addr])
        acc).Nodup by
    exact h bes [] List.nodup_nil
  intro l
  induction l with
  | nil =>
    intro acc h
    exact h
  | cons be rest ih =>
    intro acc h
    simp only [List.foldl_cons]
    by_cases hmem : be.l3n4Addr ∈ acc
    · rw [if_pos hmem]
      exact ih acc h
    · rw [if_neg hmem]
      refine ih _ ?_
      simp [List.nodup_append, h, hmem]

/-- Recommitting the identical membership set is a pure no-op on the state
core. -/
theorem updateReferences_noop {t s : St} (f : L3n4Addr) (ns : List L3n4Addr)
    (hcore : t.core = s.core) (href : mlookup s.backendReferences f = some ns)
    (hnd : ns.Nodup) : (updateReferences t f ns).core = s.core := by
  have hrt : mlookup t.backendReferences f = some ns := by
    rw [core_backendReferences hcore]
    exact href
  unfold updateReferences updateBackendRefCounts
  rw [hrt]
  dsimp only
  rw [foldl_erase_self ns t hnd]
  dsimp only
  rw [List.foldl_nil]
  have hm : mupdate t.backendReferences f ns = t.backendReferences :=
    mupdate_noop _ _ _ hrt
  rw [hm]
  exact hcore

/-- With session affinity disabled in the config, the per-backend affinity
maintenance does nothing. -/
theorem maintainAffinity_off (fe : Frontend) (feID beID : Nat) (be : BackendWithRevision)
    (t : St) (hcfg : t.cfg.enableSessionAffinity = false) :
    maintainAffinity fe feID beID be t = (.ok (), t) := by
  have hc : ¬ (t.cfg.enableSessionAffinity = true) := by
    rw [hcfg]
    exact Bool.false_ne_true
  unfold maintainAffinity upsertAffinityMatch deleteAffinityMatch
  by_cases houter : (fe.sessionAffinity && (be.state == .active)) = true
  · rw [if_pos houter, if_neg hc]
  · rw [if_neg houter, if_neg hc]

/-- With an up-to-date stored revision the stale-backend upsert is
skipped. -/
theorem maybeUpsertBackend_skip (beID : Nat) (be : BackendWithRevision) (t : St)
    (hrev : be.revision ≤
      ((mlookup t.backendStates be.l3n4Addr).getD BackendRec.zero).revision) :
    maybeUpsertBackend beID be t = (.ok (), t) := by
  have h : ¬ (decide
      (((mlookup t.backendStates be.l3n4Addr).getD BackendRec.zero).revision <
        be.revision) = true) := by
    simp only [decide_eq_true_eq]
    omega
  unfold maybeUpsertBackend needsUpdate
  rw [if_neg h]

/-- With a nonzero registry ID the backend loop reuses it without touching
the allocator. -/
theorem getBackendID_reuse (be : BackendWithRevision) (t : St)
    (hid : ((mlookup t.backendStates be.l3n4Addr).getD BackendRec.zero).id ≠ 0) :
    getBackendID be t =
      (.ok ((mlookup t.backendStates be.l3n4Addr).getD BackendRec.zero).id, t) := by
  unfold getBackendID
  rw [if_pos hid]

/-- The per-backend facts that make a reconciliation pass a no-op: the
registry holds a nonzero ID and an up-to-date revision, and for an Active
backend at position `pos` the slot row `pos + 1` already stores exactly
what the pass writes. -/
def BeOK (fe : Frontend) (feID : Nat) (s : St) (be : BackendWithRevision) (pos : Nat) : Prop :=
  ((mlookup s.backendStates be.l3n4Addr).getD BackendRec.zero).id ≠ 0 ∧
  be.revision ≤ ((mlookup s.backendStates be.l3n4Addr).getD BackendRec.zero).revision ∧
  (be.state = .active → mlookup s.svcMap (svcKeyOf fe (pos + 1)) =
    some (slotVal s.cfg fe feID
      (((mlookup s.backendStates be.l3n4Addr).getD BackendRec.zero).id)))

/-- One iteration of the backend loop on a core-equal state under `BeOK`
is a no-op on the core and threads the key/value pair in shape. -/
theorem processBackend_noop (fe : Frontend) (feID i : Nat) (be : BackendWithRevision)
    (σ b : Nat) {t s : St} (hcore : t.core = s.core)
    (hf : s.failures = []) (hcfg : s.cfg.enableSessionAffinity = false)
    (hbe : BeOK fe feID s be i) :
    ∃ σ' b',
      (processBackend fe feID i be (svcKeyOf fe σ, slotVal s.cfg fe feID b) t).1 =
        .ok (svcKeyOf fe σ', slotVal s.cfg fe feID b') ∧
      ((processBackend fe feID i be (svcKeyOf fe σ, slotVal s.cfg fe feID b) t).2).core =
        s.core := by
  obtain ⟨hid, hrev, hslot⟩ := hbe
  have hbs : t.backendStates = s.backendStates := core_backendStates hcore
  have hidt : ((mlookup t.backendStates be.l3n4Addr).getD BackendRec.zero).id ≠ 0 := by
    rw [hbs]
    exact hid
  have hrevt : be.revision ≤
      ((mlookup t.backendStates be.l3n4Addr).getD BackendRec.zero).revision := by
    rw [hbs]
    exact hrev
  have hcfgt : t.cfg.enableSessionAffinity = false := by
    rw [core_cfg hcore]
    exact hcfg
  unfold processBackend
  rw [getBackendID_reuse be t hidt]
  dsimp only
  set idt := ((mlookup t.backendStates be.l3n4Addr).getD BackendRec.zero).id with hidtdef
  rw [maybeUpsertBackend_skip idt be t hrevt]
  dsimp only
  unfold writeSlot
  by_cases hact : be.state = .active
  · rw [if_pos hact]
    have hsl : slotKV feID idt i (svcKeyOf fe σ, slotVal s.cfg fe feID b) =
        (svcKeyOf fe (i + 1), slotVal s.cfg fe feID idt) := rfl
    rw [hsl]
    unfold upsertService
    have hk : mlookup s.svcMap (svcKeyOf fe (i + 1)) =
        some (slotVal s.cfg fe feID idt) := by
      rw [hidtdef, hbs]
      exact hslot hact
    obtain ⟨hr, hc⟩ := UpdateService_noop (svcKeyOf fe (i + 1))
      (slotVal s.cfg fe feID idt) hcore hf hk
    rcases hup2 : UpdateService (svcKeyOf fe (i + 1)) (slotVal s.cfg fe feID idt) t
      with ⟨r, t1⟩
    rw [hup2] at hr hc
    dsimp only at hr hc
    subst hr
    dsimp only
    rw [maintainAffinity_off fe feID idt be t1 (by rw [core_cfg hc]; exact hcfg)]
    dsimp only
    exact ⟨i + 1, idt, rfl, hc⟩
  · rw [if_neg hact]
    dsimp only
    rw [maintainAffinity_off fe feID idt be t hcfgt]
    dsimp only
    exact ⟨σ, b, rfl, hcore⟩

/-- The whole backend loop on a core-equal state under `BeOK` for every
element is a no-op on the core. -/
theorem processBackends_noop (fe : Frontend) (feID : Nat) {s : St}
    (hf : s.failures = []) (hcfg : s.cfg.enableSessionAffinity = false) :
    ∀ (rest : List BackendWithRevision) (i σ b : Nat) (t : St), t.core = s.core →
      (∀ j be, rest.get? j = some be → BeOK fe feID s be (i + j)) →
      ∃ σ' b',
        (processBackends fe feID rest i (svcKeyOf fe σ, slotVal s.cfg fe feID b) t).1 =
          .ok (svcKeyOf fe σ', slotVal s.cfg fe feID b') ∧
        ((processBackends fe feID rest i (svcKeyOf fe σ, slotVal s.cfg fe feID b) t).2).core =
          s.core := by
  intro rest
  induction rest with
  | nil =>
    intro i σ b t hcore _
    exact ⟨σ, b, rfl, hcore⟩
  | cons be rest ih =>
    intro i σ b t hcore hall
    have hbe : BeOK fe feID s be i := by
      have h0 := hall 0 be rfl
      rwa [Nat.add_zero] at h0
    obtain ⟨σ1, b1, h1, h2⟩ := processBackend_noop fe feID i be σ b hcore hf hcfg hbe
    rw [processBackends]
    rcases hp : processBackend fe feID i be (svcKeyOf fe σ, slotVal s.cfg fe feID b) t
      with ⟨r, t1⟩
    rw [hp] at h1 h2
    dsimp only at h1 h2
    subst h1
    dsimp only
    refine ih (i + 1) σ1 b1 t1 h2 ?_
    intro j be' hj
    have h3 := hall (j + 1) be' (by simpa using hj)
    rwa [show i + (j + 1) = i + 1 + j from by omega] at h3

/-- A fold of per-element no-ops over a list is a no-op on the core. -/
theorem forEachE_noop_mem {α : Type} (f : α → St → Except Err Unit × St) {s : St}
    (l : List α)
    (hstep : ∀ a ∈ l, ∀ t : St, t.core = s.core →
      (f a t).1 = .ok () ∧ ((f a t).2).core = s.core) :
    ∀ t : St, t.core = s.core →
      (forEachE f l t).1 = .ok () ∧ ((forEachE f l t).2).core = s.core := by
  induction l with
  | nil =>
    intro t ht
    exact ⟨rfl, ht⟩
  | cons a rest ih =>
    intro t ht
    rw [forEachE]
    rcases hfa : f a t with ⟨r, t1⟩
    obtain ⟨hr, hc⟩ := hstep a (List.mem_cons_self a rest) t ht
    rw [hfa] at hr hc
    dsimp only at hr hc
    subst hr
    dsimp only
    exact ih (fun x hx t' ht' => hstep x (List.mem_cons_of_mem a hx) t' ht') t1 hc

/-- C3 (amended): a second reconciliation pass over an already-reconciled
frontend is content-idempotent rather than write-free: when the service ID
is already allocated, every backend's registry record is current (nonzero
ID, up-to-date revision), the committed membership equals the deduplicated
backend set, the services/reverse-NAT rows already store exactly what the
pass writes, slots beyond the active count are clean, no write failures
are injected, and session affinity is disabled in the config, the pass
returns success and leaves the entire state core — bookkeeping and every
datapath table — unchanged (only the write trace grows, by the re-issued
slot/master/reverse-NAT upserts). -/
theorem updateFrontend_rerun_noop (fe : Frontend) (s : St) (feID : Nat)
    (hent : mlookup s.serviceIDAlloc.entities fe.address = some feID)
    (hentID : mlookup s.serviceIDAlloc.entitiesID feID = some ⟨fe.address, feID⟩)
    (hfeid : feID % 65536 ≠ 0)
    (hf : s.failures = [])
    (hcfg : s.cfg.enableSessionAffinity = false)
    (hrefs : mlookup s.backendReferences fe.address =
      some (backendAddrsOf (sortedBackends fe.backends)))
    (hbes : ∀ j be, (sortedBackends fe.backends).get? j = some be → BeOK fe feID s be j)
    (hhigh : ∀ j, numActive (sortedBackends fe.backends) < j →
      mlookup s.svcMap (svcKeyOf fe j) = none)
    (hmaster : mlookup s.svcMap (svcKeyOf fe 0) =
      some (masterVal s.cfg fe feID (numActive (sortedBackends fe.backends))))
    (hrev : mlookup s.revNatMap ⟨fe.address.isIPv6, feID % 65536⟩ =
      some ⟨fe.address.addrCluster.addr, fe.address.port⟩) :
    (updateFrontend fe s).1 = .ok () ∧ ((updateFrontend fe s).2).core = s.core := by
  unfold updateFrontend
  rw [acquireLocalID_hit s.serviceIDAlloc fe.address 0 feID hent hentID]
  dsimp only
  rw [show ({ s with serviceIDAlloc := s.serviceIDAlloc } : St) = s from rfl]
  rw [orphanBackends_self_nil s fe.address (backendAddrsOf (sortedBackends fe.backends)) hrefs]
  rw [show delOrphans feID [] s = (.ok (), s) from rfl]
  dsimp only
  rw [show ({ flags := flagsOf s.cfg fe, revNat := feID % 65536, backendID := 0,
              count := 0, affTimeoutSec := 0, l7ProxyPort := 0 } : SvcVal) =
    slotVal s.cfg fe feID 0 from rfl]
  obtain ⟨σ1, b1, hp1, hp2⟩ := processBackends_noop fe feID hf hcfg
    (sortedBackends fe.backends) 0 0 0 s rfl
    (fun j be hj => by simpa using hbes j be hj)
  rcases hpp : processBackends fe feID (sortedBackends fe.backends) 0
      (svcKeyOf fe 0, slotVal s.cfg fe feID 0) s with ⟨r2, t2⟩
  rw [hpp] at hp1 hp2
  dsimp only at hp1 hp2
  subst hp1
  dsimp only
  rw [show t2.backendReferences = s.backendReferences from core_backendReferences hp2,
    hrefs, Option.getD_some]
  unfold upsertRevNat
  rw [if_neg hfeid]
  rw [show (⟨(svcKeyOf fe σ1).isV6, feID % 65536⟩ : RevKey) =
      ⟨fe.address.isIPv6, feID % 65536⟩ from rfl]
  rw [show (⟨(svcKeyOf fe σ1).addr, (svcKeyOf fe σ1).port⟩ : RevVal) =
      ⟨fe.address.addrCluster.addr, fe.address.port⟩ from rfl]
  obtain ⟨hr3, hc3⟩ := UpdateRevNat_noop ⟨fe.address.isIPv6, feID % 65536⟩
    ⟨fe.address.addrCluster.addr, fe.address.port⟩ hp2 hf hrev
  rcases hrn : UpdateRevNat ⟨fe.address.isIPv6, feID % 65536⟩
      ⟨fe.address.addrCluster.addr, fe.address.port⟩ t2 with ⟨r3, t3⟩
  rw [hrn] at hr3 hc3
  dsimp only at hr3 hc3
  subst hr3
  dsimp only
  rw [show upsertMaster (svcKeyOf fe σ1) (slotVal s.cfg fe feID b1) fe
      (numActive (sortedBackends fe.backends)) t3 =
    UpdateService (svcKeyOf fe 0)
      (masterVal s.cfg fe feID (numActive (sortedBackends fe.backends))) t3 from rfl]
  obtain ⟨hr4, hc4⟩ := UpdateService_noop (svcKeyOf fe 0)
    (masterVal s.cfg fe feID (numActive (sortedBackends fe.backends))) hc3 hf hmaster
  rcases hma : UpdateService (svcKeyOf fe 0)
      (masterVal s.cfg fe feID (numActive (sortedBackends fe.backends))) t3 with ⟨r4, t4⟩
  rw [hma] at hr4 hc4
  dsimp only at hr4 hc4
  subst hr4
  dsimp only
  unfold cleanupSlots
  obtain ⟨hr5, hc5⟩ := forEachE_noop_mem
    (fun i st => DeleteService { svcKeyOf fe σ1 with slot := i + 1 } st)
    ((List.range ((backendAddrsOf (sortedBackends fe.backends)).length -
        numActive (sortedBackends fe.backends))).map
      (fun j => numActive (sortedBackends fe.backends) + j))
    (fun a ha t' ht' => by
      rcases List.mem_map.mp ha with ⟨j, hjmem, rfl⟩
      have hgt : numActive (sortedBackends fe.backends) <
          numActive (sortedBackends fe.backends) + j + 1 := by omega
      have hnone := hhigh _ hgt
      exact DeleteService_noop _ ht' hf hnone)
    t4 hc4
  rcases hcl : forEachE (fun i st => DeleteService { svcKeyOf fe σ1 with slot := i + 1 } st)
      ((List.range ((backendAddrsOf (sortedBackends fe.backends)).length -
          numActive (sortedBackends fe.backends))).map
        (fun j => numActive (sortedBackends fe.backends) + j)) t4 with ⟨r5, t5⟩
  rw [hcl] at hr5 hc5
  dsimp only at hr5 hc5
  subst hr5
  dsimp only
  exact ⟨rfl, updateReferences_noop fe.address (backendAddrsOf (sortedBackends fe.backends))
    hc5 hrefs (backendAddrsOf_nodup _)⟩

/-- A services map whose rows all use other slot numbers has no row for
slot `j`. -/
theorem mlookup_slot_none (m : List (SvcKey × SvcVal)) (fe : Frontend) (j : Nat)
    (h : ∀ e ∈ m, e.1.slot ≠ j) : mlookup m (svcKeyOf fe j) = none := by
  induction m with
  | nil => rfl
  | cons e rest ih =>
    obtain ⟨k, v⟩ := e
    have hk : ¬ (k = svcKeyOf fe j) := by
      intro hEq
      refine h (k, v) (List.mem_cons_self _ _) ?_
      rw [hEq]
      rfl
    simp only [mlookup_cons, if_neg hk]
    exact ih (fun e he => h e (List.mem_cons_of_mem _ he))

instance (fe : Frontend) (feID : Nat) (s : St) (be : BackendWithRevision) (pos : Nat) :
    Decidable (BeOK fe feID s be pos) := by
  unfold BeOK
  exact inferInstance

/-- A configuration with session affinity disabled. -/
def cfgOff : Config := ⟨false, false⟩

/-- The empty starting state under `cfgOff`. -/
def stC : St := { emptySt with cfg := cfgOff }

/-- A single Active backend at `addrB`, revision 1. -/
def beC : BackendWithRevision := ⟨addrB, .active, 0, 1⟩

/-- The ClusterIP frontend at `addrA` with the single backend `beC`. -/
def feC : Frontend := { feA with backends := [beC] }

/-- C3 counterexample: reconciling `feC` twice from the clean state issues
three further datapath writes on the second call (the service slot, the
reverse-NAT row and the master slot are re-upserted), so the second call
is not write-free as claimed — it merely rewrites identical content. -/
theorem updateFrontend_rerun_writes :
    (updateFrontend feC stC).1 = .ok () ∧
    ((updateFrontend feC stC).2).trace.length = 4 ∧
    (updateFrontend feC ((updateFrontend feC stC).2)).1 = .ok () ∧
    ((updateFrontend feC ((updateFrontend feC stC).2)).2).trace.length = 7 := by
  decide

/-- Witness for C3's amended theorem at the state produced by a first
successful reconciliation of `feC` from the clean state. -/
theorem updateFrontend_rerun_noop_witness :
    (updateFrontend feC ((updateFrontend feC stC).2)).1 = .ok () ∧
    ((updateFrontend feC ((updateFrontend feC stC).2)).2).core =
      ((updateFrontend feC stC).2).core := by
  refine updateFrontend_rerun_noop feC ((updateFrontend feC stC).2) 1
    (by decide) (by decide) (by decide) (by decide) (by decide) (by decide) ?_ ?_
    (by decide) (by decide)
  · intro j be hj
    rcases j with _ | j
    · have he : (sortedBackends feC.backends).get? 0 = some beC := by decide
      rw [he] at hj
      injection hj with hbe
      subst hbe
      decide
    · have hl : sortedBackends feC.backends = [beC] := by decide
      rw [hl] at hj
      simp at hj
  · intro j hj
    have hn : numActive (sortedBackends feC.backends) = 1 := by decide
    rw [hn] at hj
    have hb : ∀ e ∈ ((updateFrontend feC stC).2).svcMap, e.1.slot < 2 := by decide
    exact mlookup_slot_none _ feC j (fun e he => by have := hb e he; omega)

end LBRec
